import Mathlib

/-!
# SparseDNN reader: coordinate text, slab-blocked CSR, binary layout, arena packing

A shallow embedding of `SparseDNN/utility/reader.hpp`.

Conventions of the embedding.

* Text is a `List Char`.  A stream read with `std::getline` is the list of the
  strings that the successive calls return (`getlineAll`).
* A call that may throw or has no defined behaviour returns `Except Fault _`.
  `Fault.undefinedBehaviour` marks the places where the source runs into
  behaviour that C++ leaves undefined and of which nothing more can be said (a
  read of `tokens` where nothing was ever stored, an index outside `row_array`, a
  division by zero); no exception is thrown there.
* Ids, offsets and counts are `Int` and array extents (`rows`, `cols`, `COL_BLK`,
  `N_SLAB`, counts) are `Nat`, without a bound; `std::stoi` checks the range of
  `int`, as in the source.  The integer expressions whose value the statements
  are about (the layer stride and location, the virtual row, the extent of
  `row_array`) are computed with the widths of the machine: `wrapInt` for `int`
  and `wrapSize` for `size_t`.
* The vector `tokens` of the parse loops is declared before the loop and only
  cleared in it; its storage is carried from line to line (`TokenStorage`).
* Binary files and the arena `int* arr` are sequences of 4-byte words, each word
  given by its `int` value.  A value of type `T` occupies
  `sizeof(T) / sizeof(int)` consecutive words.
-/

namespace SparseDNN

/-! ## Outcomes -/

/-- The ways in which a call of the reader does not return normally. -/
inductive Fault where
  /-- `std::invalid_argument`, thrown by `std::stoi`, `std::stof`, `std::stod`. -/
  | invalidArgument
  /-- `std::out_of_range`, thrown by `std::stoi`, `std::stof`, `std::stod`. -/
  | outOfRange
  /-- `std::runtime_error`, thrown when a file cannot be opened. -/
  | runtimeError
  /-- No exception: the source does something C++ leaves undefined. -/
  | undefinedBehaviour
  deriving DecidableEq, Repr

deriving instance DecidableEq for Except

/-- The faults that are exceptions raised on a malformed field. -/
def Fault.isFormatError : Fault → Bool
  | .invalidArgument => true
  | .outOfRange => true
  | _ => false

/-! ## Text: `std::getline`, `std::stoi` -/

/-- The strings returned by the successive calls `std::getline(stream, x, delim)`
on a stream holding `s`, up to the first call that fails.  A call fails when no
character is left; a final piece without delimiter is returned when it is not
empty. -/
def getlineAll (delim : Char) : List Char → List (List Char)
  | [] => []
  | c :: cs =>
    if c = delim then [] :: getlineAll delim cs
    else
      match getlineAll delim cs with
      | [] => [[c]]
      | l :: ls => (c :: l) :: ls

/-- The characters `std::isspace` accepts in the C locale. -/
def isSpace (c : Char) : Bool :=
  c = ' ' || c = '\t' || c = '\n' || c = Char.ofNat 11 || c = Char.ofNat 12 || c = '\r'

/-- A decimal digit. -/
def isDigit (c : Char) : Bool := 48 ≤ c.toNat && c.toNat ≤ 57

/-- The value of a decimal digit. -/
def digitVal (c : Char) : Nat := c.toNat - 48

/-- The number a run of digits denotes, most significant digit first. -/
def digitsVal (ds : List Char) : Nat := ds.foldl (fun acc c => 10 * acc + digitVal c) 0

/-- Removes an optional sign; the flag tells whether it was `-`. -/
def stripSign : List Char → Bool × List Char
  | '-' :: r => (true, r)
  | '+' :: r => (false, r)
  | s => (false, s)

/-- The call `std::stoi(str)`: skips leading white space, reads an optional sign and the
longest run of decimal digits, and ignores what follows.  Throws
`std::invalid_argument` when there is no digit and `std::out_of_range` when the
number does not fit an `int`. -/
def stoi (str : List Char) : Except Fault Int :=
  let body := stripSign (str.dropWhile isSpace)
  let ds := body.2.takeWhile isDigit
  if ds = [] then .error .invalidArgument
  else
    let v : Int := if body.1 then -(digitsVal ds : Int) else (digitsVal ds : Int)
    if v < -2147483648 ∨ 2147483647 < v then .error .outOfRange else .ok v

/-- The number of characters up to which a `std::string` keeps its text inside the
string object itself (`_S_local_capacity` of libstdc++).  A longer text lives in
a buffer that the destructor releases. -/
def localCapacity : Nat := 15

/-- The storage of `std::vector<std::string> tokens`, slot by slot from index 0:
the elements, and behind them the slots that held an element of an earlier line.
The vector is declared before the loop over the lines and is only `clear()`ed
inside it, which destroys the elements and keeps the storage.  A slot is `some t`
when the string in it, an element or a destroyed one, has the text `t`, and
`none` when the destroyed string has released its buffer. -/
abbrev TokenStorage := List (Option (List Char))

/-- The statement `tokens.clear()`: a destroyed string of at most `localCapacity`
characters leaves its text in the slot. -/
def tokensClear (tokens : TokenStorage) : TokenStorage :=
  tokens.map (fun slot => slot.filter (fun t => decide (t.length ≤ localCapacity)))

/-- The statements `tokens.clear()` and
`while (std::getline(lineStream, token, '\t')) tokens.push_back(std::move(token))`
on a line: the fields of the line take the first slots, and the slots behind them
stay as `clear()` left them. -/
def tokensOfLine (tokens : TokenStorage) (line : List Char) : TokenStorage :=
  (getlineAll '\t' line).map some ++ (tokensClear tokens).drop (getlineAll '\t' line).length

/-- The element `tokens[k]`.  `operator[]` does not check its index: past the fields
of the line it yields what the slot holds, the text a field of an earlier line
left there.  Where nothing was ever stored, or the string has released its
buffer, the behaviour is undefined. -/
def tokenAt (tokens : TokenStorage) (k : Nat) : Except Fault (List Char) :=
  match tokens.get? k with
  | some (some t) => .ok t
  | _ => .error .undefinedBehaviour

/-! ## Triplets and the parse loops -/

/-- The type `Triplet<T>` (and `Eigen::Triplet<T>`): a row, a column and a value. -/
structure Triplet (V : Type) where
  row : Int
  col : Int
  value : V
  deriving DecidableEq, Repr

/-- The statement `triplet_list.emplace_back(...)` of the loop of
`tsv_string_to_matrix`, run when the line has been split into `tokens`: the
triplet `(stoi(tokens[0]) - 1, stoi(tokens[1]) - 1, to_numeric<T>(tokens[2]))` is
appended.  The arguments are evaluated in the order they are written. -/
def tsv_string_to_matrix.entry {V : Type} (to_numeric : List Char → Except Fault V)
    (tokens : TokenStorage) : Except Fault (Triplet V) :=
  match tokenAt tokens 0 with
  | .error e => .error e
  | .ok t0 =>
    match stoi t0 with
    | .error e => .error e
    | .ok r =>
      match tokenAt tokens 1 with
      | .error e => .error e
      | .ok t1 =>
        match stoi t1 with
        | .error e => .error e
        | .ok c =>
          match tokenAt tokens 2 with
          | .error e => .error e
          | .ok t2 =>
            match to_numeric t2 with
            | .error e => .error e
            | .ok v => .ok ⟨r - 1, c - 1, v⟩

/-- The statement `emplace_back(...)` of the parse loop of `tsv_file_to_binary_file`
(weights) and of `tsv_string_to_CSR_packed_array`: as above, but the row is
relocated to `stoi(tokens[0]) - 1 + rows * ((stoi(tokens[1]) - 1) / COL_BLK)`,
with the truncating division of C++; dividing by zero is undefined. -/
def tsv_file_to_binary_file.entry {V : Type} (to_numeric : List Char → Except Fault V)
    (rows COL_BLK : Nat) (tokens : TokenStorage) : Except Fault (Triplet V) :=
  match tokenAt tokens 0 with
  | .error e => .error e
  | .ok t0 =>
    match stoi t0 with
    | .error e => .error e
    | .ok r =>
      match tokenAt tokens 1 with
      | .error e => .error e
      | .ok t1 =>
        match stoi t1 with
        | .error e => .error e
        | .ok c =>
          if COL_BLK = 0 then .error .undefinedBehaviour
          else
            match tokenAt tokens 2 with
            | .error e => .error e
            | .ok t2 =>
              match to_numeric t2 with
              | .error e => .error e
              | .ok v => .ok ⟨r - 1 + (rows : Int) * Int.tdiv (c - 1) (COL_BLK : Int), c - 1, v⟩

/-- A loop `while (std::getline(read_s, line)) { split; body }` that appends one
element per line: each line is split into `tokens`, whose storage is carried from
line to line, and the body runs on it.  The loop stops at the first line on which
the body does not return normally and then yields no list at all. -/
def parseLines {α : Type} (body : TokenStorage → Except Fault α) :
    TokenStorage → List (List Char) → Except Fault (List α)
  | _, [] => .ok []
  | tokens, l :: ls =>
    match body (tokensOfLine tokens l) with
    | .error e => .error e
    | .ok t =>
      match parseLines body (tokensOfLine tokens l) ls with
      | .error e => .error e
      | .ok ts => .ok (t :: ts)

/-- The `triplet_list` that the parse loop of `tsv_string_to_matrix` has built
when it ends. -/
def tsv_string_to_matrix.triplet_list {V : Type} (to_numeric : List Char → Except Fault V)
    (s : List Char) : Except Fault (List (Triplet V)) :=
  parseLines (tsv_string_to_matrix.entry to_numeric) [] (getlineAll '\n' s)

/-- The `triplets` that the parse loop of `tsv_file_to_binary_file` (weights)
has built, for one layer, before they are sorted. -/
def tsv_file_to_binary_file.triplets {V : Type} (to_numeric : List Char → Except Fault V)
    (rows COL_BLK : Nat) (data_str : List Char) : Except Fault (List (Triplet V)) :=
  parseLines (tsv_file_to_binary_file.entry to_numeric rows COL_BLK) [] (getlineAll '\n' data_str)

/-! ## `std::sort` and the order of `Triplet` -/

/-- What `std::sort(first, last)` guarantees when `lt` is the `operator<` of the
elements: the result is a rearrangement of the input in which no element is
`lt` an earlier one.  The relative order of equivalent elements is not
specified.  The header that declares `operator<` of `Triplet<T>`
(`matrix_format.h`) is not among the sources, so the builder takes the sorting
function as a parameter and the theorems ask for this contract. -/
def IsStdSort {α : Type} (lt : α → α → Bool) (sort : List α → List α) : Prop :=
  ∀ l, (sort l).Perm l ∧ (sort l).Pairwise (fun a b => lt b a = false)

/-- An order compares the (virtual) row first. -/
def RowFirst {V : Type} (lt : Triplet V → Triplet V → Bool) : Prop :=
  ∀ a b : Triplet V, a.row < b.row → lt a b = true

/-- An instance of `operator<`: by row, then by column. -/
def Triplet.ltRowCol {V : Type} (a b : Triplet V) : Bool :=
  decide (a.row < b.row) || (decide (a.row = b.row) && decide (a.col < b.col))

/-- An instance of `operator<`: by row only. -/
def Triplet.ltRow {V : Type} (a b : Triplet V) : Bool := decide (a.row < b.row)

/-- Inserts `a` into a sorted list, before the first element that is not `lt a`. -/
def insertSorted {α : Type} (lt : α → α → Bool) (a : α) : List α → List α
  | [] => [a]
  | b :: l => if lt b a then b :: insertSorted lt a l else a :: b :: l

/-- An instance of `std::sort`: insertion sort that keeps the input order of
equivalent elements. -/
def insertionSort {α : Type} (lt : α → α → Bool) : List α → List α
  | [] => []
  | a :: l => insertSorted lt a (insertionSort lt l)

/-- Inserts `a` into a sorted list, before the first element that `a` is `lt`. -/
def insertSortedLast {α : Type} (lt : α → α → Bool) (a : α) : List α → List α
  | [] => [a]
  | b :: l => if lt a b then a :: b :: l else b :: insertSortedLast lt a l

/-- Another instance of `std::sort`: insertion sort that reverses the input
order of equivalent elements. -/
def insertionSortRev {α : Type} (lt : α → α → Bool) : List α → List α
  | [] => []
  | a :: l => insertSortedLast lt a (insertionSortRev lt l)

/-! ## The slab-blocked CSR builder of `tsv_file_to_binary_file` (weights) -/

/-- What `tsv_file_to_binary_file` holds for one layer when it opens the output
file: the two header fields and the three arrays. -/
structure SlabCSR (V : Type) where
  rows : Int
  nnz : Int
  row_array : List Int
  col_array : List Int
  data_array : List V
  deriving DecidableEq, Repr

/-- The statement `++a[k]` on a list: the element at `k` is incremented. -/
def incrAt : List Int → Nat → List Int
  | [], _ => []
  | x :: xs, 0 => (x + 1) :: xs
  | x :: xs, k + 1 => x :: incrAt xs k

/-- The counting statements `++row_array[triplets[j].row + 1]` for `j` from `0`
on.  An index outside `row_array` is undefined behaviour. -/
def countRows {V : Type} : List (Triplet V) → List Int → Except Fault (List Int)
  | [], row_array => .ok row_array
  | t :: ts, row_array =>
    if 0 ≤ t.row + 1 ∧ t.row + 1 < (row_array.length : Int) then
      countRows ts (incrAt row_array (t.row + 1).toNat)
    else .error .undefinedBehaviour

/-- Running sums with a carry. -/
def partialSumFrom (acc : Int) : List Int → List Int
  | [] => []
  | x :: xs => (acc + x) :: partialSumFrom (acc + x) xs

/-- The call `std::partial_sum(first, last, first)`: the running sums, in place. -/
def partial_sum (l : List Int) : List Int := partialSumFrom 0 l

/-- The builder: `std::sort`, `nnz = triplets.size()`, `row_array` zeroed with
`rows * N_SLAB + 1` entries, the loop that counts and copies columns and values,
and `std::partial_sum` over `row_array`. -/
def tsv_file_to_binary_file.build {V : Type} (sort : List (Triplet V) → List (Triplet V))
    (rows N_SLAB : Nat) (triplets : List (Triplet V)) : Except Fault (SlabCSR V) :=
  let sorted := sort triplets
  match countRows sorted (List.replicate (rows * N_SLAB + 1) 0) with
  | .error e => .error e
  | .ok counts =>
    .ok ⟨(rows : Int), (sorted.length : Int), partial_sum counts,
      sorted.map (fun t => t.col), sorted.map (fun t => t.value)⟩

/-! ## Words, files and the arena -/

/-- The numeric kind `T`: `float` or `double`. -/
inductive Precision where
  | single
  | double
  deriving DecidableEq, Repr

/-- The size `sizeof(T)` in bytes. -/
def Precision.sizeofT : Precision → Nat
  | .single => 4
  | .double => 8

/-- The size `sizeof(int)` in bytes. -/
def sizeofInt : Nat := 4

/-- The ratio `sizeof(T) / sizeof(int)`. -/
def Precision.ratio (p : Precision) : Nat := p.sizeofT / sizeofInt

/-- The words of a value of type `T`; `bits v k` is the `k`-th 4-byte word of the
object representation of `v`. -/
def valueWords {V : Type} (p : Precision) (bits : V → Nat → Int) (v : V) : List Int :=
  (List.range p.ratio).map (bits v)

/-- The words of an array of values. -/
def valuesWords {V : Type} (p : Precision) (bits : V → Nat → Int) (vs : List V) : List Int :=
  vs.flatMap (valueWords p bits)

/-- The memory reached through `int* arr`, by word offset from `arr`. -/
abbrev Arena := Int → Int

/-- Copies the words `ws` to the offsets `location, location + 1, ...`. -/
def writeWords (arr : Arena) (location : Int) (ws : List Int) : Arena :=
  fun q =>
    if location ≤ q ∧ q < location + (ws.length : Int) then ws.getD (q - location).toNat 0
    else arr q

/-- The words written by the five `out.write` calls of `tsv_file_to_binary_file`
(weights): `rows`, `nnz`, `row_array`, `col_array`, `data_array`. -/
def tsv_file_to_binary_file.output {V : Type} (p : Precision) (bits : V → Nat → Int)
    (m : SlabCSR V) : List Int :=
  [m.rows] ++ [m.nnz] ++ m.row_array ++ m.col_array ++ valuesWords p bits m.data_array

/-- The function `read_file_to_string`: the content of the file, or `std::runtime_error` when
the file cannot be opened (`none`). -/
def read_file_to_string (file : Option (List Char)) : Except Fault (List Char) :=
  match file with
  | none => .error .runtimeError
  | some s => .ok s

/-- One turn of the loop of `tsv_file_to_binary_file` (weights): the words of the
`.b` file written for the layer whose `.tsv` file is `file`. -/
def tsv_file_to_binary_file.layer {V : Type} (to_numeric : List Char → Except Fault V)
    (sort : List (Triplet V) → List (Triplet V)) (p : Precision) (bits : V → Nat → Int)
    (rows COL_BLK N_SLAB : Nat) (file : Option (List Char)) : Except Fault (List Int) :=
  match read_file_to_string file with
  | .error e => .error e
  | .ok data_str =>
    match tsv_file_to_binary_file.triplets to_numeric rows COL_BLK data_str with
    | .error e => .error e
    | .ok triplets =>
      match tsv_file_to_binary_file.build sort rows N_SLAB triplets with
      | .error e => .error e
      | .ok m => .ok (tsv_file_to_binary_file.output p bits m)

/-! ## Arena packing: `read_weight_binary` and `read_weight` -/

/-- The value an `int` expression leaves, 32 bits in two's complement: the
mathematical result brought into `[-2^31, 2^31)` modulo `2^32`.  (C++ leaves an
overflow of `int` undefined; the machine wraps around.) -/
def wrapInt (x : Int) : Int := (x + 2147483648) % 4294967296 - 2147483648

/-- The value a `size_t` expression, or the conversion of an `int` to `size_t`,
leaves, 64 bits: the mathematical result modulo `2^64`. -/
def wrapSize (x : Int) : Int := x % 18446744073709551616

/-- The per-layer stride as `read_weight` (text) writes it:
`num_neurons_per_layer * N_SLAB + 1 + max_nnz_per_layer + pad
 + (sizeof(T) / sizeof(int)) * max_nnz_per_layer`.
The first four terms are added in `int`; `sizeof(T) / sizeof(int)` is a `size_t`,
so the product and the last sum are `size_t`. -/
def read_weight.stride (p : Precision) (num_neurons_per_layer max_nnz_per_layer N_SLAB : Nat)
    (pad : Int) : Int :=
  wrapSize
    (wrapSize (wrapInt (wrapInt (wrapInt
        (wrapInt ((num_neurons_per_layer : Int) * (N_SLAB : Int)) + 1)
        + (max_nnz_per_layer : Int)) + pad))
      + wrapSize ((p.ratio : Int) * wrapSize (max_nnz_per_layer : Int)))

/-- The per-layer stride as `read_weight_binary` writes it:
`num_neurons_per_layer * N_SLAB + 1 + max_nnz_per_layer
 + (sizeof(T) / sizeof(int)) * max_nnz_per_layer + pad`.
The first three terms are added in `int`; the product, the sum with it and the
sum with `pad` are `size_t`. -/
def read_weight_binary.stride (p : Precision) (num_neurons_per_layer max_nnz_per_layer N_SLAB : Nat)
    (pad : Int) : Int :=
  wrapSize
    (wrapSize
      (wrapSize (wrapInt (wrapInt
          (wrapInt ((num_neurons_per_layer : Int) * (N_SLAB : Int)) + 1)
          + (max_nnz_per_layer : Int)))
        + wrapSize ((p.ratio : Int) * wrapSize (max_nnz_per_layer : Int)))
      + wrapSize pad)

/-- The offset `location - arr` in `read_weight_binary`: `i * stride`, a `size_t`
product with the `int` `i`. -/
def read_weight_binary.location (p : Precision) (num_neurons_per_layer max_nnz_per_layer N_SLAB : Nat)
    (pad : Int) (i : Nat) : Int :=
  wrapSize (wrapSize (i : Int)
    * read_weight_binary.stride p num_neurons_per_layer max_nnz_per_layer N_SLAB pad)

/-- The pointer passed to `tsv_string_to_CSR_packed_array` by `read_weight`,
as an offset from `arr`: `i * stride`, a `size_t` product with the `int` `i`. -/
def read_weight.location (p : Precision) (num_neurons_per_layer max_nnz_per_layer N_SLAB : Nat)
    (pad : Int) (i : Nat) : Int :=
  wrapSize (wrapSize (i : Int)
    * read_weight.stride p num_neurons_per_layer max_nnz_per_layer N_SLAB pad)

/-- The state after one turn of the loop of `read_weight_binary`: the header as
read (`none` when the stream gave no two words, which leaves `rows` and `nnz`
unset) and the arena. -/
structure LayerRead where
  header : Option (Int × Int)
  arr : Arena

/-- The number of words the third `in.read` of `read_weight_binary` asks for:
`sizeof(int) * (rows * N_SLAB + 1 + nnz) + sizeof(T) * nnz` bytes. -/
def read_weight_binary.count (p : Precision) (N_SLAB : Nat) (rows nnz : Int) : Int :=
  ((sizeofInt : Int) * (rows * (N_SLAB : Int) + 1 + nnz) + (p.sizeofT : Int) * nnz)
    / (sizeofInt : Int)

/-- One turn of the loop of `read_weight_binary`, for layer `i` whose `.b` file
holds the words `file` (`none`: the file cannot be opened).  The stream is not
checked: when the header cannot be read, nothing is copied.  A read copies the
words that are there, at most the number asked for. -/
def read_weight_binary.layer (p : Precision) (num_neurons_per_layer max_nnz_per_layer N_SLAB : Nat)
    (pad : Int) (i : Nat) (file : Option (List Int)) (arr : Arena) : LayerRead :=
  match file with
  | some (rows :: nnz :: payload) =>
    ⟨some (rows, nnz),
      writeWords arr (read_weight_binary.location p num_neurons_per_layer max_nnz_per_layer N_SLAB pad i)
        (payload.take (read_weight_binary.count p N_SLAB rows nnz).toNat)⟩
  | _ => ⟨none, arr⟩

/-- The function `read_weight_binary`: the loop over the layers `0, ..., num_layers - 1`;
`files i` is the `.b` file of layer `i`. -/
def read_weight_binary (p : Precision) (num_neurons_per_layer max_nnz_per_layer num_layers N_SLAB : Nat)
    (pad : Int) (files : Nat → Option (List Int)) (arr : Arena) : Arena :=
  (List.range num_layers).foldl
    (fun a i =>
      (read_weight_binary.layer p num_neurons_per_layer max_nnz_per_layer N_SLAB pad i (files i) a).arr)
    arr

/-- The arrays of a compressed `Eigen::SparseMatrix<T, Eigen::RowMajor>` as seen
through `outerIndexPtr()`, `innerIndexPtr()` and `valuePtr()`: the element `k`
places after each pointer. -/
structure EigenCSR (V : Type) where
  outerIndexPtr : Nat → Int
  innerIndexPtr : Nat → Int
  valuePtr : Nat → V

/-- The function `tsv_string_to_CSR_packed_array`: the parse loop, the Eigen matrix of
`rows * N_SLAB` rows built by `setFromTriplets` (a parameter: Eigen is a library)
and the three `std::copy` calls to `arr`, `arr + rows * N_SLAB + 1` and
`arr + rows * N_SLAB + 1 + nnz`.  The pointer `arr` is the arena with the offset
`base`. -/
def tsv_string_to_CSR_packed_array {V : Type} (to_numeric : List Char → Except Fault V)
    (setFromTriplets : Nat → Nat → List (Triplet V) → EigenCSR V)
    (p : Precision) (bits : V → Nat → Int)
    (s : List Char) (rows cols nnz COL_BLK N_SLAB : Nat) (base : Int) (arr : Arena) :
    Except Fault Arena :=
  match tsv_file_to_binary_file.triplets to_numeric rows COL_BLK s with
  | .error e => .error e
  | .ok triplet_list =>
    let eigen_mat := setFromTriplets (rows * N_SLAB) cols triplet_list
    let a1 := writeWords arr base ((List.range (rows * N_SLAB + 1)).map eigen_mat.outerIndexPtr)
    let a2 := writeWords a1 (base + ((rows * N_SLAB + 1 : Nat) : Int))
      ((List.range nnz).map eigen_mat.innerIndexPtr)
    let a3 := writeWords a2 (base + ((rows * N_SLAB + 1 + nnz : Nat) : Int))
      (valuesWords p bits ((List.range nnz).map eigen_mat.valuePtr))
    .ok a3

/-- One turn of the loop of `read_weight` (packed array): the `.tsv` file of
layer `i` is read and packed at `i` times the stride, with
`nnz = max_nnz_per_layer`. -/
def read_weight.layer {V : Type} (to_numeric : List Char → Except Fault V)
    (setFromTriplets : Nat → Nat → List (Triplet V) → EigenCSR V)
    (p : Precision) (bits : V → Nat → Int)
    (num_neurons_per_layer max_nnz_per_layer COL_BLK N_SLAB : Nat) (pad : Int)
    (i : Nat) (file : Option (List Char)) (arr : Arena) : Except Fault Arena :=
  match read_file_to_string file with
  | .error e => .error e
  | .ok data_str =>
    tsv_string_to_CSR_packed_array to_numeric setFromTriplets p bits data_str
      num_neurons_per_layer num_neurons_per_layer max_nnz_per_layer COL_BLK N_SLAB
      (read_weight.location p num_neurons_per_layer max_nnz_per_layer N_SLAB pad i) arr

/-! ## Labels: `read_golden` -/

/-- The loop `golden(std::stoi(line) - 1, 0) = 1` of `read_golden`.  An index
outside the vector is undefined behaviour. -/
def read_golden.fill : List (List Char) → List Int → Except Fault (List Int)
  | [], golden => .ok golden
  | line :: ls, golden =>
    match stoi line with
    | .error e => .error e
    | .ok v =>
      if 0 ≤ v - 1 ∧ v - 1 < (golden.length : Int) then
        read_golden.fill ls (golden.set (v - 1).toNat 1)
      else .error .undefinedBehaviour

/-- The function `read_golden`: the file is read, the vector is zeroed with `num_inputs`
entries and the loop runs over the lines. -/
def read_golden (file : Option (List Char)) (num_inputs : Nat) : Except Fault (List Int) :=
  match read_file_to_string file with
  | .error e => .error e
  | .ok s => read_golden.fill (getlineAll '\n' s) (List.replicate num_inputs 0)


/-! ## Well-formed input, for the statements -/

/-- Lines joined into a text, each followed by the delimiter. -/
def unlines (delim : Char) (ls : List (List Char)) : List Char :=
  ls.flatMap (fun l => l ++ [delim])

/-- A text made of the given lines; the newline after the last line may be
missing. -/
def textOfLines (ls : List (List Char)) (finalNewline : Bool) : List Char :=
  if finalNewline then unlines '\n' ls else (unlines '\n' ls).dropLast

/-- A decimal integer literal that fits an `int`: a nonempty run of digits. -/
def IsIntLiteral (f : List Char) : Prop :=
  f ≠ [] ∧ (∀ c ∈ f, isDigit c = true) ∧ digitsVal f ≤ 2147483647

instance (f : List Char) : Decidable (IsIntLiteral f) := by
  unfold IsIntLiteral; infer_instance

/-- The three fields of a coordinate line `<row>TAB<col>TAB<value>`. -/
structure CoordLine where
  rowField : List Char
  colField : List Char
  valueField : List Char
  deriving DecidableEq, Repr

/-- The line as text, without the newline. -/
def CoordLine.text (l : CoordLine) : List Char :=
  l.rowField ++ '\t' :: (l.colField ++ '\t' :: l.valueField)

/-- The 1-based row id of the line. -/
def CoordLine.rowId (l : CoordLine) : Int := (digitsVal l.rowField : Int)

/-- The 1-based column id of the line. -/
def CoordLine.colId (l : CoordLine) : Int := (digitsVal l.colField : Int)

/-- The fields of the line are valid: the ids are integer literals and the
value field is a nonempty string without TAB or newline that `to_numeric`
accepts. -/
def CoordLine.WellFormed {V : Type} (to_numeric : List Char → Except Fault V)
    (l : CoordLine) : Prop :=
  IsIntLiteral l.rowField ∧ IsIntLiteral l.colField ∧ l.valueField ≠ [] ∧
    '\t' ∉ l.valueField ∧ '\n' ∉ l.valueField ∧ ∃ v, to_numeric l.valueField = .ok v

/-- A decimal number `mantissa / 10 ^ scale`. -/
structure Decimal where
  mantissa : Int
  scale : Nat
  deriving DecidableEq, Repr

/-- An instance of `to_numeric<T>` on literals `[sign] digits [. digits]`, read
exactly; exponents and the rounding to `T` are left out. -/
def to_numeric_plain (str : List Char) : Except Fault Decimal :=
  let body := stripSign (str.dropWhile isSpace)
  let ip := body.2.takeWhile isDigit
  let fp := match body.2.dropWhile isDigit with
    | '.' :: r => r.takeWhile isDigit
    | _ => []
  if ip = [] ∧ fp = [] then .error .invalidArgument
  else
    let m : Int := (digitsVal (ip ++ fp) : Int)
    .ok ⟨if body.1 then -m else m, fp.length⟩

/-- An instance of the object representation of a value, for `Decimal`. -/
def Decimal.bits (v : Decimal) (k : Nat) : Int :=
  if k = 0 then v.mantissa else (v.scale : Int)

/-- Two well-formed lines, the text `"1\t1\t2.0\n2\t2\t3.0\n"` of the examples. -/
def sampleLines : List CoordLine :=
  [⟨"1".toList, "1".toList, "2.0".toList⟩, ⟨"2".toList, "2".toList, "3.0".toList⟩]

/-- The digits `std::stoi` reads: the run of digits after the leading white
space and the sign. -/
def leadingDigits (f : List Char) : List Char :=
  (stripSign (f.dropWhile isSpace)).2.takeWhile isDigit

/-- Three triplets over two rows and two slabs, with virtual rows 3, 0, 0. -/
def sampleTriplets : List (Triplet Decimal) :=
  [⟨3, 1, ⟨30, 1⟩⟩, ⟨0, 1, ⟨50, 1⟩⟩, ⟨0, 0, ⟨20, 1⟩⟩]

/-- Two triplets of virtual row 0, the one of column 1 before the one of
column 0. -/
def sameRowPair : List (Triplet Decimal) :=
  [⟨0, 1, ⟨50, 1⟩⟩, ⟨0, 0, ⟨20, 1⟩⟩]

/-- An instance of `setFromTriplets` for the examples: the rows counted, the
columns and values in the order by row and column (duplicates are not merged). -/
def sampleSetFromTriplets (_rows _cols : Nat) (ts : List (Triplet Decimal)) : EigenCSR Decimal :=
  ⟨fun k => (ts.countP (fun t => decide (t.row < (k : Int))) : Int),
   fun k => ((insertionSort Triplet.ltRowCol ts).map (fun t => t.col)).getD k 0,
   fun k => ((insertionSort Triplet.ltRowCol ts).map (fun t => t.value)).getD k ⟨0, 0⟩⟩

/-- An arena filled with zeros. -/
def zeroArena : Arena := fun _ => 0

/-! ## Dense inputs: `tsv_string_to_1D_array`, `read_input`, `read_input_binary` -/

/-- The store of the loop of `tsv_string_to_1D_array` (and of the dense
`tsv_file_to_binary_file`), run when the line has been split into `tokens`:
`arr[(stoi(tokens[0]) - 1) * cols + stoi(tokens[1]) - 1] = to_numeric<T>(tokens[2])`.
The array `arr` is given with its extent; a store outside it is undefined
behaviour (the source does not check the index). -/
def tsv_string_to_1D_array.store {V : Type} (to_numeric : List Char → Except Fault V)
    (cols : Nat) (tokens : TokenStorage) (arr : List V) : Except Fault (List V) :=
  match tokenAt tokens 0 with
  | .error e => .error e
  | .ok t0 =>
    match stoi t0 with
    | .error e => .error e
    | .ok r =>
      match tokenAt tokens 1 with
      | .error e => .error e
      | .ok t1 =>
        match stoi t1 with
        | .error e => .error e
        | .ok c =>
          match tokenAt tokens 2 with
          | .error e => .error e
          | .ok t2 =>
            match to_numeric t2 with
            | .error e => .error e
            | .ok v =>
              if 0 ≤ (r - 1) * (cols : Int) + c - 1 ∧
                  (r - 1) * (cols : Int) + c - 1 < (arr.length : Int) then
                .ok (arr.set ((r - 1) * (cols : Int) + c - 1).toNat v)
              else .error .undefinedBehaviour

/-- The loop `while (std::getline(read_s, line))` of `tsv_string_to_1D_array`
over the lines of the text; the storage of `tokens` is carried from line to
line. -/
def tsv_string_to_1D_array.loop {V : Type} (to_numeric : List Char → Except Fault V)
    (cols : Nat) : TokenStorage → List (List Char) → List V → Except Fault (List V)
  | _, [], arr => .ok arr
  | tokens, l :: ls, arr =>
    match tsv_string_to_1D_array.store to_numeric cols (tokensOfLine tokens l) arr with
    | .error e => .error e
    | .ok a => tsv_string_to_1D_array.loop to_numeric cols (tokensOfLine tokens l) ls a

/-- The function `tsv_string_to_1D_array(s, cols, arr)`: the array after the
loop. -/
def tsv_string_to_1D_array {V : Type} (to_numeric : List Char → Except Fault V)
    (s : List Char) (cols : Nat) (arr : List V) : Except Fault (List V) :=
  tsv_string_to_1D_array.loop to_numeric cols [] (getlineAll '\n' s) arr

/-- The outputs `rlenY`, `rowsY` and `nerowsY` of the dense loaders: the entries
written to `rlenY` and to `rowsY`, in index order, and the counter. -/
structure RowMetadata where
  rlenY : List Int
  rowsY : List Int
  nerowsY : Int
  deriving DecidableEq, Repr

/-- The loop `for (i = 0; i < num_inputs; ++i)` of `read_input` and
`read_input_binary`:
`rlenY[i] = std::count_if(arr + i * num_features, arr + (i + 1) * num_features, v != 0)`
and `rowsY[nerowsY++] = i`.  The test `v != 0` on `T` is the parameter `nonzero`.
Reading past the extent of `arr` is undefined behaviour. -/
def read_input.metadataLoop {V : Type} (nonzero : V → Bool) (num_features : Nat)
    (arr : List V) : List Nat → RowMetadata → Except Fault RowMetadata
  | [], st => .ok st
  | i :: is, st =>
    if (i + 1) * num_features ≤ arr.length then
      read_input.metadataLoop nonzero num_features arr is
        ⟨st.rlenY ++ [(((arr.drop (i * num_features)).take num_features).countP nonzero : Int)],
         st.rowsY ++ [(i : Int)], st.nerowsY + 1⟩
    else .error .undefinedBehaviour

/-- The statements after the load in `read_input` and `read_input_binary`:
`nerowsY = 0` and the loop over the rows. -/
def read_input.metadata {V : Type} (nonzero : V → Bool) (num_inputs num_features : Nat)
    (arr : List V) : Except Fault RowMetadata :=
  read_input.metadataLoop nonzero num_features arr (List.range num_inputs) ⟨[], [], 0⟩

/-- The function `read_input(input_path, num_inputs, num_features, arr, rlenY,
rowsY, nerowsY)`: the text file is read into `arr` by `tsv_string_to_1D_array`
and the row metadata is derived. -/
def read_input {V : Type} (to_numeric : List Char → Except Fault V) (nonzero : V → Bool)
    (file : Option (List Char)) (num_inputs num_features : Nat) (arr : List V) :
    Except Fault (List V × RowMetadata) :=
  match read_file_to_string file with
  | .error e => .error e
  | .ok input_str =>
    match tsv_string_to_1D_array to_numeric input_str num_features arr with
    | .error e => .error e
    | .ok a =>
      match read_input.metadata nonzero num_inputs num_features a with
      | .error e => .error e
      | .ok md => .ok (a, md)

/-- A binary dense file that holds a whole header: the two ints `num_inputs` and
`num_features`, and the values of type `T` after them. -/
structure DenseFile (V : Type) where
  num_inputs : Int
  num_features : Int
  values : List V
  deriving DecidableEq, Repr

/-- The three `in.read` calls with which every `read_input_binary` starts.  The
stream is not checked: without a file or without a whole header (`none`)
nothing is read, and `num_inputs`, `num_features` stay unset.  Otherwise
`num_inputs * num_features` values are asked for and the values that are there
are copied to the front of `arr`; copying past the extent of `arr` is undefined
behaviour. -/
def read_input_binary.load {V : Type} (file : Option (DenseFile V)) (arr : List V) :
    Except Fault (Option (Int × Int) × List V) :=
  match file with
  | none => .ok (none, arr)
  | some f =>
    let got := f.values.take (f.num_inputs * f.num_features).toNat
    if got.length ≤ arr.length then
      .ok (some (f.num_inputs, f.num_features), got ++ arr.drop got.length)
    else .error .undefinedBehaviour

/-- The function `read_input_binary(input_path, batch_size, arr)`: the load only. -/
def read_input_binary.batch {V : Type} (file : Option (DenseFile V)) (arr : List V) :
    Except Fault (List V) :=
  match read_input_binary.load file arr with
  | .error e => .error e
  | .ok (_, a) => .ok a

/-- The function `read_input_binary(input_path, arr, rlenY, rowsY, nerowsY)`: the
load and the loop over the rows, with the dimensions of the header.  With the
header unset, or with a negative `num_features` and a row to scan, the loop has
no defined behaviour. -/
def read_input_binary {V : Type} (nonzero : V → Bool) (file : Option (DenseFile V))
    (arr : List V) : Except Fault (List V × RowMetadata) :=
  match read_input_binary.load file arr with
  | .error e => .error e
  | .ok (none, _) => .error .undefinedBehaviour
  | .ok (some (num_inputs, num_features), a) =>
    if 0 < num_inputs ∧ num_features < 0 then .error .undefinedBehaviour
    else
      match read_input.metadata nonzero num_inputs.toNat num_features.toNat a with
      | .error e => .error e
      | .ok md => .ok (a, md)

/-- The dense `tsv_file_to_binary_file(input_path, rows, cols)`: `data_array` of
`rows * cols` zeros, the loop of `tsv_string_to_1D_array` over the text, and the
file with the header `(rows, cols)` and `data_array`. -/
def tsv_file_to_binary_file.dense {V : Type} (to_numeric : List Char → Except Fault V)
    (zero : V) (file : Option (List Char)) (rows cols : Nat) : Except Fault (DenseFile V) :=
  match read_file_to_string file with
  | .error e => .error e
  | .ok data_str =>
    match tsv_string_to_1D_array.loop to_numeric cols [] (getlineAll '\n' data_str)
        (List.replicate (rows * cols) zero) with
    | .error e => .error e
    | .ok data_array => .ok ⟨(rows : Int), (cols : Int), data_array⟩

/-! ## Labels in binary form -/

/-- The label `tsv_file_to_binary_file(golden_path, num_features, num_layers,
rows)`: the vector of `rows` zeros, the loop of `read_golden`, and the words of
the file: `rows` and the vector. -/
def tsv_file_to_binary_file.labels (file : Option (List Char)) (rows : Nat) :
    Except Fault (List Int) :=
  match read_file_to_string file with
  | .error e => .error e
  | .ok s =>
    match read_golden.fill (getlineAll '\n' s) (List.replicate rows 0) with
    | .error e => .error e
    | .ok golden => .ok ((rows : Int) :: golden)

/-- The function `read_golden_binary`: `rows` is read and a vector of `rows`
entries is filled from the file.  The stream is not checked: without a first
word `rows` stays unset, and the vector is sized with it; entries that the file
does not provide stay unset.  Both are modelled as undefined behaviour, as is a
negative size. -/
def read_golden_binary (file : Option (List Int)) : Except Fault (List Int) :=
  match file with
  | some (rows :: payload) =>
    if 0 ≤ rows ∧ rows.toNat ≤ payload.length then .ok (payload.take rows.toNat)
    else .error .undefinedBehaviour
  | _ => .error .undefinedBehaviour

/-! ## Plain string files -/

/-- The content of the file right after `std::ofstream f{path}` has opened it:
the file is created or truncated. -/
def ofstream_open (_before : Option (List Char)) : List Char := []

/-- The function `write_file_from_string(path, s)`: the content of the file
after the call.  `canOpen` tells whether the stream opens; `before` is the file
at `path` before the call (`none`: there is none).  The number of characters
written is `std::fs::file_size(path)`, taken after the file has been opened;
taking more characters than `s` has is undefined behaviour. -/
def write_file_from_string (canOpen : Bool) (before : Option (List Char)) (s : List Char) :
    Except Fault (List Char) :=
  if canOpen then
    let opened := ofstream_open before
    let file_size := opened.length
    if file_size ≤ s.length then .ok (opened ++ s.take file_size)
    else .error .undefinedBehaviour
  else .error .runtimeError

/-! ## Counting nonzeros: `count_nnz`, `find_max_nnz`, `find_max_nnz_binary` -/

/-- The function `count_nnz`: the number of newline characters of `s`. -/
def count_nnz (s : List Char) : Int := (s.count '\n' : Int)

/-- The loop of `find_max_nnz` over the `.tsv` files of the layers. -/
def find_max_nnz.loop : List (Option (List Char)) → Int → Except Fault Int
  | [], max_nnz => .ok max_nnz
  | f :: fs, max_nnz =>
    match read_file_to_string f with
    | .error e => .error e
    | .ok data_str => find_max_nnz.loop fs (max max_nnz (count_nnz data_str))

/-- The function `find_max_nnz`; `files i` is the `.tsv` file of layer `i`. -/
def find_max_nnz (files : Nat → Option (List Char)) (num_layers : Nat) : Except Fault Int :=
  find_max_nnz.loop ((List.range num_layers).map files) 0

/-- The loop of `find_max_nnz_binary` over the `.b` files of the layers.  The
stream is not checked: without two header words `nnz` stays unset and its use
is undefined behaviour. -/
def find_max_nnz_binary.loop : List (Option (List Int)) → Int → Except Fault Int
  | [], max_nnz => .ok max_nnz
  | some (_rows :: nnz :: _) :: fs, max_nnz => find_max_nnz_binary.loop fs (max max_nnz nnz)
  | _ :: _, _ => .error .undefinedBehaviour

/-- The function `find_max_nnz_binary`; `files i` is the `.b` file of layer `i`. -/
def find_max_nnz_binary (files : Nat → Option (List Int)) (num_layers : Nat) :
    Except Fault Int :=
  find_max_nnz_binary.loop ((List.range num_layers).map files) 0

/-! ## Section offsets inside a packed layer -/

/-- The offset, from the layer's base, at which `tsv_string_to_CSR_packed_array`
copies the values: `arr + rows * N_SLAB + 1 + nnz`, with its parameter `nnz`. -/
def tsv_string_to_CSR_packed_array.valuesOffset (rows N_SLAB nnz : Nat) : Int :=
  ((rows * N_SLAB + 1 + nnz : Nat) : Int)

/-- The offset, from the layer's base, at which the values of a `.b` file land
when `read_weight_binary` copies the file after its header in one piece: behind
the `rows * N_SLAB + 1` offsets and the `nnz` columns of the file. -/
def read_weight_binary.valuesOffset (rows N_SLAB : Nat) (nnz : Nat) : Int :=
  ((rows * N_SLAB + 1 + nnz : Nat) : Int)

/-- The zero of `Decimal`. -/
def Decimal.zero : Decimal := ⟨0, 0⟩

/-- The test `v != 0` on `Decimal`. -/
def Decimal.nonzero (v : Decimal) : Bool := v.mantissa != 0

/-- The position `(row - 1) * cols + (col - 1)` that a coordinate line names in a
dense row-major array of `cols` columns. -/
def CoordLine.position (cols : Nat) (l : CoordLine) : Int :=
  (l.rowId - 1) * (cols : Int) + l.colId - 1

/-- The last of the lines that names the position `q`, if there is one. -/
def lastNaming (cols : Nat) (lines : List CoordLine) (q : Nat) : Option CoordLine :=
  lines.reverse.find? (fun l => decide (l.position cols = (q : Int)))

/-- The texts of two layers: the two-line text of the examples and an empty text. -/
def sampleTexts (i : Nat) : List Char :=
  if i = 0 then "1\t1\t2.0\n2\t2\t3.0\n".toList else []

/-- The `.b` files of the two layers of `sampleTexts`, for `rows = 2`,
`COL_BLK = 1`, `N_SLAB = 2` and `float`. -/
def sampleBinaries (i : Nat) : List Int :=
  if i = 0 then [2, 2, 0, 1, 1, 1, 2, 0, 1, 20, 30] else [2, 0, 0, 0, 0, 0, 0]

/-! ## Slab relocation, row flags -/

/-- The virtual row that the parse loop of `tsv_file_to_binary_file` gives to the
0-based ids `row` and `col`: the `int` expression `row + rows * (col / COL_BLK)`,
with the truncating division of C++. -/
def tsv_file_to_binary_file.virtualRow (rows COL_BLK : Nat) (row col : Int) : Int :=
  wrapInt (row + wrapInt ((rows : Int) * Int.tdiv col (COL_BLK : Int)))

/-- The number of entries of `int row_array[rows * N_SLAB + 1]`: the `int`
expression `rows * N_SLAB + 1`. -/
def tsv_file_to_binary_file.extent (rows N_SLAB : Nat) : Int :=
  wrapInt (wrapInt ((rows : Int) * (N_SLAB : Int)) + 1)

/-- The loop `for (i = 0; i < batch_size; ++i)` of
`read_input_binary(input_path, batch_size, arr, rowsY)`: `rowsY[i]` tells whether
`std::find_if` finds a value with `v != 0` in
`arr + i * num_features .. arr + (i + 1) * num_features`.  The list holds the
entries written to `rowsY`, in index order.  Reading past the extent of `arr` is
undefined behaviour. -/
def read_input_binary.flagsLoop {V : Type} (nonzero : V → Bool) (num_features : Nat)
    (arr : List V) : List Nat → List Bool → Except Fault (List Bool)
  | [], rowsY => .ok rowsY
  | i :: is, rowsY =>
    if (i + 1) * num_features ≤ arr.length then
      read_input_binary.flagsLoop nonzero num_features arr is
        (rowsY ++ [((arr.drop (i * num_features)).take num_features).any nonzero])
    else .error .undefinedBehaviour

/-- The function `read_input_binary(input_path, batch_size, arr, rowsY)`: the load
and the loop over the first `batch_size` rows, with `num_features` of the header.
With the header unset, or with a negative `num_features`, a loop that has a row
to scan has no defined behaviour. -/
def read_input_binary.flags {V : Type} (nonzero : V → Bool) (file : Option (DenseFile V))
    (batch_size : Nat) (arr : List V) : Except Fault (List V × List Bool) :=
  match read_input_binary.load file arr with
  | .error e => .error e
  | .ok (none, a) => if batch_size = 0 then .ok (a, []) else .error .undefinedBehaviour
  | .ok (some (_, num_features), a) =>
    if 0 < batch_size ∧ num_features < 0 then .error .undefinedBehaviour
    else
      match read_input_binary.flagsLoop nonzero num_features.toNat a (List.range batch_size) []
        with
      | .error e => .error e
      | .ok rowsY => .ok (a, rowsY)

/-! ## Lines with fewer than three fields -/

/-- The text of a coordinate line cut after its first `count` fields: the blank
line for no field, `<row>` for one (a line without delimiter), `<row>TAB<col>`
for two, and the whole line otherwise. -/
def CoordLine.textUpTo (l : CoordLine) : Nat → List Char
  | 0 => []
  | 1 => l.rowField
  | 2 => l.rowField ++ '\t' :: l.colField
  | _ => l.text

/-- Every field of the line has at most `localCapacity` characters. -/
def CoordLine.FieldsLocal (l : CoordLine) : Prop :=
  l.rowField.length ≤ localCapacity ∧ l.colField.length ≤ localCapacity ∧
    l.valueField.length ≤ localCapacity

instance (l : CoordLine) : Decidable l.FieldsLocal := by
  unfold CoordLine.FieldsLocal; infer_instance

/-- The three strings in the first three slots of `tokens` when a line that holds
the first `count` fields of `l` has been split and the line before left the
fields of `prev` there: the fields of the line, then those of `prev`. -/
def CoordLine.completedBy (l : CoordLine) (count : Nat) (prev : CoordLine) : CoordLine :=
  ⟨if 0 < count then l.rowField else prev.rowField,
   if 1 < count then l.colField else prev.colField,
   if 2 < count then l.valueField else prev.valueField⟩

/-- The lines as the first three slots of `tokens` show them, one after the
other, when the line before the first one left the fields of `prev`. -/
def completeLines (prev : CoordLine) : List (CoordLine × Nat) → List CoordLine
  | [] => []
  | x :: xs => x.1.completedBy x.2 prev :: completeLines (x.1.completedBy x.2 prev) xs

/-- A full line, a two-field line, a full line and a blank line, to follow the
first of `sampleLines`: the text `"2\t2\t3.0\n2\t2\n3\t3\t1.0\n\n"`. -/
def sampleShortLines : List (CoordLine × Nat) :=
  [(⟨"2".toList, "2".toList, "3.0".toList⟩, 3), (⟨"2".toList, "2".toList, "3.0".toList⟩, 2),
   (⟨"3".toList, "3".toList, "1.0".toList⟩, 3), (⟨"3".toList, "3".toList, "1.0".toList⟩, 0)]

/-! ## Theorems -/

/-! ### Text -/

theorem getlineAll_append_delim (d : Char) (l rest : List Char) (h : d ∉ l) :
    getlineAll d (l ++ d :: rest) = l :: getlineAll d rest := by
  induction l with
  | nil => simp [getlineAll]
  | cons c cs ih =>
    have hc : c ≠ d := fun e => h (by simp [e])
    have hcs : d ∉ cs := fun e => h (by simp [e])
    simp [getlineAll, hc, ih hcs]

theorem getlineAll_no_delim (d : Char) (l : List Char) (h : d ∉ l) (hne : l ≠ []) :
    getlineAll d l = [l] := by
  induction l with
  | nil => exact absurd rfl hne
  | cons c cs ih =>
    have hc : c ≠ d := fun e => h (by simp [e])
    have hcs : d ∉ cs := fun e => h (by simp [e])
    cases cs with
    | nil => simp [getlineAll, hc]
    | cons c2 cs2 =>
      have := ih hcs (by simp)
      simp only [getlineAll, hc, if_false] at this ⊢
      rw [this]

theorem getlineAll_unlines_append (d : Char) (ls : List (List Char)) (last : List Char)
    (h : ∀ l ∈ ls, d ∉ l) (hl : d ∉ last) :
    getlineAll d (unlines d ls ++ last) = ls ++ (if last = [] then [] else [last]) := by
  induction ls with
  | nil =>
    by_cases hne : last = []
    · simp [unlines, hne, getlineAll]
    · simp [unlines, hne, getlineAll_no_delim d last hl hne]
  | cons l ls ih =>
    have h1 : d ∉ l := h l (by simp)
    have h2 : ∀ l ∈ ls, d ∉ l := fun x hx => h x (by simp [hx])
    have e : unlines d (l :: ls) ++ last = l ++ d :: (unlines d ls ++ last) := by
      simp [unlines]
    rw [e, getlineAll_append_delim d l _ h1, ih h2]
    simp

theorem getlineAll_unlines (d : Char) (ls : List (List Char)) (h : ∀ l ∈ ls, d ∉ l) :
    getlineAll d (unlines d ls) = ls := by
  have := getlineAll_unlines_append d ls [] h (by simp)
  simpa using this

theorem getlineAll_textOfLines (ls : List (List Char)) (b : Bool)
    (h : ∀ l ∈ ls, '\n' ∉ l) (hne : ∀ l ∈ ls, l ≠ []) :
    getlineAll '\n' (textOfLines ls b) = ls := by
  cases b with
  | true => simpa [textOfLines] using getlineAll_unlines '\n' ls h
  | false =>
    rcases List.eq_nil_or_concat ls with rfl | ⟨init, x, rfl⟩
    · simp [textOfLines, unlines, getlineAll]
    · rw [List.concat_eq_append] at h hne ⊢
      have e : (unlines '\n' (init ++ [x])).dropLast = unlines '\n' init ++ x := by
        have : unlines '\n' (init ++ [x]) = (unlines '\n' init ++ x) ++ ['\n'] := by
          simp [unlines]
        rw [this, List.dropLast_concat]
      have hx : x ≠ [] := hne x (by simp)
      have h1 : ∀ l ∈ init, '\n' ∉ l := fun l hl => h l (by simp [hl])
      have h2 : '\n' ∉ x := h x (by simp)
      simp only [textOfLines, Bool.false_eq_true, if_false]
      rw [e, getlineAll_unlines_append '\n' init x h1 h2]
      simp [hx]


theorem isDigit_facts (c : Char) (h : isDigit c = true) :
    isSpace c = false ∧ c ≠ '-' ∧ c ≠ '+' ∧ c ≠ '\t' ∧ c ≠ '\n' := by
  simp only [isDigit, Bool.and_eq_true, decide_eq_true_eq] at h
  refine ⟨?_, ?_, ?_, ?_, ?_⟩
  · simp only [isSpace, Bool.or_eq_false_iff, decide_eq_false_iff_not]
    refine ⟨⟨⟨⟨⟨?_, ?_⟩, ?_⟩, ?_⟩, ?_⟩, ?_⟩ <;> (rintro rfl; revert h; decide)
  all_goals (rintro rfl; revert h; decide)

theorem stripSign_of_digit (c : Char) (cs : List Char) (h : isDigit c = true) :
    stripSign (c :: cs) = (false, c :: cs) := by
  obtain ⟨_, h1, h2, _, _⟩ := isDigit_facts c h
  unfold stripSign
  split
  · rename_i heq; simp at heq; exact absurd heq.1 h1
  · rename_i heq; simp at heq; exact absurd heq.1 h2
  · rfl

theorem stoi_intLiteral (f : List Char) (h : IsIntLiteral f) :
    stoi f = .ok (digitsVal f : Int) := by
  obtain ⟨hne, hd, hr⟩ := h
  cases f with
  | nil => exact absurd rfl hne
  | cons c cs =>
    have hc : isDigit c = true := hd c (by simp)
    obtain ⟨hs, _⟩ := isDigit_facts c hc
    have e1 : (c :: cs).dropWhile isSpace = c :: cs := by simp [List.dropWhile, hs]
    have e2 : (c :: cs).takeWhile isDigit = c :: cs := by
      rw [List.takeWhile_eq_self_iff]; exact hd
    unfold stoi
    simp only [e1, stripSign_of_digit c cs hc, e2]
    have hr2 : ((digitsVal (c :: cs) : Nat) : Int) ≤ 2147483647 := by exact_mod_cast hr
    have hr3 : (0 : Int) ≤ ((digitsVal (c :: cs) : Nat) : Int) := Int.ofNat_nonneg _
    simp only [reduceCtorEq, if_false, Bool.false_eq_true]
    rw [if_neg]
    omega

theorem intLiteral_no_delim (f : List Char) (h : IsIntLiteral f) : '\t' ∉ f ∧ '\n' ∉ f := by
  obtain ⟨_, hd, _⟩ := h
  constructor
  · intro hm; exact (isDigit_facts _ (hd _ hm)).2.2.2.1 rfl
  · intro hm; exact (isDigit_facts _ (hd _ hm)).2.2.2.2 rfl

theorem tokens_of_fields (rf cf vf : List Char) (h1 : '\t' ∉ rf) (h2 : '\t' ∉ cf)
    (h3 : '\t' ∉ vf) (hv : vf ≠ []) :
    getlineAll '\t' (rf ++ '\t' :: (cf ++ '\t' :: vf)) = [rf, cf, vf] := by
  rw [getlineAll_append_delim _ _ _ h1, getlineAll_append_delim _ _ _ h2,
    getlineAll_no_delim _ _ h3 hv]

theorem CoordLine.tokens_text {V : Type} (to_numeric : List Char → Except Fault V)
    (l : CoordLine) (h : l.WellFormed to_numeric) :
    getlineAll '\t' l.text = [l.rowField, l.colField, l.valueField] := by
  obtain ⟨hr, hc, hv, ht, _, _⟩ := h
  exact tokens_of_fields _ _ _ (intLiteral_no_delim _ hr).1 (intLiteral_no_delim _ hc).1 ht hv

theorem CoordLine.text_no_newline {V : Type} (to_numeric : List Char → Except Fault V)
    (l : CoordLine) (h : l.WellFormed to_numeric) : '\n' ∉ l.text ∧ l.text ≠ [] := by
  obtain ⟨hr, hc, _, _, hn, _⟩ := h
  have a := (intLiteral_no_delim _ hr).2
  have b := (intLiteral_no_delim _ hc).2
  constructor
  · simp only [CoordLine.text, List.mem_append, List.mem_cons, not_or]
    refine ⟨a, by decide, b, by decide, hn⟩
  · simp [CoordLine.text]

theorem parseLines_cons_ok {α : Type} (body : TokenStorage → Except Fault α)
    (tokens : TokenStorage) (l : List Char) (ls : List (List Char)) (t : α) (ts : List α)
    (h : body (tokensOfLine tokens l) = .ok t)
    (h2 : parseLines body (tokensOfLine tokens l) ls = .ok ts) :
    parseLines body tokens (l :: ls) = .ok (t :: ts) := by
  simp only [parseLines, h, h2]

theorem parseLines_cons_stop {α : Type} (body : TokenStorage → Except Fault α)
    (tokens : TokenStorage) (l : List Char) (ls : List (List Char)) (t : α) (e : Fault)
    (h : body (tokensOfLine tokens l) = .ok t)
    (h2 : parseLines body (tokensOfLine tokens l) ls = .error e) :
    parseLines body tokens (l :: ls) = .error e := by
  simp only [parseLines, h, h2]

theorem parseLines_cons_error {α : Type} (body : TokenStorage → Except Fault α)
    (tokens : TokenStorage) (l : List Char) (ls : List (List Char)) (e : Fault)
    (h : body (tokensOfLine tokens l) = .error e) :
    parseLines body tokens (l :: ls) = .error e := by
  simp only [parseLines, h]

theorem tokensOfLine_wellFormed {V : Type} (to_numeric : List Char → Except Fault V)
    (l : CoordLine) (h : l.WellFormed to_numeric) (tokens : TokenStorage) :
    tokensOfLine tokens l.text
      = some l.rowField :: some l.colField :: some l.valueField :: (tokensClear tokens).drop 3 := by
  unfold tokensOfLine
  rw [CoordLine.tokens_text to_numeric l h]
  rfl

/-- The triplet the loop body of `tsv_string_to_matrix` makes of a well-formed line,
whatever the slots behind the three fields hold. -/
theorem entry_matrix_wellFormed {V : Type} (to_numeric : List Char → Except Fault V)
    (l : CoordLine) (h : l.WellFormed to_numeric) (v : V) (hv : to_numeric l.valueField = .ok v)
    (rest : TokenStorage) :
    tsv_string_to_matrix.entry to_numeric
        (some l.rowField :: some l.colField :: some l.valueField :: rest)
      = .ok ⟨l.rowId - 1, l.colId - 1, v⟩ := by
  unfold tsv_string_to_matrix.entry
  simp only [tokenAt, List.get?, stoi_intLiteral _ h.1,
    stoi_intLiteral _ h.2.1, hv, CoordLine.rowId, CoordLine.colId]

/-- The triplet the loop body of `tsv_file_to_binary_file` makes of a well-formed line,
whatever the slots behind the three fields hold. -/
theorem entry_binary_wellFormed {V : Type} (to_numeric : List Char → Except Fault V)
    (rows COL_BLK : Nat) (hblk : COL_BLK ≠ 0)
    (l : CoordLine) (h : l.WellFormed to_numeric) (v : V) (hv : to_numeric l.valueField = .ok v)
    (rest : TokenStorage) :
    tsv_file_to_binary_file.entry to_numeric rows COL_BLK
        (some l.rowField :: some l.colField :: some l.valueField :: rest)
      = .ok ⟨l.rowId - 1 + (rows : Int) * Int.tdiv (l.colId - 1) (COL_BLK : Int), l.colId - 1, v⟩ := by
  unfold tsv_file_to_binary_file.entry
  simp only [tokenAt, List.get?, stoi_intLiteral _ h.1,
    stoi_intLiteral _ h.2.1, hv, CoordLine.rowId, CoordLine.colId, hblk, if_false]

theorem parseLines_wellFormed_from {V : Type} (to_numeric : List Char → Except Fault V)
    (body : TokenStorage → Except Fault (Triplet V)) (frow : CoordLine → Int)
    (hbody : ∀ l : CoordLine, l.WellFormed to_numeric → ∀ v, to_numeric l.valueField = .ok v →
      ∀ rest, body (some l.rowField :: some l.colField :: some l.valueField :: rest)
        = .ok ⟨frow l, l.colId - 1, v⟩)
    (lines : List CoordLine) (h : ∀ l ∈ lines, l.WellFormed to_numeric) (tokens : TokenStorage) :
    ∃ ts, parseLines body tokens (lines.map CoordLine.text) = .ok ts ∧
      ts.map (fun t => (t.row, t.col)) = lines.map (fun l => (frow l, l.colId - 1)) ∧
      ts.map (fun t => Except.ok t.value) = lines.map (fun l => to_numeric l.valueField) := by
  induction lines generalizing tokens with
  | nil => exact ⟨[], rfl, rfl, rfl⟩
  | cons l ls ih =>
    have hl := h l (by simp)
    obtain ⟨ts, h1, h2, h3⟩ := ih (fun x hx => h x (by simp [hx])) (tokensOfLine tokens l.text)
    obtain ⟨v, hv⟩ := hl.2.2.2.2.2
    refine ⟨⟨frow l, l.colId - 1, v⟩ :: ts, ?_, ?_, ?_⟩
    · have hb : body (tokensOfLine tokens l.text) = .ok ⟨frow l, l.colId - 1, v⟩ := by
        rw [tokensOfLine_wellFormed to_numeric l hl]
        exact hbody l hl v hv _
      exact parseLines_cons_ok body tokens l.text _ _ ts hb h1
    · simp [h2]
    · simp [h3, hv]

theorem parseLines_wellFormed {V : Type} (to_numeric : List Char → Except Fault V)
    (body : TokenStorage → Except Fault (Triplet V)) (frow : CoordLine → Int)
    (hbody : ∀ l : CoordLine, l.WellFormed to_numeric → ∀ v, to_numeric l.valueField = .ok v →
      ∀ rest, body (some l.rowField :: some l.colField :: some l.valueField :: rest)
        = .ok ⟨frow l, l.colId - 1, v⟩)
    (lines : List CoordLine) (h : ∀ l ∈ lines, l.WellFormed to_numeric) :
    ∃ ts, parseLines body [] (lines.map CoordLine.text) = .ok ts ∧
      ts.map (fun t => (t.row, t.col)) = lines.map (fun l => (frow l, l.colId - 1)) ∧
      ts.map (fun t => Except.ok t.value) = lines.map (fun l => to_numeric l.valueField) :=
  parseLines_wellFormed_from to_numeric body frow hbody lines h []

theorem getlineAll_coordText {V : Type} (to_numeric : List Char → Except Fault V)
    (lines : List CoordLine) (b : Bool) (h : ∀ l ∈ lines, l.WellFormed to_numeric) :
    getlineAll '\n' (textOfLines (lines.map CoordLine.text) b) = lines.map CoordLine.text := by
  apply getlineAll_textOfLines
  · intro x hx
    obtain ⟨l, hl, rfl⟩ := List.mem_map.1 hx
    exact (CoordLine.text_no_newline to_numeric l (h l hl)).1
  · intro x hx
    obtain ⟨l, hl, rfl⟩ := List.mem_map.1 hx
    exact (CoordLine.text_no_newline to_numeric l (h l hl)).2

/-- C7.  Parser output.  For a text whose lines are `<row>TAB<col>TAB<value>` with
valid fields (the last newline may be missing), the parse loop of
`tsv_string_to_matrix` ends with one triplet per line, in line order, whose row
and column are the ids of the line minus one and whose value is what
`to_numeric` returns on the value field; the parse loop of
`tsv_file_to_binary_file` does the same, with the row `row id - 1` relocated by
`rows * ((col id - 1) / COL_BLK)`. -/
theorem parse_loop_output {V : Type} (to_numeric : List Char → Except Fault V)
    (rows COL_BLK : Nat) (lines : List CoordLine) (finalNewline : Bool)
    (h : ∀ l ∈ lines, l.WellFormed to_numeric) :
    (∃ ts, tsv_string_to_matrix.triplet_list to_numeric
          (textOfLines (lines.map CoordLine.text) finalNewline) = .ok ts ∧
        ts.length = lines.length ∧
        ts.map (fun t => (t.row, t.col)) = lines.map (fun l => (l.rowId - 1, l.colId - 1)) ∧
        ts.map (fun t => Except.ok t.value) = lines.map (fun l => to_numeric l.valueField)) ∧
    (COL_BLK ≠ 0 →
      ∃ ts, tsv_file_to_binary_file.triplets to_numeric rows COL_BLK
          (textOfLines (lines.map CoordLine.text) finalNewline) = .ok ts ∧
        ts.length = lines.length ∧
        ts.map (fun t => (t.row, t.col)) =
          lines.map (fun l =>
            (l.rowId - 1 + (rows : Int) * Int.tdiv (l.colId - 1) (COL_BLK : Int), l.colId - 1)) ∧
        ts.map (fun t => Except.ok t.value) = lines.map (fun l => to_numeric l.valueField)) := by
  constructor
  · obtain ⟨ts, h1, h2, h3⟩ := parseLines_wellFormed to_numeric
      (tsv_string_to_matrix.entry to_numeric) (fun l => l.rowId - 1)
      (fun l hl v hv => entry_matrix_wellFormed to_numeric l hl v hv) lines h
    refine ⟨ts, ?_, ?_, h2, h3⟩
    · unfold tsv_string_to_matrix.triplet_list
      rw [getlineAll_coordText to_numeric lines finalNewline h, h1]
    · simpa using congrArg List.length h2
  · intro hblk
    obtain ⟨ts, h1, h2, h3⟩ := parseLines_wellFormed to_numeric
      (tsv_file_to_binary_file.entry to_numeric rows COL_BLK)
      (fun l => l.rowId - 1 + (rows : Int) * Int.tdiv (l.colId - 1) (COL_BLK : Int))
      (fun l hl v hv => entry_binary_wellFormed to_numeric rows COL_BLK hblk l hl v hv) lines h
    refine ⟨ts, ?_, ?_, h2, h3⟩
    · unfold tsv_file_to_binary_file.triplets
      rw [getlineAll_coordText to_numeric lines finalNewline h, h1]
    · simpa using congrArg List.length h2

theorem sampleLines_wellFormed : ∀ l ∈ sampleLines, l.WellFormed to_numeric_plain := by
  intro l hl
  simp only [sampleLines, List.mem_cons, List.mem_singleton, List.not_mem_nil, or_false] at hl
  rcases hl with rfl | rfl
  · exact ⟨by decide, by decide, by decide, by decide, by decide, ⟨⟨20, 1⟩, by decide⟩⟩
  · exact ⟨by decide, by decide, by decide, by decide, by decide, ⟨⟨30, 1⟩, by decide⟩⟩

/-- Witness of `parse_loop_output` on the text `"1\t1\t2.0\n2\t2\t3.0\n"`. -/
theorem parse_loop_output_witness :
    (∀ l ∈ sampleLines, l.WellFormed to_numeric_plain) ∧
    tsv_string_to_matrix.triplet_list to_numeric_plain "1\t1\t2.0\n2\t2\t3.0\n".toList =
      .ok [⟨0, 0, ⟨20, 1⟩⟩, ⟨1, 1, ⟨30, 1⟩⟩] ∧
    tsv_file_to_binary_file.triplets to_numeric_plain 2 1 "1\t1\t2.0\n2\t2\t3.0\n".toList =
      .ok [⟨0, 0, ⟨20, 1⟩⟩, ⟨3, 1, ⟨30, 1⟩⟩] ∧
    ((∃ ts, tsv_string_to_matrix.triplet_list to_numeric_plain
          (textOfLines (sampleLines.map CoordLine.text) true) = .ok ts ∧
        ts.length = sampleLines.length ∧
        ts.map (fun t => (t.row, t.col)) =
          sampleLines.map (fun l => (l.rowId - 1, l.colId - 1)) ∧
        ts.map (fun t => Except.ok t.value) =
          sampleLines.map (fun l => to_numeric_plain l.valueField)) ∧
    ((2 : Nat) ≠ 0 →
      ∃ ts, tsv_file_to_binary_file.triplets to_numeric_plain 2 2
          (textOfLines (sampleLines.map CoordLine.text) true) = .ok ts ∧
        ts.length = sampleLines.length ∧
        ts.map (fun t => (t.row, t.col)) =
          sampleLines.map (fun l =>
            (l.rowId - 1 + ((2 : Nat) : Int) * Int.tdiv (l.colId - 1) ((2 : Nat) : Int),
              l.colId - 1)) ∧
        ts.map (fun t => Except.ok t.value) =
          sampleLines.map (fun l => to_numeric_plain l.valueField))) :=
  ⟨sampleLines_wellFormed, by decide, by decide,
    parse_loop_output to_numeric_plain 2 2 sampleLines true sampleLines_wellFormed⟩

/-! ### Fields that `std::stoi` rejects, lines that stop the parse -/

theorem stoi_error_isFormatError (f : List Char) (e : Fault) (h : stoi f = .error e) :
    e.isFormatError = true := by
  unfold stoi at h
  simp only at h
  split_ifs at h <;> (cases h; rfl)

theorem stoi_of_no_leadingDigits (f : List Char) (h : leadingDigits f = []) :
    stoi f = .error .invalidArgument := by
  unfold leadingDigits at h
  unfold stoi
  simp [h]

theorem lines_no_newline {V : Type} (to_numeric : List Char → Except Fault V)
    (pre : List CoordLine) (tail : List (List Char))
    (hpre : ∀ l ∈ pre, l.WellFormed to_numeric) (htail : ∀ l ∈ tail, '\n' ∉ l) :
    ∀ l ∈ pre.map CoordLine.text ++ tail, '\n' ∉ l := by
  intro x hx
  rcases List.mem_append.1 hx with hx | hx
  · obtain ⟨l, hl, rfl⟩ := List.mem_map.1 hx
    exact (CoordLine.text_no_newline to_numeric l (hpre l hl)).1
  · exact htail x hx

theorem parseLines_stop_from {V : Type} (to_numeric : List Char → Except Fault V)
    (body : TokenStorage → Except Fault (Triplet V)) (frow : CoordLine → Int)
    (hbody : ∀ l : CoordLine, l.WellFormed to_numeric → ∀ v, to_numeric l.valueField = .ok v →
      ∀ rest, body (some l.rowField :: some l.colField :: some l.valueField :: rest)
        = .ok ⟨frow l, l.colId - 1, v⟩)
    (pre : List CoordLine) (hpre : ∀ l ∈ pre, l.WellFormed to_numeric)
    (bad : List Char) (rest : List (List Char)) (e : Fault)
    (hbad : ∀ tokens, body (tokensOfLine tokens bad) = .error e) (tokens : TokenStorage) :
    parseLines body tokens (pre.map CoordLine.text ++ bad :: rest) = .error e := by
  induction pre generalizing tokens with
  | nil => exact parseLines_cons_error body tokens bad rest e (hbad tokens)
  | cons l ls ih =>
    have hl := hpre l (by simp)
    obtain ⟨v, hv⟩ := hl.2.2.2.2.2
    have hb : body (tokensOfLine tokens l.text) = .ok ⟨frow l, l.colId - 1, v⟩ := by
      rw [tokensOfLine_wellFormed to_numeric l hl]
      exact hbody l hl v hv _
    exact parseLines_cons_stop body tokens l.text _ _ e hb
      (ih (fun x hx => hpre x (by simp [hx])) (tokensOfLine tokens l.text))

theorem parse_stops_at {V : Type} (to_numeric : List Char → Except Fault V)
    (body : TokenStorage → Except Fault (Triplet V)) (frow : CoordLine → Int)
    (hbody : ∀ l : CoordLine, l.WellFormed to_numeric → ∀ v, to_numeric l.valueField = .ok v →
      ∀ rest, body (some l.rowField :: some l.colField :: some l.valueField :: rest)
        = .ok ⟨frow l, l.colId - 1, v⟩)
    (pre : List CoordLine) (bad : List Char) (rest : List (List Char)) (e : Fault)
    (hpre : ∀ l ∈ pre, l.WellFormed to_numeric)
    (hbad : ∀ tokens, body (tokensOfLine tokens bad) = .error e)
    (hnl : '\n' ∉ bad) (hrest : ∀ l ∈ rest, '\n' ∉ l) :
    parseLines body [] (getlineAll '\n' (unlines '\n' (pre.map CoordLine.text ++ bad :: rest)))
      = .error e := by
  rw [getlineAll_unlines]
  · exact parseLines_stop_from to_numeric body frow hbody pre hpre bad rest e hbad []
  · apply lines_no_newline to_numeric pre _ hpre
    intro l hl
    rcases List.mem_cons.1 hl with rfl | hl
    · exact hnl
    · exact hrest l hl

theorem parseLines_then_one {V : Type} (to_numeric : List Char → Except Fault V)
    (body : TokenStorage → Except Fault (Triplet V)) (frow : CoordLine → Int)
    (hbody : ∀ l : CoordLine, l.WellFormed to_numeric → ∀ v, to_numeric l.valueField = .ok v →
      ∀ rest, body (some l.rowField :: some l.colField :: some l.valueField :: rest)
        = .ok ⟨frow l, l.colId - 1, v⟩)
    (pre : List CoordLine) (hpre : ∀ l ∈ pre, l.WellFormed to_numeric)
    (line : List Char) (t : Triplet V)
    (hline : ∀ tokens, body (tokensOfLine tokens line) = .ok t) (tokens : TokenStorage) :
    ∃ ts, parseLines body tokens (pre.map CoordLine.text ++ [line]) = .ok (ts ++ [t]) ∧
      ts.length = pre.length := by
  induction pre generalizing tokens with
  | nil => exact ⟨[], parseLines_cons_ok body tokens line [] t [] (hline tokens) rfl, rfl⟩
  | cons l ls ih =>
    have hl := hpre l (by simp)
    obtain ⟨v, hv⟩ := hl.2.2.2.2.2
    have hb : body (tokensOfLine tokens l.text) = .ok ⟨frow l, l.colId - 1, v⟩ := by
      rw [tokensOfLine_wellFormed to_numeric l hl]
      exact hbody l hl v hv _
    obtain ⟨ts, h1, h2⟩ := ih (fun x hx => hpre x (by simp [hx])) (tokensOfLine tokens l.text)
    exact ⟨⟨frow l, l.colId - 1, v⟩ :: ts,
      parseLines_cons_ok body tokens l.text _ _ _ hb h1, by simp [h2]⟩

/-! ### Lines with fewer than three fields -/

theorem tokensClear_local (l : CoordLine) (hl : l.FieldsLocal) (rest : TokenStorage) :
    tokensClear (some l.rowField :: some l.colField :: some l.valueField :: rest)
      = some l.rowField :: some l.colField :: some l.valueField :: tokensClear rest := by
  obtain ⟨h1, h2, h3⟩ := hl
  simp [tokensClear, Option.filter, h1, h2, h3]

theorem CoordLine.tokens_textUpTo {V : Type} (to_numeric : List Char → Except Fault V)
    (l : CoordLine) (h : l.WellFormed to_numeric) (count : Nat) (hc : count ≤ 3) :
    getlineAll '\t' (l.textUpTo count) = [l.rowField, l.colField, l.valueField].take count := by
  obtain ⟨hr, hcf, hv, ht, _, _⟩ := h
  have a := (intLiteral_no_delim _ hr).1
  have b := (intLiteral_no_delim _ hcf).1
  match count, hc with
  | 0, _ => rfl
  | 1, _ => exact getlineAll_no_delim _ _ a hr.1
  | 2, _ =>
    show getlineAll '\t' (l.rowField ++ '\t' :: l.colField) = _
    rw [getlineAll_append_delim _ _ _ a, getlineAll_no_delim _ _ b hcf.1]
    rfl
  | 3, _ => exact tokens_of_fields _ _ _ a b ht hv

theorem CoordLine.textUpTo_no_newline {V : Type} (to_numeric : List Char → Except Fault V)
    (l : CoordLine) (h : l.WellFormed to_numeric) (count : Nat) : '\n' ∉ l.textUpTo count := by
  have hn := (CoordLine.text_no_newline to_numeric l h).1
  simp only [CoordLine.text, List.mem_append, List.mem_cons, not_or] at hn
  match count with
  | 0 => simp [CoordLine.textUpTo]
  | 1 => exact hn.1
  | 2 =>
    simp only [CoordLine.textUpTo, List.mem_append, List.mem_cons, not_or]
    exact ⟨hn.1, hn.2.1, hn.2.2.1⟩
  | n + 3 =>
    simp only [CoordLine.textUpTo, CoordLine.text, List.mem_append, List.mem_cons, not_or]
    exact hn

theorem tokensOfLine_upTo {V : Type} (to_numeric : List Char → Except Fault V)
    (l prev : CoordLine) (h : l.WellFormed to_numeric) (hp : prev.FieldsLocal)
    (count : Nat) (hc : count ≤ 3) (rest : TokenStorage) :
    tokensOfLine (some prev.rowField :: some prev.colField :: some prev.valueField :: rest)
        (l.textUpTo count)
      = some (l.completedBy count prev).rowField :: some (l.completedBy count prev).colField
          :: some (l.completedBy count prev).valueField :: tokensClear rest := by
  unfold tokensOfLine
  rw [CoordLine.tokens_textUpTo to_numeric l h count hc, tokensClear_local prev hp]
  match count, hc with
  | 0, _ => rfl
  | 1, _ => rfl
  | 2, _ => rfl
  | 3, _ => rfl

theorem CoordLine.completedBy_wellFormed {V : Type} (to_numeric : List Char → Except Fault V)
    (l prev : CoordLine) (h : l.WellFormed to_numeric ∧ l.FieldsLocal)
    (hp : prev.WellFormed to_numeric ∧ prev.FieldsLocal) (count : Nat) :
    (l.completedBy count prev).WellFormed to_numeric ∧ (l.completedBy count prev).FieldsLocal := by
  obtain ⟨⟨a1, a2, a3, a4, a5, a6⟩, b1, b2, b3⟩ := h
  obtain ⟨⟨c1, c2, c3, c4, c5, c6⟩, d1, d2, d3⟩ := hp
  unfold CoordLine.completedBy CoordLine.WellFormed CoordLine.FieldsLocal
  refine ⟨⟨?_, ?_, ?_⟩, ?_, ?_, ?_⟩
  · dsimp only; split_ifs <;> assumption
  · dsimp only; split_ifs <;> assumption
  · dsimp only; split_ifs
    · exact ⟨a3, a4, a5, a6⟩
    · exact ⟨c3, c4, c5, c6⟩
  · dsimp only; split_ifs <;> assumption
  · dsimp only; split_ifs <;> assumption
  · dsimp only; split_ifs <;> assumption

theorem parseLines_short {V : Type} (to_numeric : List Char → Except Fault V)
    (body : TokenStorage → Except Fault (Triplet V)) (frow : CoordLine → Int)
    (hbody : ∀ l : CoordLine, l.WellFormed to_numeric → ∀ v, to_numeric l.valueField = .ok v →
      ∀ rest, body (some l.rowField :: some l.colField :: some l.valueField :: rest)
        = .ok ⟨frow l, l.colId - 1, v⟩)
    (others : List (CoordLine × Nat))
    (h : ∀ x ∈ others, x.1.WellFormed to_numeric ∧ x.1.FieldsLocal ∧ x.2 ≤ 3)
    (prev : CoordLine) (hprev : prev.WellFormed to_numeric ∧ prev.FieldsLocal)
    (rest : TokenStorage) :
    ∃ ts, parseLines body
          (some prev.rowField :: some prev.colField :: some prev.valueField :: rest)
          (others.map (fun x => x.1.textUpTo x.2)) = .ok ts ∧
      ts.map (fun t => (t.row, t.col))
        = (completeLines prev others).map (fun l => (frow l, l.colId - 1)) ∧
      ts.map (fun t => Except.ok t.value)
        = (completeLines prev others).map (fun l => to_numeric l.valueField) := by
  induction others generalizing prev rest with
  | nil => exact ⟨[], rfl, rfl, rfl⟩
  | cons x xs ih =>
    obtain ⟨hx1, hx2, hx3⟩ := h x (by simp)
    have hc := CoordLine.completedBy_wellFormed to_numeric x.1 prev ⟨hx1, hx2⟩ hprev x.2
    obtain ⟨v, hv⟩ := hc.1.2.2.2.2.2
    obtain ⟨ts, h1, h2, h3⟩ := ih (fun y hy => h y (by simp [hy]))
      (x.1.completedBy x.2 prev) hc (tokensClear rest)
    have ht := tokensOfLine_upTo to_numeric x.1 prev hx1 hprev.2 x.2 hx3 rest
    refine ⟨⟨frow (x.1.completedBy x.2 prev), (x.1.completedBy x.2 prev).colId - 1, v⟩ :: ts,
      ?_, ?_, ?_⟩
    · refine parseLines_cons_ok body _ _ _ _ ts ?_ ?_
      · rw [ht]; exact hbody _ hc.1 v hv _
      · rw [ht]; exact h1
    · simp [completeLines, h2]
    · simp [completeLines, h3, hv]

theorem parse_short_text {V : Type} (to_numeric : List Char → Except Fault V)
    (body : TokenStorage → Except Fault (Triplet V)) (frow : CoordLine → Int)
    (hbody : ∀ l : CoordLine, l.WellFormed to_numeric → ∀ v, to_numeric l.valueField = .ok v →
      ∀ rest, body (some l.rowField :: some l.colField :: some l.valueField :: rest)
        = .ok ⟨frow l, l.colId - 1, v⟩)
    (first : CoordLine) (others : List (CoordLine × Nat))
    (hfirst : first.WellFormed to_numeric ∧ first.FieldsLocal)
    (hothers : ∀ x ∈ others, x.1.WellFormed to_numeric ∧ x.1.FieldsLocal ∧ x.2 ≤ 3) :
    ∃ ts, parseLines body []
          (getlineAll '\n' (unlines '\n' (first.text :: others.map (fun x => x.1.textUpTo x.2))))
          = .ok ts ∧
      ts.length = 1 + others.length ∧
      ts.map (fun t => (t.row, t.col))
        = (first :: completeLines first others).map (fun l => (frow l, l.colId - 1)) ∧
      ts.map (fun t => Except.ok t.value)
        = (first :: completeLines first others).map (fun l => to_numeric l.valueField) := by
  have hnl : ∀ l ∈ first.text :: others.map (fun x => x.1.textUpTo x.2), '\n' ∉ l := by
    intro l hl
    rcases List.mem_cons.1 hl with rfl | hl
    · exact (CoordLine.text_no_newline to_numeric first hfirst.1).1
    · obtain ⟨x, hx, rfl⟩ := List.mem_map.1 hl
      exact CoordLine.textUpTo_no_newline to_numeric x.1 (hothers x hx).1 x.2
  obtain ⟨v, hv⟩ := hfirst.1.2.2.2.2.2
  obtain ⟨ts, h1, h2, h3⟩ := parseLines_short to_numeric body frow hbody others hothers
    first hfirst ((tokensClear []).drop 3)
  have hlen : ts.length = others.length := by
    have hcl : ∀ (p : CoordLine) (xs : List (CoordLine × Nat)),
        (completeLines p xs).length = xs.length := by
      intro p xs
      induction xs generalizing p with
      | nil => rfl
      | cons y ys ihy => simp [completeLines, ihy]
    have := congrArg List.length h2
    simpa [hcl] using this
  refine ⟨⟨frow first, first.colId - 1, v⟩ :: ts, ?_, by simp [hlen]; omega, by simp [h2],
    by simp [h3, hv]⟩
  rw [getlineAll_unlines _ _ hnl]
  refine parseLines_cons_ok body _ _ _ _ ts ?_ ?_
  · rw [tokensOfLine_wellFormed to_numeric first hfirst.1]; exact hbody first hfirst.1 v hv _
  · rw [tokensOfLine_wellFormed to_numeric first hfirst.1]; exact h1

theorem sampleShortLines_ok :
    ∀ x ∈ sampleShortLines, x.1.WellFormed to_numeric_plain ∧ x.1.FieldsLocal ∧ x.2 ≤ 3 := by
  intro x hx
  simp only [sampleShortLines, List.mem_cons, List.mem_singleton, List.not_mem_nil,
    or_false] at hx
  rcases hx with rfl | rfl | rfl | rfl
  · exact ⟨⟨by decide, by decide, by decide, by decide, by decide, ⟨⟨30, 1⟩, by decide⟩⟩,
      by decide, by decide⟩
  · exact ⟨⟨by decide, by decide, by decide, by decide, by decide, ⟨⟨30, 1⟩, by decide⟩⟩,
      by decide, by decide⟩
  · exact ⟨⟨by decide, by decide, by decide, by decide, by decide, ⟨⟨10, 1⟩, by decide⟩⟩,
      by decide, by decide⟩
  · exact ⟨⟨by decide, by decide, by decide, by decide, by decide, ⟨⟨10, 1⟩, by decide⟩⟩,
      by decide, by decide⟩

theorem sampleFirst_ok :
    (⟨"1".toList, "1".toList, "2.0".toList⟩ : CoordLine).WellFormed to_numeric_plain ∧
      (⟨"1".toList, "1".toList, "2.0".toList⟩ : CoordLine).FieldsLocal :=
  ⟨⟨by decide, by decide, by decide, by decide, by decide, ⟨⟨20, 1⟩, by decide⟩⟩, by decide⟩

theorem tokensOfLine_three (tokens : TokenStorage) (line t0 t1 t2 : List Char)
    (more : List (List Char)) (htok : getlineAll '\t' line = t0 :: t1 :: t2 :: more) :
    ∃ rest, tokensOfLine tokens line = some t0 :: some t1 :: some t2 :: rest := by
  unfold tokensOfLine
  rw [htok]
  exact ⟨_, rfl⟩

theorem entry_matrix_bad_id {V : Type} (to_numeric : List Char → Except Fault V)
    (t0 t1 t2 : List Char) (hid : leadingDigits t0 = [] ∨ leadingDigits t1 = []) :
    ∃ e, e.isFormatError = true ∧
      ∀ rest, tsv_string_to_matrix.entry to_numeric (some t0 :: some t1 :: some t2 :: rest)
        = .error e := by
  unfold tsv_string_to_matrix.entry
  cases h0 : stoi t0 with
  | error e => exact ⟨e, stoi_error_isFormatError _ _ h0, fun _ => by simp [tokenAt, h0]⟩
  | ok r0 =>
    have h1 : stoi t1 = .error .invalidArgument := by
      rcases hid with h | h
      · rw [stoi_of_no_leadingDigits _ h] at h0; cases h0
      · exact stoi_of_no_leadingDigits _ h
    exact ⟨.invalidArgument, rfl, fun _ => by simp [tokenAt, h0, h1]⟩

theorem entry_binary_bad_id {V : Type} (to_numeric : List Char → Except Fault V)
    (rows COL_BLK : Nat) (t0 t1 t2 : List Char)
    (hid : leadingDigits t0 = [] ∨ leadingDigits t1 = []) :
    ∃ e, e.isFormatError = true ∧
      ∀ rest, tsv_file_to_binary_file.entry to_numeric rows COL_BLK
        (some t0 :: some t1 :: some t2 :: rest) = .error e := by
  unfold tsv_file_to_binary_file.entry
  cases h0 : stoi t0 with
  | error e => exact ⟨e, stoi_error_isFormatError _ _ h0, fun _ => by simp [tokenAt, h0]⟩
  | ok r0 =>
    have h1 : stoi t1 = .error .invalidArgument := by
      rcases hid with h | h
      · rw [stoi_of_no_leadingDigits _ h] at h0; cases h0
      · exact stoi_of_no_leadingDigits _ h
    exact ⟨.invalidArgument, rfl, fun _ => by simp [tokenAt, h0, h1]⟩

/-- What `std::stoi` makes of a decimal literal that fits an `int` and is followed
by characters of which the first is no digit: the value of the literal. -/
theorem stoi_literal_then_other (ds junk : List Char) (h : IsIntLiteral ds)
    (hj : ∀ c, junk.head? = some c → isDigit c = false) :
    stoi (ds ++ junk) = .ok (digitsVal ds : Int) := by
  obtain ⟨hne, hd, hr⟩ := h
  cases ds with
  | nil => exact absurd rfl hne
  | cons c cs =>
    have hc : isDigit c = true := hd c (by simp)
    obtain ⟨hs, _⟩ := isDigit_facts c hc
    have e1 : (c :: cs ++ junk).dropWhile isSpace = c :: (cs ++ junk) := by
      simp [List.dropWhile, hs]
    have e3 : junk.takeWhile isDigit = [] := by
      cases junk with
      | nil => rfl
      | cons j js => simp [List.takeWhile, hj j rfl]
    have e2 : (c :: (cs ++ junk)).takeWhile isDigit = c :: cs := by
      have h2 : ((c :: cs) ++ junk).takeWhile isDigit = (c :: cs) ++ junk.takeWhile isDigit :=
        List.takeWhile_append_of_pos hd
      rw [e3, List.append_nil] at h2
      exact h2
    unfold stoi
    simp only [e1, stripSign_of_digit c (cs ++ junk) hc, e2]
    have hr2 : ((digitsVal (c :: cs) : Nat) : Int) ≤ 2147483647 := by exact_mod_cast hr
    have hr3 : (0 : Int) ≤ ((digitsVal (c :: cs) : Nat) : Int) := Int.ofNat_nonneg _
    simp only [reduceCtorEq, if_false, Bool.false_eq_true]
    rw [if_neg]
    omega

theorem tokens_of_longer_ids {V : Type} (to_numeric : List Char → Except Fault V)
    (good : CoordLine) (junkRow junkCol : List Char) (hgood : good.WellFormed to_numeric)
    (hjr : '\t' ∉ junkRow) (hjc : '\t' ∉ junkCol) :
    getlineAll '\t' (CoordLine.text
        ⟨good.rowField ++ junkRow, good.colField ++ junkCol, good.valueField⟩)
      = [good.rowField ++ junkRow, good.colField ++ junkCol, good.valueField] := by
  obtain ⟨hr, hc, hv, ht, _, _⟩ := hgood
  apply tokens_of_fields _ _ _ _ _ ht hv
  · simp only [List.mem_append, not_or]; exact ⟨(intLiteral_no_delim _ hr).1, hjr⟩
  · simp only [List.mem_append, not_or]; exact ⟨(intLiteral_no_delim _ hc).1, hjc⟩

theorem parse_then_one_text {V : Type} (to_numeric : List Char → Except Fault V)
    (body : TokenStorage → Except Fault (Triplet V)) (frow : CoordLine → Int)
    (hbody : ∀ l : CoordLine, l.WellFormed to_numeric → ∀ v, to_numeric l.valueField = .ok v →
      ∀ rest, body (some l.rowField :: some l.colField :: some l.valueField :: rest)
        = .ok ⟨frow l, l.colId - 1, v⟩)
    (pre : List CoordLine) (hpre : ∀ l ∈ pre, l.WellFormed to_numeric)
    (line : List Char) (t : Triplet V) (hnl : '\n' ∉ line)
    (hline : ∀ tokens, body (tokensOfLine tokens line) = .ok t) :
    ∃ ts, parseLines body [] (getlineAll '\n' (unlines '\n' (pre.map CoordLine.text ++ [line])))
        = .ok (ts ++ [t]) ∧ ts.length = pre.length := by
  rw [getlineAll_unlines]
  · exact parseLines_then_one to_numeric body frow hbody pre hpre line t hline []
  · apply lines_no_newline to_numeric pre _ hpre
    intro l hl
    rw [List.mem_singleton] at hl
    subst hl
    exact hnl

/-- C9, amended.  A line with three fields whose row-id or column-id field has no
decimal digit after the optional leading white space and sign (an empty field,
`x1`) makes the loop body fail with a format error (an exception of `std::stoi`),
whatever `tokens` held before; no triplet is made of the line, and the parse of a
text that holds the line after well-formed lines fails with that error.  An id
field that is a decimal literal fitting an `int` followed by other characters, the
first of which is no digit (`1x`, `2.5`), is accepted by `std::stoi` and read as
that literal: a line with such ids after well-formed lines yields the triplet of
the literals, and the parse returns. -/
theorem id_without_digits_rejected {V : Type} (to_numeric : List Char → Except Fault V)
    (rows COL_BLK : Nat) (pre : List CoordLine) (bad t0 t1 t2 : List Char)
    (more rest : List (List Char))
    (hpre : ∀ l ∈ pre, l.WellFormed to_numeric)
    (htok : getlineAll '\t' bad = t0 :: t1 :: t2 :: more)
    (hid : leadingDigits t0 = [] ∨ leadingDigits t1 = [])
    (hnl : '\n' ∉ bad) (hrest : ∀ l ∈ rest, '\n' ∉ l)
    (good : CoordLine) (junkRow junkCol : List Char) (hgood : good.WellFormed to_numeric)
    (hjr : '\t' ∉ junkRow ∧ '\n' ∉ junkRow ∧ ∀ c, junkRow.head? = some c → isDigit c = false)
    (hjc : '\t' ∉ junkCol ∧ '\n' ∉ junkCol ∧ ∀ c, junkCol.head? = some c → isDigit c = false) :
    (∃ e, e.isFormatError = true ∧
        (∀ tokens, tsv_string_to_matrix.entry to_numeric (tokensOfLine tokens bad) = .error e) ∧
        tsv_string_to_matrix.triplet_list to_numeric
          (unlines '\n' (pre.map CoordLine.text ++ bad :: rest)) = .error e) ∧
    (COL_BLK ≠ 0 →
      ∃ e, e.isFormatError = true ∧
        (∀ tokens, tsv_file_to_binary_file.entry to_numeric rows COL_BLK (tokensOfLine tokens bad)
          = .error e) ∧
        tsv_file_to_binary_file.triplets to_numeric rows COL_BLK
          (unlines '\n' (pre.map CoordLine.text ++ bad :: rest)) = .error e) ∧
    stoi (good.rowField ++ junkRow) = .ok good.rowId ∧
    stoi (good.colField ++ junkCol) = .ok good.colId ∧
    (∃ v ts, to_numeric good.valueField = .ok v ∧
        tsv_string_to_matrix.triplet_list to_numeric
          (unlines '\n' (pre.map CoordLine.text ++ [CoordLine.text
            ⟨good.rowField ++ junkRow, good.colField ++ junkCol, good.valueField⟩]))
          = .ok (ts ++ [⟨good.rowId - 1, good.colId - 1, v⟩]) ∧
        ts.length = pre.length) ∧
    (COL_BLK ≠ 0 →
      ∃ v ts, to_numeric good.valueField = .ok v ∧
        tsv_file_to_binary_file.triplets to_numeric rows COL_BLK
          (unlines '\n' (pre.map CoordLine.text ++ [CoordLine.text
            ⟨good.rowField ++ junkRow, good.colField ++ junkCol, good.valueField⟩]))
          = .ok (ts ++ [⟨good.rowId - 1 + (rows : Int) * Int.tdiv (good.colId - 1) (COL_BLK : Int),
              good.colId - 1, v⟩]) ∧
        ts.length = pre.length) := by
  have hsr := stoi_literal_then_other good.rowField junkRow hgood.1 hjr.2.2
  have hsc := stoi_literal_then_other good.colField junkCol hgood.2.1 hjc.2.2
  have hfields := tokens_of_longer_ids to_numeric good junkRow junkCol hgood hjr.1 hjc.1
  have hnl2 : '\n' ∉ CoordLine.text
      ⟨good.rowField ++ junkRow, good.colField ++ junkCol, good.valueField⟩ := by
    have hn := (CoordLine.text_no_newline to_numeric good hgood).1
    simp only [CoordLine.text, List.mem_append, List.mem_cons, not_or] at hn ⊢
    exact ⟨⟨hn.1, hjr.2.1⟩, hn.2.1, ⟨hn.2.2.1, hjc.2.1⟩, hn.2.2.2.1, hn.2.2.2.2⟩
  obtain ⟨v, hv⟩ := hgood.2.2.2.2.2
  refine ⟨?_, ?_, hsr, hsc, ?_, ?_⟩
  · obtain ⟨e, hf, he⟩ := entry_matrix_bad_id to_numeric t0 t1 t2 hid
    have hb : ∀ tokens, tsv_string_to_matrix.entry to_numeric (tokensOfLine tokens bad)
        = .error e := by
      intro tokens
      obtain ⟨r, hr⟩ := tokensOfLine_three tokens bad t0 t1 t2 more htok
      rw [hr]; exact he r
    exact ⟨e, hf, hb, parse_stops_at to_numeric _ (fun l => l.rowId - 1)
      (fun l hl v hv => entry_matrix_wellFormed to_numeric l hl v hv) pre bad rest e hpre hb
      hnl hrest⟩
  · intro hblk
    obtain ⟨e, hf, he⟩ := entry_binary_bad_id to_numeric rows COL_BLK t0 t1 t2 hid
    have hb : ∀ tokens, tsv_file_to_binary_file.entry to_numeric rows COL_BLK
        (tokensOfLine tokens bad) = .error e := by
      intro tokens
      obtain ⟨r, hr⟩ := tokensOfLine_three tokens bad t0 t1 t2 more htok
      rw [hr]; exact he r
    exact ⟨e, hf, hb, parse_stops_at to_numeric _
      (fun l => l.rowId - 1 + (rows : Int) * Int.tdiv (l.colId - 1) (COL_BLK : Int))
      (fun l hl v hv => entry_binary_wellFormed to_numeric rows COL_BLK hblk l hl v hv)
      pre bad rest e hpre hb hnl hrest⟩
  · have hline : ∀ tokens, tsv_string_to_matrix.entry to_numeric (tokensOfLine tokens
        (CoordLine.text ⟨good.rowField ++ junkRow, good.colField ++ junkCol, good.valueField⟩))
        = .ok ⟨good.rowId - 1, good.colId - 1, v⟩ := by
      intro tokens
      unfold tokensOfLine
      rw [hfields]
      unfold tsv_string_to_matrix.entry
      simp only [List.map_cons, List.cons_append, tokenAt, List.get?, hsr, hsc, hv,
        CoordLine.rowId, CoordLine.colId]
    obtain ⟨ts, h1, h2⟩ := parse_then_one_text to_numeric _ (fun l => l.rowId - 1)
      (fun l hl v hv => entry_matrix_wellFormed to_numeric l hl v hv) pre hpre _ _ hnl2 hline
    exact ⟨v, ts, hv, h1, h2⟩
  · intro hblk
    have hline : ∀ tokens, tsv_file_to_binary_file.entry to_numeric rows COL_BLK
        (tokensOfLine tokens
        (CoordLine.text ⟨good.rowField ++ junkRow, good.colField ++ junkCol, good.valueField⟩))
        = .ok ⟨good.rowId - 1 + (rows : Int) * Int.tdiv (good.colId - 1) (COL_BLK : Int),
            good.colId - 1, v⟩ := by
      intro tokens
      unfold tokensOfLine
      rw [hfields]
      unfold tsv_file_to_binary_file.entry
      simp only [List.map_cons, List.cons_append, tokenAt, List.get?, hsr, hsc, hv, hblk,
        if_false, CoordLine.rowId, CoordLine.colId]
    obtain ⟨ts, h1, h2⟩ := parse_then_one_text to_numeric _
      (fun l => l.rowId - 1 + (rows : Int) * Int.tdiv (l.colId - 1) (COL_BLK : Int))
      (fun l hl v hv => entry_binary_wellFormed to_numeric rows COL_BLK hblk l hl v hv)
      pre hpre _ _ hnl2 hline
    exact ⟨v, ts, hv, h1, h2⟩

/-- Witness of `id_without_digits_rejected`: two good lines, then `x1<TAB><TAB>2.0`,
which is rejected, or `1x<TAB>2.5<TAB>2.0`, which is read as the ids 1 and 2. -/
theorem id_without_digits_rejected_witness :
    (∀ l ∈ sampleLines, l.WellFormed to_numeric_plain) ∧
    getlineAll '\t' "x1\t\t2.0".toList = ["x1".toList, [], "2.0".toList] ∧
    leadingDigits "x1".toList = [] ∧
    (⟨"1".toList, "2".toList, "2.0".toList⟩ : CoordLine).WellFormed to_numeric_plain ∧
    CoordLine.text ⟨"1".toList ++ "x".toList, "2".toList ++ ".5".toList, "2.0".toList⟩
      = "1x\t2.5\t2.0".toList ∧
    tsv_string_to_matrix.triplet_list to_numeric_plain
        "1\t1\t2.0\n2\t2\t3.0\n1x\t2.5\t2.0\n".toList
      = .ok [⟨0, 0, ⟨20, 1⟩⟩, ⟨1, 1, ⟨30, 1⟩⟩, ⟨0, 1, ⟨20, 1⟩⟩] ∧
    ((∃ e, e.isFormatError = true ∧
        (∀ tokens, tsv_string_to_matrix.entry to_numeric_plain
          (tokensOfLine tokens "x1\t\t2.0".toList) = .error e) ∧
        tsv_string_to_matrix.triplet_list to_numeric_plain
          (unlines '\n' (sampleLines.map CoordLine.text ++ "x1\t\t2.0".toList :: [])) = .error e) ∧
    ((2 : Nat) ≠ 0 →
      ∃ e, e.isFormatError = true ∧
        (∀ tokens, tsv_file_to_binary_file.entry to_numeric_plain 2 2
          (tokensOfLine tokens "x1\t\t2.0".toList) = .error e) ∧
        tsv_file_to_binary_file.triplets to_numeric_plain 2 2
          (unlines '\n' (sampleLines.map CoordLine.text ++ "x1\t\t2.0".toList :: [])) = .error e) ∧
    stoi ("1".toList ++ "x".toList)
      = .ok (CoordLine.rowId ⟨"1".toList, "2".toList, "2.0".toList⟩) ∧
    stoi ("2".toList ++ ".5".toList)
      = .ok (CoordLine.colId ⟨"1".toList, "2".toList, "2.0".toList⟩) ∧
    (∃ v ts, to_numeric_plain (CoordLine.valueField ⟨"1".toList, "2".toList, "2.0".toList⟩)
          = .ok v ∧
        tsv_string_to_matrix.triplet_list to_numeric_plain
          (unlines '\n' (sampleLines.map CoordLine.text ++ [CoordLine.text
            ⟨(CoordLine.rowField ⟨"1".toList, "2".toList, "2.0".toList⟩) ++ "x".toList,
             (CoordLine.colField ⟨"1".toList, "2".toList, "2.0".toList⟩) ++ ".5".toList,
             CoordLine.valueField ⟨"1".toList, "2".toList, "2.0".toList⟩⟩]))
          = .ok (ts ++ [⟨CoordLine.rowId ⟨"1".toList, "2".toList, "2.0".toList⟩ - 1,
              CoordLine.colId ⟨"1".toList, "2".toList, "2.0".toList⟩ - 1, v⟩]) ∧
        ts.length = sampleLines.length) ∧
    ((2 : Nat) ≠ 0 →
      ∃ v ts, to_numeric_plain (CoordLine.valueField ⟨"1".toList, "2".toList, "2.0".toList⟩)
          = .ok v ∧
        tsv_file_to_binary_file.triplets to_numeric_plain 2 2
          (unlines '\n' (sampleLines.map CoordLine.text ++ [CoordLine.text
            ⟨(CoordLine.rowField ⟨"1".toList, "2".toList, "2.0".toList⟩) ++ "x".toList,
             (CoordLine.colField ⟨"1".toList, "2".toList, "2.0".toList⟩) ++ ".5".toList,
             CoordLine.valueField ⟨"1".toList, "2".toList, "2.0".toList⟩⟩]))
          = .ok (ts ++ [⟨CoordLine.rowId ⟨"1".toList, "2".toList, "2.0".toList⟩ - 1
              + ((2 : Nat) : Int) * Int.tdiv
                  (CoordLine.colId ⟨"1".toList, "2".toList, "2.0".toList⟩ - 1) ((2 : Nat) : Int),
              CoordLine.colId ⟨"1".toList, "2".toList, "2.0".toList⟩ - 1, v⟩]) ∧
        ts.length = sampleLines.length)) :=
  ⟨sampleLines_wellFormed, by decide, by decide,
    ⟨by decide, by decide, by decide, by decide, by decide, ⟨⟨20, 1⟩, by decide⟩⟩,
    by decide, by decide,
    id_without_digits_rejected to_numeric_plain 2 2 sampleLines "x1\t\t2.0".toList
      "x1".toList [] "2.0".toList [] [] sampleLines_wellFormed (by decide) (Or.inl (by decide))
      (by decide) (by simp)
      ⟨"1".toList, "2".toList, "2.0".toList⟩ "x".toList ".5".toList
      ⟨by decide, by decide, by decide, by decide, by decide, ⟨⟨20, 1⟩, by decide⟩⟩
      ⟨by decide, by decide, by decide⟩ ⟨by decide, by decide, by decide⟩⟩

/-- C9, counterexample.  The line `1x<TAB>2.5<TAB>2.0` has three fields, and neither
`1x` nor `2.5` is an integer literal; both parse loops accept it and read the ids
as `1` and `2`. -/
theorem invalid_id_accepted :
    getlineAll '\t' "1x\t2.5\t2.0".toList = ["1x".toList, "2.5".toList, "2.0".toList] ∧
    ¬ IsIntLiteral "1x".toList ∧ ¬ IsIntLiteral "2.5".toList ∧
    tsv_string_to_matrix.triplet_list to_numeric_plain "1x\t2.5\t2.0\n".toList
      = .ok [⟨0, 1, ⟨20, 1⟩⟩] ∧
    tsv_file_to_binary_file.triplets to_numeric_plain 2 2 "1x\t2.5\t2.0\n".toList
      = .ok [⟨0, 1, ⟨20, 1⟩⟩] := by
  decide

/-! ### The layer stride -/

theorem wrapInt_of_fits (x : Int) (h1 : -2147483648 ≤ x) (h2 : x ≤ 2147483647) :
    wrapInt x = x := by
  unfold wrapInt; omega

theorem wrapSize_of_fits (x : Int) (h1 : 0 ≤ x) (h2 : x < 18446744073709551616) :
    wrapSize x = x := by
  unfold wrapSize; omega

theorem ratio_int_cases (p : Precision) : (p.ratio : Int) = 1 ∨ (p.ratio : Int) = 2 := by
  cases p
  · exact Or.inl rfl
  · exact Or.inr rfl

/-- Both strides are the plain sum when `pad` is an `int`, the sums that are added
in `int` fit an `int`, and the plain sum is not negative. -/
theorem stride_of_fits (p : Precision) (num_neurons_per_layer max_nnz_per_layer N_SLAB : Nat)
    (pad : Int) (hpad : -2147483648 ≤ pad ∧ pad ≤ 2147483647)
    (hfit : (num_neurons_per_layer : Int) * N_SLAB + 1 + max_nnz_per_layer ≤ 2147483647)
    (hfitPad : -2147483648 ≤ (num_neurons_per_layer : Int) * N_SLAB + 1 + max_nnz_per_layer + pad ∧
      (num_neurons_per_layer : Int) * N_SLAB + 1 + max_nnz_per_layer + pad ≤ 2147483647)
    (hnonneg : 0 ≤ (num_neurons_per_layer : Int) * N_SLAB + 1 + max_nnz_per_layer + pad
      + (p.ratio : Int) * max_nnz_per_layer) :
    read_weight.stride p num_neurons_per_layer max_nnz_per_layer N_SLAB pad
      = (num_neurons_per_layer : Int) * N_SLAB + 1 + max_nnz_per_layer + pad
          + (p.ratio : Int) * max_nnz_per_layer ∧
    read_weight_binary.stride p num_neurons_per_layer max_nnz_per_layer N_SLAB pad
      = (num_neurons_per_layer : Int) * N_SLAB + 1 + max_nnz_per_layer + pad
          + (p.ratio : Int) * max_nnz_per_layer := by
  have hA : (0 : Int) ≤ (num_neurons_per_layer : Int) * (N_SLAB : Int) :=
    mul_nonneg (Int.ofNat_nonneg _) (Int.ofNat_nonneg _)
  have hM : (0 : Int) ≤ (max_nnz_per_layer : Int) := Int.ofNat_nonneg _
  unfold read_weight.stride read_weight_binary.stride
  generalize (num_neurons_per_layer : Int) * (N_SLAB : Int) = A at hA hfit hfitPad hnonneg ⊢
  generalize (max_nnz_per_layer : Int) = M at hM hfit hfitPad hnonneg ⊢
  have e1 : wrapInt A = A := wrapInt_of_fits _ (by omega) (by omega)
  have e2 : wrapInt (A + 1) = A + 1 := wrapInt_of_fits _ (by omega) (by omega)
  have e3 : wrapInt (A + 1 + M) = A + 1 + M := wrapInt_of_fits _ (by omega) (by omega)
  have e4 : wrapInt (A + 1 + M + pad) = A + 1 + M + pad :=
    wrapInt_of_fits _ (by omega) (by omega)
  have e5 : wrapSize M = M := wrapSize_of_fits _ hM (by omega)
  have e7 : wrapSize (A + 1 + M) = A + 1 + M := wrapSize_of_fits _ (by omega) (by omega)
  rw [e1, e2, e3, e4, e5, e7]
  rcases ratio_int_cases p with hr | hr <;> rw [hr] at hnonneg ⊢
  · have e9 : wrapSize (1 * M) = 1 * M := wrapSize_of_fits _ (by omega) (by omega)
    have e10 : wrapSize (A + 1 + M + 1 * M) = A + 1 + M + 1 * M :=
      wrapSize_of_fits _ (by omega) (by omega)
    rw [e9, e10]
    constructor <;> (unfold wrapSize; omega)
  · have e9 : wrapSize (2 * M) = 2 * M := wrapSize_of_fits _ (by omega) (by omega)
    have e10 : wrapSize (A + 1 + M + 2 * M) = A + 1 + M + 2 * M :=
      wrapSize_of_fits _ (by omega) (by omega)
    rw [e9, e10]
    constructor <;> (unfold wrapSize; omega)

/-- Both locations are `i` times the plain sum under the same conditions, for an
`int` `i` that is not negative. -/
theorem location_of_fits (p : Precision) (num_neurons_per_layer max_nnz_per_layer N_SLAB : Nat)
    (pad : Int) (hpad : -2147483648 ≤ pad ∧ pad ≤ 2147483647)
    (hfit : (num_neurons_per_layer : Int) * N_SLAB + 1 + max_nnz_per_layer ≤ 2147483647)
    (hfitPad : -2147483648 ≤ (num_neurons_per_layer : Int) * N_SLAB + 1 + max_nnz_per_layer + pad ∧
      (num_neurons_per_layer : Int) * N_SLAB + 1 + max_nnz_per_layer + pad ≤ 2147483647)
    (hnonneg : 0 ≤ (num_neurons_per_layer : Int) * N_SLAB + 1 + max_nnz_per_layer + pad
      + (p.ratio : Int) * max_nnz_per_layer)
    (i : Nat) (hi : (i : Int) ≤ 2147483647) :
    read_weight.location p num_neurons_per_layer max_nnz_per_layer N_SLAB pad i
      = (i : Int) * ((num_neurons_per_layer : Int) * N_SLAB + 1 + max_nnz_per_layer + pad
          + (p.ratio : Int) * max_nnz_per_layer) ∧
    read_weight_binary.location p num_neurons_per_layer max_nnz_per_layer N_SLAB pad i
      = (i : Int) * ((num_neurons_per_layer : Int) * N_SLAB + 1 + max_nnz_per_layer + pad
          + (p.ratio : Int) * max_nnz_per_layer) := by
  obtain ⟨h1, h2⟩ := stride_of_fits p num_neurons_per_layer max_nnz_per_layer N_SLAB pad hpad
    hfit hfitPad hnonneg
  have hA : (0 : Int) ≤ (num_neurons_per_layer : Int) * (N_SLAB : Int) :=
    mul_nonneg (Int.ofNat_nonneg _) (Int.ofNat_nonneg _)
  have hM : (0 : Int) ≤ (max_nnz_per_layer : Int) := Int.ofNat_nonneg _
  have hi0 : (0 : Int) ≤ (i : Int) := Int.ofNat_nonneg _
  unfold read_weight.location read_weight_binary.location
  rw [h1, h2, wrapSize_of_fits (i : Int) hi0 (by omega)]
  obtain ⟨S, hS⟩ : ∃ S : Int, S = (num_neurons_per_layer : Int) * N_SLAB + 1 + max_nnz_per_layer
      + pad + (p.ratio : Int) * max_nnz_per_layer := ⟨_, rfl⟩
  have hS0 : 0 ≤ S := by rw [hS]; exact hnonneg
  have hS1 : S ≤ 6442450941 := by
    rw [hS]; rcases ratio_int_cases p with hr | hr <;> rw [hr] <;> omega
  rw [← hS]
  have hp1 : (i : Int) * S ≤ 2147483647 * S := mul_le_mul_of_nonneg_right hi hS0
  have hp0 : 0 ≤ (i : Int) * S := mul_nonneg hi0 hS0
  have hw : wrapSize ((i : Int) * S) = (i : Int) * S :=
    wrapSize_of_fits _ hp0 (by omega)
  exact ⟨hw, hw⟩

/-- C6, amended.  Layer stride.  Let the inputs be such that the sums added in
`int` fit an `int`, namely `rows * N_SLAB + 1 + max_nnz_per_layer` and that sum
plus the `int` `pad`, and that the stride is not negative.  Then the stride that
`read_weight` (text) and the stride that `read_weight_binary` compute are the
same number of words,
`rows * N_SLAB + 1 + max_nnz_per_layer + pad + ratio * max_nnz_per_layer`, where
`ratio = sizeof(T) / sizeof(int)` is 1 for `float` and 2 for `double`; both
address layer `i`, an `int` that is not negative, at `i` times this stride. -/
theorem stride_formula (p : Precision) (num_neurons_per_layer max_nnz_per_layer N_SLAB : Nat)
    (pad : Int) (i : Nat) (hpad : -2147483648 ≤ pad ∧ pad ≤ 2147483647)
    (hfit : (num_neurons_per_layer : Int) * N_SLAB + 1 + max_nnz_per_layer ≤ 2147483647)
    (hfitPad : -2147483648 ≤ (num_neurons_per_layer : Int) * N_SLAB + 1 + max_nnz_per_layer + pad ∧
      (num_neurons_per_layer : Int) * N_SLAB + 1 + max_nnz_per_layer + pad ≤ 2147483647)
    (hnonneg : 0 ≤ (num_neurons_per_layer : Int) * N_SLAB + 1 + max_nnz_per_layer + pad
      + (p.ratio : Int) * max_nnz_per_layer)
    (hi : (i : Int) ≤ 2147483647) :
    read_weight.stride p num_neurons_per_layer max_nnz_per_layer N_SLAB pad
      = read_weight_binary.stride p num_neurons_per_layer max_nnz_per_layer N_SLAB pad ∧
    read_weight.stride p num_neurons_per_layer max_nnz_per_layer N_SLAB pad
      = (num_neurons_per_layer : Int) * N_SLAB + 1 + max_nnz_per_layer + pad
          + (p.ratio : Int) * max_nnz_per_layer ∧
    Precision.single.ratio = 1 ∧ Precision.double.ratio = 2 ∧
    read_weight.location p num_neurons_per_layer max_nnz_per_layer N_SLAB pad i
      = (i : Int) * ((num_neurons_per_layer : Int) * N_SLAB + 1 + max_nnz_per_layer + pad
          + (p.ratio : Int) * max_nnz_per_layer) ∧
    read_weight_binary.location p num_neurons_per_layer max_nnz_per_layer N_SLAB pad i
      = (i : Int) * ((num_neurons_per_layer : Int) * N_SLAB + 1 + max_nnz_per_layer + pad
          + (p.ratio : Int) * max_nnz_per_layer) := by
  obtain ⟨h1, h2⟩ := stride_of_fits p num_neurons_per_layer max_nnz_per_layer N_SLAB pad hpad
    hfit hfitPad hnonneg
  obtain ⟨h3, h4⟩ := location_of_fits p num_neurons_per_layer max_nnz_per_layer N_SLAB pad hpad
    hfit hfitPad hnonneg i hi
  exact ⟨by rw [h1, h2], h1, rfl, rfl, h3, h4⟩

/-- Witness of `stride_formula`: two neurons, two slabs, at most three nonzeros,
`pad = 1`, `double`: the stride is 15 words and layer 2 is at word 30. -/
theorem stride_formula_witness :
    ((-2147483648 : Int) ≤ 1 ∧ (1 : Int) ≤ 2147483647) ∧
    ((2 : Nat) : Int) * (2 : Nat) + 1 + (3 : Nat) ≤ 2147483647 ∧
    ((-2147483648 : Int) ≤ ((2 : Nat) : Int) * (2 : Nat) + 1 + (3 : Nat) + 1 ∧
      ((2 : Nat) : Int) * (2 : Nat) + 1 + (3 : Nat) + 1 ≤ 2147483647) ∧
    (0 : Int) ≤ ((2 : Nat) : Int) * (2 : Nat) + 1 + (3 : Nat) + 1
      + (Precision.double.ratio : Int) * (3 : Nat) ∧
    ((2 : Nat) : Int) ≤ 2147483647 ∧
    read_weight.stride .double 2 3 2 1 = 15 ∧
    read_weight_binary.stride .double 2 3 2 1 = 15 ∧
    read_weight.location .double 2 3 2 1 2 = 30 ∧
    read_weight_binary.location .double 2 3 2 1 2 = 30 ∧
    (read_weight.stride .double 2 3 2 1 = read_weight_binary.stride .double 2 3 2 1 ∧
    read_weight.stride .double 2 3 2 1
      = ((2 : Nat) : Int) * (2 : Nat) + 1 + (3 : Nat) + 1
          + (Precision.double.ratio : Int) * (3 : Nat) ∧
    Precision.single.ratio = 1 ∧ Precision.double.ratio = 2 ∧
    read_weight.location .double 2 3 2 1 2
      = ((2 : Nat) : Int) * (((2 : Nat) : Int) * (2 : Nat) + 1 + (3 : Nat) + 1
          + (Precision.double.ratio : Int) * (3 : Nat)) ∧
    read_weight_binary.location .double 2 3 2 1 2
      = ((2 : Nat) : Int) * (((2 : Nat) : Int) * (2 : Nat) + 1 + (3 : Nat) + 1
          + (Precision.double.ratio : Int) * (3 : Nat))) :=
  ⟨by decide, by decide, by decide, by decide, by decide, by decide, by decide, by decide,
    by decide,
    stride_formula .double 2 3 2 1 2 (by decide) (by decide) (by decide) (by decide)
      (by decide)⟩

/-- C6, counterexample.  With `num_neurons_per_layer = N_SLAB = 65536`,
`max_nnz_per_layer = 1`, `pad = 0` and `float` the product `65536 * 65536` does
not fit an `int`: both paths compute the stride 3 and address layer 1 at word 3,
while the sum of the claim is 4294967299.  With `num_neurons_per_layer =
2147483645`, `N_SLAB = 1`, `max_nnz_per_layer = 1`, `pad = 1` the text path adds
`pad` in `int` and the binary path in `size_t`, and the two strides differ. -/
theorem stride_differs_on_overflow :
    read_weight.stride .single 65536 1 65536 0 = 3 ∧
    read_weight_binary.stride .single 65536 1 65536 0 = 3 ∧
    read_weight.location .single 65536 1 65536 0 1 = 3 ∧
    read_weight_binary.location .single 65536 1 65536 0 1 = 3 ∧
    ((65536 : Nat) : Int) * (65536 : Nat) + 1 + (1 : Nat) + 0
      + (Precision.single.ratio : Int) * (1 : Nat) = 4294967299 ∧
    read_weight.stride .single 2147483645 1 1 1 = 18446744071562067969 ∧
    read_weight_binary.stride .single 2147483645 1 1 1 = 2147483649 ∧
    read_weight.stride .single 2147483645 1 1 1
      ≠ read_weight_binary.stride .single 2147483645 1 1 1 := by
  decide

/-! ### Sorting -/

theorem insertSorted_perm {α : Type} (lt : α → α → Bool) (a : α) (l : List α) :
    (insertSorted lt a l).Perm (a :: l) := by
  induction l with
  | nil => exact List.Perm.refl _
  | cons b l ih =>
    unfold insertSorted
    split
    · exact ((List.Perm.cons b ih).trans (List.Perm.swap a b l))
    · exact List.Perm.refl _

theorem insertSortedLast_perm {α : Type} (lt : α → α → Bool) (a : α) (l : List α) :
    (insertSortedLast lt a l).Perm (a :: l) := by
  induction l with
  | nil => exact List.Perm.refl _
  | cons b l ih =>
    unfold insertSortedLast
    split
    · exact List.Perm.refl _
    · exact ((List.Perm.cons b ih).trans (List.Perm.swap a b l))

theorem insertSorted_pairwise {α : Type} (lt : α → α → Bool)
    (hasymm : ∀ a b, lt a b = true → lt b a = false)
    (hneg : ∀ a b c, lt a b = false → lt b c = false → lt a c = false)
    (a : α) (l : List α) (h : l.Pairwise (fun x y => lt y x = false)) :
    (insertSorted lt a l).Pairwise (fun x y => lt y x = false) := by
  induction l with
  | nil => simp [insertSorted]
  | cons b l ih =>
    rw [List.pairwise_cons] at h
    unfold insertSorted
    split
    · rename_i hba
      rw [List.pairwise_cons]
      refine ⟨?_, ih h.2⟩
      intro y hy
      rcases List.mem_cons.1 ((insertSorted_perm lt a l).subset hy) with rfl | hy
      · exact hasymm _ _ hba
      · exact h.1 y hy
    · rename_i hba
      have hba : lt b a = false := by simpa using hba
      rw [List.pairwise_cons]
      refine ⟨?_, List.pairwise_cons.2 h⟩
      intro y hy
      rcases List.mem_cons.1 hy with rfl | hy
      · exact hba
      · exact hneg _ _ _ (h.1 y hy) hba

theorem insertSortedLast_pairwise {α : Type} (lt : α → α → Bool)
    (hasymm : ∀ a b, lt a b = true → lt b a = false)
    (htrans : ∀ a b c, lt a b = true → lt b c = true → lt a c = true)
    (a : α) (l : List α) (h : l.Pairwise (fun x y => lt y x = false)) :
    (insertSortedLast lt a l).Pairwise (fun x y => lt y x = false) := by
  induction l with
  | nil => simp [insertSortedLast]
  | cons b l ih =>
    rw [List.pairwise_cons] at h
    unfold insertSortedLast
    split
    · rename_i hab
      rw [List.pairwise_cons]
      refine ⟨?_, List.pairwise_cons.2 h⟩
      intro y hy
      rcases List.mem_cons.1 hy with rfl | hy
      · exact hasymm _ _ hab
      · cases hya : lt y a with
        | false => rfl
        | true =>
          have := htrans _ _ _ hya hab
          rw [h.1 y hy] at this
          cases this
    · rename_i hab
      have hab : lt a b = false := by simpa using hab
      rw [List.pairwise_cons]
      refine ⟨?_, ih h.2⟩
      intro y hy
      rcases List.mem_cons.1 ((insertSortedLast_perm lt a l).subset hy) with rfl | hy
      · exact hab
      · exact h.1 y hy

theorem isStdSort_insertionSort {α : Type} (lt : α → α → Bool)
    (hasymm : ∀ a b, lt a b = true → lt b a = false)
    (hneg : ∀ a b c, lt a b = false → lt b c = false → lt a c = false) :
    IsStdSort lt (insertionSort lt) := by
  intro l
  induction l with
  | nil => exact ⟨List.Perm.refl _, List.Pairwise.nil⟩
  | cons a l ih =>
    refine ⟨(insertSorted_perm lt a _).trans (List.Perm.cons a ih.1), ?_⟩
    exact insertSorted_pairwise lt hasymm hneg a _ ih.2

theorem isStdSort_insertionSortRev {α : Type} (lt : α → α → Bool)
    (hasymm : ∀ a b, lt a b = true → lt b a = false)
    (htrans : ∀ a b c, lt a b = true → lt b c = true → lt a c = true) :
    IsStdSort lt (insertionSortRev lt) := by
  intro l
  induction l with
  | nil => exact ⟨List.Perm.refl _, List.Pairwise.nil⟩
  | cons a l ih =>
    refine ⟨(insertSortedLast_perm lt a _).trans (List.Perm.cons a ih.1), ?_⟩
    exact insertSortedLast_pairwise lt hasymm htrans a _ ih.2

theorem rowFirst_ltRowCol {V : Type} : RowFirst (Triplet.ltRowCol (V := V)) := by
  intro a b h
  simp [Triplet.ltRowCol, h]

theorem rowFirst_ltRow {V : Type} : RowFirst (Triplet.ltRow (V := V)) := by
  intro a b h
  simp [Triplet.ltRow, h]

theorem isStdSort_ltRowCol {V : Type} :
    IsStdSort (Triplet.ltRowCol (V := V)) (insertionSort Triplet.ltRowCol) := by
  apply isStdSort_insertionSort
  · intro a b h
    simp only [Triplet.ltRowCol, Bool.or_eq_true, Bool.and_eq_true, decide_eq_true_eq,
      Bool.or_eq_false_iff, Bool.and_eq_false_iff, decide_eq_false_iff_not] at h ⊢
    omega
  · intro a b c h1 h2
    simp only [Triplet.ltRowCol, Bool.or_eq_false_iff, Bool.and_eq_false_iff,
      decide_eq_false_iff_not] at h1 h2 ⊢
    omega

theorem isStdSort_ltRow_rev {V : Type} :
    IsStdSort (Triplet.ltRow (V := V)) (insertionSortRev Triplet.ltRow) := by
  apply isStdSort_insertionSortRev
  · intro a b h
    simp only [Triplet.ltRow, decide_eq_true_eq, decide_eq_false_iff_not] at h ⊢
    omega
  · intro a b c h1 h2
    simp only [Triplet.ltRow, decide_eq_true_eq] at h1 h2 ⊢
    omega

theorem sorted_rows_of_stdSort {V : Type} (lt : Triplet V → Triplet V → Bool)
    (sort : List (Triplet V) → List (Triplet V)) (hsort : IsStdSort lt sort)
    (hrow : RowFirst lt) (l : List (Triplet V)) :
    (sort l).Pairwise (fun a b => a.row ≤ b.row) := by
  refine List.Pairwise.imp ?_ (hsort l).2
  intro a b hba
  by_contra hlt
  have := hrow b a (by omega)
  rw [hba] at this
  cases this

/-! ### Counting and running sums -/

theorem length_incrAt (a : List Int) (k : Nat) : (incrAt a k).length = a.length := by
  induction a generalizing k with
  | nil => rfl
  | cons x xs ih =>
    cases k with
    | zero => rfl
    | succ k => simp [incrAt, ih]

theorem sum_take_incrAt (a : List Int) (k n : Nat) (hk : k < a.length) :
    ((incrAt a k).take n).sum = (a.take n).sum + (if k < n then 1 else 0) := by
  induction a generalizing k n with
  | nil => simp at hk
  | cons x xs ih =>
    cases n with
    | zero => simp
    | succ n =>
      cases k with
      | zero => simp [incrAt]; ring
      | succ k =>
        have hk2 : k < xs.length := by simpa using hk
        simp only [incrAt, List.take_succ_cons, List.sum_cons, ih k n hk2]
        by_cases h : k < n
        · simp [h]; ring
        · simp [h]

theorem partialSumFrom_eq (acc : Int) (l : List Int) :
    partialSumFrom acc l = (List.range l.length).map (fun i => acc + (l.take (i + 1)).sum) := by
  induction l generalizing acc with
  | nil => rfl
  | cons x xs ih =>
    rw [partialSumFrom, ih, List.length_cons, List.range_succ_eq_map, List.map_cons, List.map_map]
    congr 1
    · simp
    · apply List.map_congr_left
      intro i _
      simp [add_assoc]

theorem partial_sum_eq (l : List Int) :
    partial_sum l = (List.range l.length).map (fun i => (l.take (i + 1)).sum) := by
  unfold partial_sum
  rw [partialSumFrom_eq]
  apply List.map_congr_left
  intro i _
  simp

theorem countRows_spec {V : Type} (ts : List (Triplet V)) (a : List Int)
    (h : ∀ t ∈ ts, 0 ≤ t.row + 1 ∧ t.row + 1 < (a.length : Int)) :
    ∃ a', countRows ts a = .ok a' ∧ a'.length = a.length ∧
      ∀ n : Nat, (a'.take n).sum =
        (a.take n).sum + (ts.countP (fun t => decide (t.row + 1 < (n : Int))) : Int) := by
  induction ts generalizing a with
  | nil => exact ⟨a, rfl, rfl, by simp⟩
  | cons t ts ih =>
    have ht := h t (by simp)
    have hlen := length_incrAt a (t.row + 1).toNat
    obtain ⟨a', h1, h2, h3⟩ := ih (incrAt a (t.row + 1).toNat)
      (fun x hx => by rw [hlen]; exact h x (by simp [hx]))
    refine ⟨a', ?_, by rw [h2, hlen], ?_⟩
    · simp only [countRows, ht, and_self, if_true, h1]
    · intro n
      have hk : (t.row + 1).toNat < a.length := by omega
      rw [h3 n, sum_take_incrAt a _ n hk, List.countP_cons]
      have e : ((t.row + 1).toNat < n) ↔ (t.row + 1 < (n : Int)) := by omega
      by_cases hn : t.row + 1 < (n : Int)
      · have := e.2 hn
        simp [hn, this]; ring
      · have : ¬ (t.row + 1).toNat < n := fun x => hn (e.1 x)
        simp [hn, this]

/-- The builder returns when every row index is inside `row_array`, and then
`row_array[i]` is the number of sorted triplets whose row is below `i`. -/
theorem build_spec {V : Type} (sort : List (Triplet V) → List (Triplet V))
    (rows N_SLAB : Nat) (triplets : List (Triplet V))
    (h : ∀ t ∈ sort triplets, 0 ≤ t.row ∧ t.row < ((rows * N_SLAB : Nat) : Int)) :
    tsv_file_to_binary_file.build sort rows N_SLAB triplets =
      .ok ⟨(rows : Int), ((sort triplets).length : Int),
        (List.range (rows * N_SLAB + 1)).map
          (fun (i : Nat) => ((sort triplets).countP (fun t => decide (t.row < (i : Int))) : Int)),
        (sort triplets).map (fun t => t.col), (sort triplets).map (fun t => t.value)⟩ := by
  obtain ⟨a', h1, h2, h3⟩ := countRows_spec (sort triplets) (List.replicate (rows * N_SLAB + 1) 0)
    (fun t ht => by
      have := h t ht
      simp only [List.length_replicate]
      push_cast at this ⊢
      omega)
  unfold tsv_file_to_binary_file.build
  simp only [h1]
  congr 2
  rw [partial_sum_eq, h2, List.length_replicate]
  apply List.map_congr_left
  intro i _
  rw [h3 (i + 1)]
  have e : ((List.replicate (rows * N_SLAB + 1) (0 : Int)).take (i + 1)).sum = 0 := by
    simp
  rw [e, zero_add]
  congr 2
  funext t
  simp only [decide_eq_decide]
  push_cast
  omega

/-! ### The offsets array -/

theorem countP_row_mono {V : Type} (ts : List (Triplet V)) (i j : Nat) (h : i ≤ j) :
    ts.countP (fun t => decide (t.row < (i : Int))) ≤
      ts.countP (fun t => decide (t.row < (j : Int))) := by
  apply List.countP_mono_left
  intro t _ ht
  simp only [decide_eq_true_eq] at ht ⊢
  omega

theorem range_mem_of_perm {V : Type} (s ts : List (Triplet V)) (hp : s.Perm ts) (n : Nat)
    (h : ∀ t ∈ ts, 0 ≤ t.row ∧ t.row < (n : Int)) :
    ∀ t ∈ s, 0 ≤ t.row ∧ t.row < (n : Int) :=
  fun t ht => h t (hp.subset ht)

theorem sampleTriplets_range :
    ∀ t ∈ sampleTriplets, 0 ≤ t.row ∧ t.row < ((2 * 2 : Nat) : Int) := by
  decide

theorem take_drop_countP {α : Type} (p : α → Bool) (ts : List α)
    (h : ts.Pairwise (fun a b => p b = true → p a = true)) :
    ts.take (ts.countP p) = ts.filter p ∧ ts.drop (ts.countP p) = ts.filter (fun a => !p a) := by
  induction ts with
  | nil => simp
  | cons x xs ih =>
    rw [List.pairwise_cons] at h
    obtain ⟨ih1, ih2⟩ := ih h.2
    by_cases hx : p x = true
    · simp [List.countP_cons, hx, ih1, ih2]
    · have hall : ∀ y ∈ xs, ¬ p y = true := fun y hy hp => hx (h.1 y hy hp)
      have hc : xs.countP p = 0 := List.countP_eq_zero.2 hall
      have hf : xs.filter p = [] := List.filter_eq_nil_iff.2 hall
      have hg : xs.filter (fun a => !p a) = xs :=
        List.filter_eq_self.2 (fun y hy => by simpa using hall y hy)
      simp [List.countP_cons, hx, hc, hf, hg]

theorem rows_come_first {V : Type} (ts : List (Triplet V)) (i : Int)
    (h : ts.Pairwise (fun a b => a.row ≤ b.row)) :
    ts.Pairwise (fun a b => decide (b.row < i) = true → decide (a.row < i) = true) := by
  refine List.Pairwise.imp ?_ h
  intro a b hab hb
  simp only [decide_eq_true_eq] at hb ⊢
  omega

theorem countP_succ_split {V : Type} (ts : List (Triplet V)) (i : Nat) :
    ts.countP (fun t => decide (t.row < ((i + 1 : Nat) : Int))) =
      ts.countP (fun t => decide (t.row < (i : Int))) +
        ts.countP (fun t => decide (t.row = (i : Int))) := by
  induction ts with
  | nil => rfl
  | cons x xs ih =>
    rw [List.countP_cons, List.countP_cons, List.countP_cons, ih]
    simp only [decide_eq_true_eq, Nat.cast_add, Nat.cast_one]
    split_ifs <;> omega

theorem row_eq_iff_between {V : Type} (t : Triplet V) (i : Nat) :
    (decide (t.row < ((i + 1 : Nat) : Int)) && !decide (t.row < (i : Int)))
      = decide (t.row = (i : Int)) := by
  rw [Bool.eq_iff_iff]
  simp only [Bool.and_eq_true, Bool.not_eq_true', decide_eq_true_eq, decide_eq_false_iff_not,
    Nat.cast_add, Nat.cast_one]
  omega

theorem slice_eq_filter {V : Type} (ts : List (Triplet V)) (i : Nat)
    (h : ts.Pairwise (fun a b => a.row ≤ b.row)) :
    (ts.drop (ts.countP (fun t => decide (t.row < (i : Int))))).take
        (ts.countP (fun t => decide (t.row < ((i + 1 : Nat) : Int)))
          - ts.countP (fun t => decide (t.row < (i : Int))))
      = ts.filter (fun t => decide (t.row = (i : Int))) := by
  have hd := (take_drop_countP (fun t => decide (t.row < (i : Int))) ts (rows_come_first ts i h)).2
  have hu : (ts.filter (fun t => !decide (t.row < (i : Int)))).Pairwise
      (fun (a b : Triplet V) => a.row ≤ b.row) := h.filter _
  have ht := (take_drop_countP (fun (t : Triplet V) => decide (t.row < ((i + 1 : Nat) : Int))) _
    (rows_come_first _ _ hu)).1
  have hc : (ts.filter (fun t => !decide (t.row < (i : Int)))).countP
      (fun t => decide (t.row < ((i + 1 : Nat) : Int)))
      = ts.countP (fun t => decide (t.row = (i : Int))) := by
    rw [List.countP_filter]
    congr 1
    funext t
    exact row_eq_iff_between t i
  rw [countP_succ_split ts i, Nat.add_sub_cancel_left, hd, ← hc, ht, List.filter_filter]
  apply List.filter_congr
  intro t _
  exact row_eq_iff_between t i

theorem index_below_iff {V : Type} (ts : List (Triplet V)) (i : Int)
    (h : ts.Pairwise (fun a b => a.row ≤ b.row)) (j : Nat) (hj : j < ts.length) :
    j < ts.countP (fun t => decide (t.row < i)) ↔ ts[j].row < i := by
  obtain ⟨h1, h2⟩ := take_drop_countP (fun t => decide (t.row < i)) ts (rows_come_first ts i h)
  constructor
  · intro hlt
    have hm : ts[j] ∈ ts.take (ts.countP (fun t => decide (t.row < i))) :=
      List.mem_take_iff_getElem.2 ⟨j, by omega, rfl⟩
    rw [h1] at hm
    simpa using (List.mem_filter.1 hm).2
  · intro hrow
    by_contra hge
    have hm : ts[j] ∈ ts.drop (ts.countP (fun t => decide (t.row < i))) := by
      refine List.mem_drop_iff_getElem.2
        ⟨j - ts.countP (fun t => decide (t.row < i)), by omega, ?_⟩
      congr 1
      omega
    rw [h2] at hm
    have := (List.mem_filter.1 hm).2
    simp at this
    omega

theorem writeWords_outside (arr : Arena) (location : Int) (ws : List Int) (q : Int)
    (h : q < location ∨ location + (ws.length : Int) ≤ q) :
    writeWords arr location ws q = arr q := by
  unfold writeWords
  rw [if_neg]
  omega

theorem writeWords_inside (arr : Arena) (location : Int) (ws : List Int) (k : Nat)
    (h : k < ws.length) :
    writeWords arr location ws (location + (k : Int)) = ws[k] := by
  unfold writeWords
  rw [if_pos (by omega)]
  have : (location + (k : Int) - location).toNat = k := by omega
  rw [this, List.getD_eq_getElem _ _ h]

theorem length_valuesWords {V : Type} (p : Precision) (bits : V → Nat → Int) (vs : List V) :
    (valuesWords p bits vs).length = p.ratio * vs.length := by
  induction vs with
  | nil => simp [valuesWords]
  | cons v vs ih =>
    simp only [valuesWords, List.flatMap_cons, List.length_append, List.length_cons] at ih ⊢
    rw [ih]
    simp [valueWords]
    ring

theorem ratio_cases (p : Precision) : p.ratio = 1 ∨ p.ratio = 2 := by
  cases p
  · exact Or.inl rfl
  · exact Or.inr rfl

theorem count_eq (p : Precision) (N_SLAB : Nat) (rows nnz : Int) :
    read_weight_binary.count p N_SLAB rows nnz
      = rows * (N_SLAB : Int) + 1 + nnz + (p.ratio : Int) * nnz := by
  cases p
  · show (((4 : Nat) : Int) * (rows * (N_SLAB : Int) + 1 + nnz) + ((4 : Nat) : Int) * nnz)
        / ((4 : Nat) : Int) = rows * (N_SLAB : Int) + 1 + nnz + ((1 : Nat) : Int) * nnz
    push_cast
    omega
  · show (((4 : Nat) : Int) * (rows * (N_SLAB : Int) + 1 + nnz) + ((8 : Nat) : Int) * nnz)
        / ((4 : Nat) : Int) = rows * (N_SLAB : Int) + 1 + nnz + ((2 : Nat) : Int) * nnz
    push_cast
    omega

theorem layer_ranges_disjoint (stride : Int) (i j : Nat) (h : i ≠ j) (q : Int) :
    ¬ (((i : Int) * stride ≤ q ∧ q < ((i : Int) + 1) * stride) ∧
       ((j : Int) * stride ≤ q ∧ q < ((j : Int) + 1) * stride)) := by
  rintro ⟨⟨a1, a2⟩, ⟨b1, b2⟩⟩
  have hs : 0 < stride := by nlinarith
  rcases Nat.lt_or_gt_of_ne h with hij | hji
  · have : ((i : Int) + 1) * stride ≤ (j : Int) * stride :=
      mul_le_mul_of_nonneg_right (by exact_mod_cast hij) hs.le
    omega
  · have : ((j : Int) + 1) * stride ≤ (i : Int) * stride :=
      mul_le_mul_of_nonneg_right (by exact_mod_cast hji) hs.le
    omega

theorem packed_array_frame {V : Type} (to_numeric : List Char → Except Fault V)
    (setFromTriplets : Nat → Nat → List (Triplet V) → EigenCSR V)
    (p : Precision) (bits : V → Nat → Int)
    (s : List Char) (rows cols nnz COL_BLK N_SLAB : Nat) (base : Int) (arr arr' : Arena)
    (h : tsv_string_to_CSR_packed_array to_numeric setFromTriplets p bits s rows cols nnz
      COL_BLK N_SLAB base arr = .ok arr') :
    (∃ ts, tsv_file_to_binary_file.triplets to_numeric rows COL_BLK s = .ok ts ∧
      ∀ k : Nat, k < rows * N_SLAB + 1 →
        arr' (base + (k : Int)) = (setFromTriplets (rows * N_SLAB) cols ts).outerIndexPtr k) ∧
    ∀ q : Int, (q < base ∨
        base + ((rows * N_SLAB + 1 + nnz + p.ratio * nnz : Nat) : Int) ≤ q) →
      arr' q = arr q := by
  unfold tsv_string_to_CSR_packed_array at h
  cases hts : tsv_file_to_binary_file.triplets to_numeric rows COL_BLK s with
  | error e => simp [hts] at h
  | ok ts =>
    simp only [hts, Except.ok.injEq] at h
    subst h
    have hd : (0 : Int) ≤ (rows : Int) * (N_SLAB : Int) := by positivity
    constructor
    · refine ⟨ts, rfl, ?_⟩
      intro k hk
      rw [writeWords_outside _ _ _ _ (Or.inl (by push_cast; omega)),
        writeWords_outside _ _ _ _ (Or.inl (by push_cast; omega))]
      have hlen : k < ((List.range (rows * N_SLAB + 1)).map
          (setFromTriplets (rows * N_SLAB) cols ts).outerIndexPtr).length := by simpa using hk
      rw [writeWords_inside _ _ _ k hlen]
      simp
    · intro q hq
      have l3 : (valuesWords p bits ((List.range nnz).map
          (setFromTriplets (rows * N_SLAB) cols ts).valuePtr)).length = p.ratio * nnz := by
        rw [length_valuesWords]; simp
      rw [writeWords_outside _ _ _ _ (by rw [l3]; push_cast at hq ⊢; omega),
        writeWords_outside _ _ _ _ (by simp only [List.length_map, List.length_range];
                                        push_cast at hq ⊢; omega),
        writeWords_outside _ _ _ _ (by simp only [List.length_map, List.length_range];
                                        push_cast at hq ⊢; omega)]

theorem virtual_row_in_range (rows COL_BLK N_SLAB : Nat) (r c : Int)
    (hr1 : 1 ≤ r) (hr2 : r ≤ (rows : Int)) (hc1 : 1 ≤ c)
    (hc2 : c ≤ ((COL_BLK * N_SLAB : Nat) : Int)) :
    0 ≤ r - 1 + (rows : Int) * Int.tdiv (c - 1) (COL_BLK : Int) ∧
    r - 1 + (rows : Int) * Int.tdiv (c - 1) (COL_BLK : Int) < ((rows * N_SLAB : Nat) : Int) := by
  have hb : (0 : Int) ≤ (COL_BLK : Int) := Int.ofNat_nonneg _
  have hbpos : (0 : Int) < (COL_BLK : Int) := by
    rcases Nat.eq_zero_or_pos COL_BLK with h | h
    · subst h; simp at hc2; omega
    · exact_mod_cast h
  rw [Int.tdiv_eq_ediv (by omega) hb]
  have h0 : 0 ≤ (c - 1) / (COL_BLK : Int) := Int.ediv_nonneg (by omega) hb
  have h1 : (c - 1) / (COL_BLK : Int) < (N_SLAB : Int) := by
    apply Int.ediv_lt_of_lt_mul hbpos
    push_cast at hc2
    rw [mul_comm]
    omega
  have hrows : (0 : Int) ≤ (rows : Int) := Int.ofNat_nonneg _
  constructor
  · have := mul_nonneg hrows h0
    omega
  · have h2 : (rows : Int) * ((c - 1) / (COL_BLK : Int)) ≤ (rows : Int) * ((N_SLAB : Int) - 1) :=
      mul_le_mul_of_nonneg_left (by omega) hrows
    push_cast
    rw [mul_sub, mul_one] at h2
    omega

theorem triplets_in_range {V : Type} (to_numeric : List Char → Except Fault V)
    (rows COL_BLK N_SLAB : Nat) (lines : List CoordLine) (finalNewline : Bool)
    (hwf : ∀ l ∈ lines, l.WellFormed to_numeric)
    (hids : ∀ l ∈ lines, 1 ≤ l.rowId ∧ l.rowId ≤ (rows : Int) ∧ 1 ≤ l.colId ∧
      l.colId ≤ ((COL_BLK * N_SLAB : Nat) : Int)) :
    ∃ ts, tsv_file_to_binary_file.triplets to_numeric rows COL_BLK
        (textOfLines (lines.map CoordLine.text) finalNewline) = .ok ts ∧
      ts.length = lines.length ∧
      ∀ t ∈ ts, 0 ≤ t.row ∧ t.row < ((rows * N_SLAB : Nat) : Int) := by
  by_cases hblk : COL_BLK = 0
  · cases lines with
    | nil =>
      refine ⟨[], ?_, rfl, by simp⟩
      cases finalNewline <;> rfl
    | cons l ls =>
      have := hids l (by simp)
      subst hblk
      simp at this
      omega
  · obtain ⟨ts, h1, h2, _⟩ := parseLines_wellFormed to_numeric
      (tsv_file_to_binary_file.entry to_numeric rows COL_BLK)
      (fun l => l.rowId - 1 + (rows : Int) * Int.tdiv (l.colId - 1) (COL_BLK : Int))
      (fun l hl v hv => entry_binary_wellFormed to_numeric rows COL_BLK hblk l hl v hv) lines hwf
    refine ⟨ts, ?_, by simpa using congrArg List.length h2, ?_⟩
    · unfold tsv_file_to_binary_file.triplets
      rw [getlineAll_coordText to_numeric lines finalNewline hwf, h1]
    · intro t ht
      have hm : (t.row, t.col) ∈ ts.map (fun t => (t.row, t.col)) :=
        List.mem_map.2 ⟨t, ht, rfl⟩
      rw [h2] at hm
      obtain ⟨l, hl, he⟩ := List.mem_map.1 hm
      have hrow : t.row = l.rowId - 1 + (rows : Int) * Int.tdiv (l.colId - 1) (COL_BLK : Int) :=
        (congrArg Prod.fst he).symm
      obtain ⟨a, b, c, d⟩ := hids l hl
      rw [hrow]
      exact virtual_row_in_range rows COL_BLK N_SLAB l.rowId l.colId a b c d

theorem read_back_output {V : Type} (p : Precision) (bits : V → Nat → Int)
    (rows N_SLAB : Nat) (nnz : Nat) (row_array col_array : List Int) (data_array : List V)
    (h1 : row_array.length = rows * N_SLAB + 1) (h2 : col_array.length = nnz)
    (h3 : data_array.length = nnz)
    (num_neurons_per_layer max_nnz_per_layer : Nat) (pad : Int) (i : Nat) (arr : Arena) :
    (read_weight_binary.layer p num_neurons_per_layer max_nnz_per_layer N_SLAB pad i
        (some (tsv_file_to_binary_file.output p bits
          ⟨(rows : Int), (nnz : Int), row_array, col_array, data_array⟩)) arr).header
      = some ((rows : Int), (nnz : Int)) ∧
    ∀ (k : Nat) (hk : k < (row_array ++ col_array ++ valuesWords p bits data_array).length),
      (read_weight_binary.layer p num_neurons_per_layer max_nnz_per_layer N_SLAB pad i
        (some (tsv_file_to_binary_file.output p bits
          ⟨(rows : Int), (nnz : Int), row_array, col_array, data_array⟩)) arr).arr
        (read_weight_binary.location p num_neurons_per_layer max_nnz_per_layer N_SLAB pad i
          + (k : Int))
      = (row_array ++ col_array ++ valuesWords p bits data_array)[k] := by
  have hout : tsv_file_to_binary_file.output p bits
      ⟨(rows : Int), (nnz : Int), row_array, col_array, data_array⟩
      = (rows : Int) :: (nnz : Int) :: (row_array ++ col_array ++ valuesWords p bits data_array) := by
    simp [tsv_file_to_binary_file.output]
  have hlen : (row_array ++ col_array ++ valuesWords p bits data_array).length
      = (read_weight_binary.count p N_SLAB (rows : Int) (nnz : Int)).toNat := by
    rw [count_eq]
    simp only [List.length_append, h1, h2, length_valuesWords, h3]
    have : (rows : Int) * (N_SLAB : Int) + 1 + (nnz : Int) + (p.ratio : Int) * (nnz : Int)
        = ((rows * N_SLAB + 1 + nnz + p.ratio * nnz : Nat) : Int) := by push_cast; ring
    rw [this, Int.toNat_ofNat]
  rw [hout]
  simp only [read_weight_binary.layer, ← hlen, List.take_length]
  refine ⟨trivial, ?_⟩
  intro k hk
  exact writeWords_inside _ _ _ k hk

theorem sampleLines_ids :
    ∀ l ∈ sampleLines, 1 ≤ l.rowId ∧ l.rowId ≤ ((2 : Nat) : Int) ∧ 1 ≤ l.colId ∧
      l.colId ≤ ((1 * 2 : Nat) : Int) := by
  decide

theorem eq_map_getD (g : List Int) (n : Nat) (hg : g.length = n) :
    g = (List.range n).map (fun k => g.getD k 0) := by
  apply List.ext_getElem
  · simp [hg]
  · intro k h1 h2
    simp [List.getElem?_eq_getElem h1]

theorem fill_spec (n : Nat) (labels : List (List Char))
    (h : ∀ f ∈ labels, IsIntLiteral f ∧ 1 ≤ digitsVal f ∧ digitsVal f ≤ n)
    (g : List Int) (hg : g.length = n) :
    read_golden.fill labels g =
      .ok ((List.range n).map
        (fun k => if (k + 1) ∈ labels.map digitsVal then 1 else g.getD k 0)) := by
  induction labels generalizing g with
  | nil =>
    simp only [read_golden.fill, List.map_nil, List.not_mem_nil, if_false]
    rw [← eq_map_getD g n hg]
  | cons f fs ih =>
    obtain ⟨hlit, h1, h2⟩ := h f (by simp)
    have hin : 0 ≤ (digitsVal f : Int) - 1 ∧ (digitsVal f : Int) - 1 < (g.length : Int) := by
      rw [hg]; omega
    have hj : ((digitsVal f : Int) - 1).toNat = digitsVal f - 1 := by omega
    simp only [read_golden.fill, stoi_intLiteral f hlit, hin, and_self, if_true, hj]
    rw [ih (fun x hx => h x (by simp [hx])) _ (by simp [hg])]
    congr 1
    apply List.map_congr_left
    intro k hk
    have hk : k < n := List.mem_range.1 hk
    simp only [List.map_cons, List.mem_cons]
    by_cases hkj : k = digitsVal f - 1
    · have e : k + 1 = digitsVal f := by omega
      have hlt : digitsVal f - 1 < g.length := by omega
      subst hkj
      have e3 : digitsVal f - 1 + 1 = digitsVal f := by omega
      simp [e3, List.getElem?_set, hlt]
    · have e : ¬ k + 1 = digitsVal f := by omega
      have e2 : ¬ digitsVal f - 1 = k := fun x => hkj x.symm
      simp [e, List.getElem?_set, e2]

/-- C10.  Label decoding.  For a label text whose lines each hold a class index in
`1 .. num_inputs` (a run of digits; the last newline may be missing),
`read_golden` returns a vector of length `num_inputs` whose entry `k` is 1 when
some line holds `k + 1` and 0 otherwise; the text `"2\n"` with `num_inputs = 3`
gives `[0, 1, 0]`. -/
theorem label_decoding (num_inputs : Nat) (labels : List (List Char)) (finalNewline : Bool)
    (h : ∀ f ∈ labels, IsIntLiteral f ∧ 1 ≤ digitsVal f ∧ digitsVal f ≤ num_inputs) :
    read_golden (some (textOfLines labels finalNewline)) num_inputs =
      .ok ((List.range num_inputs).map
        (fun k => if (k + 1) ∈ labels.map digitsVal then (1 : Int) else 0)) ∧
    ((List.range num_inputs).map
        (fun k => if (k + 1) ∈ labels.map digitsVal then (1 : Int) else 0)).length = num_inputs ∧
    read_golden (some "2\n".toList) 3 = .ok [0, 1, 0] := by
  refine ⟨?_, by simp, by decide⟩
  have hsplit : getlineAll '\n' (textOfLines labels finalNewline) = labels := by
    apply getlineAll_textOfLines
    · intro f hf; exact (intLiteral_no_delim f (h f hf).1).2
    · intro f hf; exact (h f hf).1.1
  simp only [read_golden, read_file_to_string, hsplit]
  rw [fill_spec num_inputs labels h _ (by simp)]
  congr 1
  apply List.map_congr_left
  intro k hk
  have hk : k < num_inputs := List.mem_range.1 hk
  simp [List.getElem?_replicate, hk]

/-- Witness of `label_decoding`: the labels `3` and `1` with four inputs. -/
theorem label_decoding_witness :
    (∀ f ∈ ["3".toList, "1".toList], IsIntLiteral f ∧ 1 ≤ digitsVal f ∧ digitsVal f ≤ 4) ∧
    read_golden (some "3\n1\n".toList) 4 = .ok [1, 0, 1, 0] ∧
    (read_golden (some (textOfLines ["3".toList, "1".toList] true)) 4 =
      .ok ((List.range 4).map
        (fun k => if (k + 1) ∈ ["3".toList, "1".toList].map digitsVal then (1 : Int) else 0)) ∧
    ((List.range 4).map
        (fun k => if (k + 1) ∈ ["3".toList, "1".toList].map digitsVal
          then (1 : Int) else 0)).length = 4 ∧
    read_golden (some "2\n".toList) 3 = .ok [0, 1, 0]) :=
  ⟨by decide, by decide, label_decoding 4 ["3".toList, "1".toList] true (by decide)⟩

/-! ### Empty input and the worked examples -/

theorem sort_nil {α : Type} (lt : α → α → Bool) (sort : List α → List α)
    (hsort : IsStdSort lt sort) : sort [] = [] :=
  List.Perm.eq_nil (hsort []).1

theorem partialSumFrom_zeros (n : Nat) :
    partialSumFrom 0 (List.replicate n 0) = List.replicate n 0 := by
  induction n with
  | zero => rfl
  | succ n ih => simp [List.replicate_succ, partialSumFrom, ih]

theorem sort_pair {V : Type} (lt : Triplet V → Triplet V → Bool)
    (sort : List (Triplet V) → List (Triplet V)) (hsort : IsStdSort lt sort)
    (hrow : RowFirst lt) (x y : Triplet V) (hxy : x.row < y.row) :
    sort [x, y] = [x, y] := by
  have hp := (hsort [x, y]).1
  have hs := sorted_rows_of_stdSort lt sort hsort hrow [x, y]
  have hlen : (sort [x, y]).length = 2 := by simpa using hp.length_eq
  match hl : sort [x, y], hlen with
  | [u, v], _ =>
    rw [hl] at hp hs
    have hu : u = x ∨ u = y := by simpa using hp.subset (show u ∈ [u, v] by simp)
    have hx : x = u ∨ x = v := by simpa using hp.symm.subset (show x ∈ [x, y] by simp)
    have hy : y = u ∨ y = v := by simpa using hp.symm.subset (show y ∈ [x, y] by simp)
    have huv : u.row ≤ v.row := by simpa using hs
    rcases hu with rfl | rfl
    · rcases hy with rfl | rfl
      · omega
      · rfl
    · rcases hx with rfl | rfl
      · omega
      · omega

theorem sample_text_triplets {V : Type} (to_numeric : List Char → Except Fault V)
    (rows COL_BLK : Nat) (hblk : COL_BLK ≠ 0) (a b : V)
    (ha : to_numeric "2.0".toList = .ok a) (hb : to_numeric "3.0".toList = .ok b) :
    tsv_file_to_binary_file.triplets to_numeric rows COL_BLK "1\t1\t2.0\n2\t2\t3.0\n".toList
      = .ok [⟨1 - 1 + (rows : Int) * Int.tdiv (1 - 1) (COL_BLK : Int), 1 - 1, a⟩,
             ⟨2 - 1 + (rows : Int) * Int.tdiv (2 - 1) (COL_BLK : Int), 2 - 1, b⟩] := by
  have hl : getlineAll '\n' "1\t1\t2.0\n2\t2\t3.0\n".toList
      = [(⟨"1".toList, "1".toList, "2.0".toList⟩ : CoordLine).text,
         (⟨"2".toList, "2".toList, "3.0".toList⟩ : CoordLine).text] := by decide
  have w1 : (⟨"1".toList, "1".toList, "2.0".toList⟩ : CoordLine).WellFormed to_numeric :=
    ⟨by decide, by decide, by decide, by decide, by decide, ⟨a, ha⟩⟩
  have w2 : (⟨"2".toList, "2".toList, "3.0".toList⟩ : CoordLine).WellFormed to_numeric :=
    ⟨by decide, by decide, by decide, by decide, by decide, ⟨b, hb⟩⟩
  have e1 := entry_binary_wellFormed to_numeric rows COL_BLK hblk _ w1 a ha
  have e2 := entry_binary_wellFormed to_numeric rows COL_BLK hblk _ w2 b hb
  have r1 : (⟨"1".toList, "1".toList, "2.0".toList⟩ : CoordLine).rowId = 1 := by decide
  have c1 : (⟨"1".toList, "1".toList, "2.0".toList⟩ : CoordLine).colId = 1 := by decide
  have r2 : (⟨"2".toList, "2".toList, "3.0".toList⟩ : CoordLine).rowId = 2 := by decide
  have c2 : (⟨"2".toList, "2".toList, "3.0".toList⟩ : CoordLine).colId = 2 := by decide
  rw [r1, c1] at e1
  rw [r2, c2] at e2
  unfold tsv_file_to_binary_file.triplets
  rw [hl]
  refine parseLines_cons_ok _ _ _ _ _ _ ?_ (parseLines_cons_ok _ _ _ _ _ _ ?_ rfl)
  · rw [tokensOfLine_wellFormed to_numeric _ w1]; exact e1 _
  · rw [tokensOfLine_wellFormed to_numeric _ w2]; exact e2 _

/-- C13.  Worked example, one slab.  For the text `"1\t1\t2.0\n2\t2\t3.0\n"` with
`rows = 2`, `COL_BLK = 2`, `N_SLAB = 1` the builder of `tsv_file_to_binary_file`
produces `nnz = 2`, offsets `[0, 1, 2]`, columns `[0, 1]` and the values of `2.0`
and `3.0`, for every `std::sort` under an order that compares the row first. -/
theorem worked_example_one_slab {V : Type} (to_numeric : List Char → Except Fault V)
    (lt : Triplet V → Triplet V → Bool) (sort : List (Triplet V) → List (Triplet V))
    (hsort : IsStdSort lt sort) (hrow : RowFirst lt) (a b : V)
    (ha : to_numeric "2.0".toList = .ok a) (hb : to_numeric "3.0".toList = .ok b) :
    ∃ ts, tsv_file_to_binary_file.triplets to_numeric 2 2 "1\t1\t2.0\n2\t2\t3.0\n".toList
        = .ok ts ∧
      tsv_file_to_binary_file.build sort 2 1 ts = .ok ⟨2, 2, [0, 1, 2], [0, 1], [a, b]⟩ := by
  refine ⟨_, sample_text_triplets to_numeric 2 2 (by decide) a b ha hb, ?_⟩
  have e0 : (1 : Int) - 1 + ((2 : Nat) : Int) * Int.tdiv (1 - 1) ((2 : Nat) : Int) = 0 := by
    decide
  have e1 : (2 : Int) - 1 + ((2 : Nat) : Int) * Int.tdiv (2 - 1) ((2 : Nat) : Int) = 1 := by
    decide
  have c0 : (1 : Int) - 1 = 0 := by decide
  have c1 : (2 : Int) - 1 = 1 := by decide
  rw [e0, e1, c0, c1]
  simp only [tsv_file_to_binary_file.build,
    sort_pair lt sort hsort hrow ⟨0, 0, a⟩ ⟨1, 1, b⟩ (by norm_num)]
  rfl

/-- Witness of `worked_example_one_slab`: the values are the decimals 2.0 and 3.0. -/
theorem worked_example_one_slab_witness :
    IsStdSort (Triplet.ltRowCol (V := Decimal)) (insertionSort Triplet.ltRowCol) ∧
    RowFirst (Triplet.ltRowCol (V := Decimal)) ∧
    to_numeric_plain "2.0".toList = .ok ⟨20, 1⟩ ∧ to_numeric_plain "3.0".toList = .ok ⟨30, 1⟩ ∧
    ∃ ts, tsv_file_to_binary_file.triplets to_numeric_plain 2 2
        "1\t1\t2.0\n2\t2\t3.0\n".toList = .ok ts ∧
      tsv_file_to_binary_file.build (insertionSort Triplet.ltRowCol) 2 1 ts
        = .ok ⟨2, 2, [0, 1, 2], [0, 1], [⟨20, 1⟩, ⟨30, 1⟩]⟩ :=
  ⟨isStdSort_ltRowCol, rowFirst_ltRowCol, by decide, by decide,
    worked_example_one_slab to_numeric_plain Triplet.ltRowCol (insertionSort Triplet.ltRowCol)
      isStdSort_ltRowCol rowFirst_ltRowCol ⟨20, 1⟩ ⟨30, 1⟩ (by decide) (by decide)⟩

/-- C14.  Worked example, two slabs.  For the text `"1\t1\t2.0\n2\t2\t3.0\n"` with
`rows = 2`, `COL_BLK = 1`, `N_SLAB = 2` the first triplet gets the virtual row 0,
the second the virtual row `1 + 2 * 1 = 3`, and the offsets array has length 5
and is `[0, 1, 1, 1, 2]`. -/
theorem worked_example_two_slabs {V : Type} (to_numeric : List Char → Except Fault V)
    (lt : Triplet V → Triplet V → Bool) (sort : List (Triplet V) → List (Triplet V))
    (hsort : IsStdSort lt sort) (hrow : RowFirst lt) (a b : V)
    (ha : to_numeric "2.0".toList = .ok a) (hb : to_numeric "3.0".toList = .ok b) :
    tsv_file_to_binary_file.triplets to_numeric 2 1 "1\t1\t2.0\n2\t2\t3.0\n".toList
      = .ok [⟨0, 0, a⟩, ⟨3, 1, b⟩] ∧
    ∃ m, tsv_file_to_binary_file.build sort 2 2 [⟨0, 0, a⟩, ⟨3, 1, b⟩] = .ok m ∧
      m.row_array.length = 5 ∧ m.row_array = [0, 1, 1, 1, 2] ∧
      m.col_array = [0, 1] ∧ m.data_array = [a, b] := by
  have e0 : (1 : Int) - 1 + ((2 : Nat) : Int) * Int.tdiv (1 - 1) ((1 : Nat) : Int) = 0 := by
    decide
  have e1 : (2 : Int) - 1 + ((2 : Nat) : Int) * Int.tdiv (2 - 1) ((1 : Nat) : Int) = 3 := by
    decide
  have c0 : (1 : Int) - 1 = 0 := by decide
  have c1 : (2 : Int) - 1 = 1 := by decide
  have hp := sample_text_triplets to_numeric 2 1 (by decide) a b ha hb
  rw [e0, e1, c0, c1] at hp
  refine ⟨hp, ⟨2, 2, [0, 1, 1, 1, 2], [0, 1], [a, b]⟩, ?_, rfl, rfl, rfl, rfl⟩
  simp only [tsv_file_to_binary_file.build,
    sort_pair lt sort hsort hrow ⟨0, 0, a⟩ ⟨3, 1, b⟩ (by norm_num)]
  rfl

/-- Witness of `worked_example_two_slabs`: the values are the decimals 2.0 and 3.0. -/
theorem worked_example_two_slabs_witness :
    IsStdSort (Triplet.ltRowCol (V := Decimal)) (insertionSort Triplet.ltRowCol) ∧
    RowFirst (Triplet.ltRowCol (V := Decimal)) ∧
    to_numeric_plain "2.0".toList = .ok ⟨20, 1⟩ ∧ to_numeric_plain "3.0".toList = .ok ⟨30, 1⟩ ∧
    (tsv_file_to_binary_file.triplets to_numeric_plain 2 1 "1\t1\t2.0\n2\t2\t3.0\n".toList
      = .ok [⟨0, 0, ⟨20, 1⟩⟩, ⟨3, 1, ⟨30, 1⟩⟩] ∧
    ∃ m : SlabCSR Decimal, tsv_file_to_binary_file.build (insertionSort Triplet.ltRowCol) 2 2
        [⟨0, 0, ⟨20, 1⟩⟩, ⟨3, 1, ⟨30, 1⟩⟩] = .ok m ∧
      m.row_array.length = 5 ∧ m.row_array = [0, 1, 1, 1, 2] ∧
      m.col_array = [0, 1] ∧ m.data_array = [⟨20, 1⟩, ⟨30, 1⟩]) :=
  ⟨isStdSort_ltRowCol, rowFirst_ltRowCol, by decide, by decide,
    worked_example_two_slabs to_numeric_plain Triplet.ltRowCol (insertionSort Triplet.ltRowCol)
      isStdSort_ltRowCol rowFirst_ltRowCol ⟨20, 1⟩ ⟨30, 1⟩ (by decide) (by decide)⟩

/-! ### Row metadata of the dense loaders -/

theorem metadataLoop_spec {V : Type} (nonzero : V → Bool) (num_features : Nat) (arr : List V)
    (is : List Nat) (st : RowMetadata)
    (h : ∀ i ∈ is, (i + 1) * num_features ≤ arr.length) :
    read_input.metadataLoop nonzero num_features arr is st =
      .ok ⟨st.rlenY ++ is.map (fun i =>
              (((arr.drop (i * num_features)).take num_features).countP nonzero : Int)),
           st.rowsY ++ is.map (fun i => (i : Int)),
           st.nerowsY + (is.length : Int)⟩ := by
  induction is generalizing st with
  | nil => simp [read_input.metadataLoop]
  | cons i is ih =>
    have hi := h i (by simp)
    simp only [read_input.metadataLoop, hi, if_true]
    rw [ih _ (fun j hj => h j (by simp [hj]))]
    simp only [List.map_cons, List.append_assoc, List.singleton_append, List.length_cons,
      Nat.cast_add, Nat.cast_one]
    congr 2
    ring

/-- Whatever the array holds, the loop of the dense loaders lists every row:
`rowsY` is `0, ..., num_inputs - 1` and `nerowsY = num_inputs`, while `rlenY[i]`
counts the nonzero entries of row `i`. -/
theorem metadata_lists_every_row {V : Type} (nonzero : V → Bool)
    (num_inputs num_features : Nat) (arr : List V)
    (h : num_inputs * num_features ≤ arr.length) :
    read_input.metadata nonzero num_inputs num_features arr =
      .ok ⟨(List.range num_inputs).map (fun i =>
              (((arr.drop (i * num_features)).take num_features).countP nonzero : Int)),
           (List.range num_inputs).map (fun i => (i : Int)), (num_inputs : Int)⟩ := by
  unfold read_input.metadata
  rw [metadataLoop_spec]
  · simp
  · intro i hi
    have hi : i < num_inputs := List.mem_range.1 hi
    calc (i + 1) * num_features ≤ num_inputs * num_features :=
          Nat.mul_le_mul_right _ hi
      _ ≤ arr.length := h

/-- C11, the code at a failing input.  Two inputs of two features; the text names
the entry (1, 1) only, so row 1 is all zero.  `read_input` and
`read_input_binary` give `rlenY = [1, 0]`, and they list both rows:
`rowsY = [0, 1]`, `nerowsY = 2`. -/
theorem all_zero_row_is_listed :
    read_input to_numeric_plain Decimal.nonzero (some "1\t1\t2.0\n".toList) 2 2
        (List.replicate 4 Decimal.zero)
      = .ok ([⟨20, 1⟩, ⟨0, 0⟩, ⟨0, 0⟩, ⟨0, 0⟩], ⟨[1, 0], [0, 1], 2⟩) ∧
    read_input_binary Decimal.nonzero (some ⟨2, 2, [⟨20, 1⟩, ⟨0, 0⟩, ⟨0, 0⟩, ⟨0, 0⟩]⟩)
        (List.replicate 4 Decimal.zero)
      = .ok ([⟨20, 1⟩, ⟨0, 0⟩, ⟨0, 0⟩, ⟨0, 0⟩], ⟨[1, 0], [0, 1], 2⟩) := by
  decide

/-! ### Files that cannot be opened, files written from a string -/

/-- C15, the code at a failing input.  Without a file, `read_file_to_string` throws
`std::runtime_error`; the binary readers do not: `read_weight_binary` and the
batch `read_input_binary` return with the destination as it was, and
`read_input_binary` with metadata, `read_golden_binary` and `find_max_nnz_binary`
go on with unset header values, which is undefined behaviour and no raised
error. -/
theorem missing_binary_file_is_not_reported :
    read_file_to_string none = .error .runtimeError ∧
    (read_weight_binary.layer .single 2 3 2 0 0 none zeroArena).header = none ∧
    (∀ q : Int, read_weight_binary .single 2 3 1 2 0 (fun _ => none) zeroArena q
      = zeroArena q) ∧
    read_input_binary.batch (none : Option (DenseFile Decimal)) [Decimal.zero]
      = .ok [Decimal.zero] ∧
    read_input_binary Decimal.nonzero none [Decimal.zero] = .error .undefinedBehaviour ∧
    read_golden_binary none = .error .undefinedBehaviour ∧
    find_max_nnz_binary (fun _ => none) 1 = .error .undefinedBehaviour ∧
    Fault.undefinedBehaviour ≠ Fault.runtimeError :=
  ⟨rfl, rfl, fun _ => rfl, rfl, rfl, rfl, rfl, by decide⟩

/-- C18, the code at a failing input.  `write_file_from_string` leaves the file
empty whatever the string is: the stream truncates the file when it opens, the
write length is the size of the file at that moment, and so no character is
written.  On the string `abc` the file read back is empty, both over a longer
older file and without an older file. -/
theorem write_file_from_string_leaves_empty_file :
    (∀ (before : Option (List Char)) (s : List Char),
      write_file_from_string true before s = .ok []) ∧
    write_file_from_string true (some "0123456789".toList) "abc".toList = .ok [] ∧
    write_file_from_string true none "abc".toList = .ok [] ∧
    read_file_to_string (some []) = .ok [] ∧
    ([] : List Char) ≠ "abc".toList := by
  refine ⟨?_, by decide, by decide, rfl, by decide⟩
  intro before s
  simp [write_file_from_string, ofstream_open]

/-! ### Labels in binary form -/

/-- C16.  Label binary round trip.  For a label text whose lines hold indices in
`1 .. rows`, the file written by the label `tsv_file_to_binary_file` is the word
`rows` followed by exactly `rows` words, and `read_golden_binary` on this file
returns the vector of length `rows` that `read_golden` returns for the text with
`num_inputs = rows`. -/
theorem label_binary_round_trip (rows : Nat) (labels : List (List Char)) (finalNewline : Bool)
    (h : ∀ f ∈ labels, IsIntLiteral f ∧ 1 ≤ digitsVal f ∧ digitsVal f ≤ rows) :
    ∃ golden : List Int,
      tsv_file_to_binary_file.labels (some (textOfLines labels finalNewline)) rows
        = .ok ((rows : Int) :: golden) ∧
      golden.length = rows ∧
      read_golden_binary (some ((rows : Int) :: golden)) = .ok golden ∧
      read_golden (some (textOfLines labels finalNewline)) rows = .ok golden := by
  have hsplit : getlineAll '\n' (textOfLines labels finalNewline) = labels := by
    apply getlineAll_textOfLines
    · intro f hf; exact (intLiteral_no_delim f (h f hf).1).2
    · intro f hf; exact (h f hf).1.1
  obtain ⟨golden, hfill, hlen⟩ : ∃ g, read_golden.fill labels (List.replicate rows 0) = .ok g ∧
      g.length = rows :=
    ⟨_, fill_spec rows labels h (List.replicate rows 0) (by simp), by simp⟩
  refine ⟨golden, ?_, hlen, ?_, ?_⟩
  · simp only [tsv_file_to_binary_file.labels, read_file_to_string, hsplit, hfill]
  · simp [read_golden_binary, hlen]
  · simp only [read_golden, read_file_to_string, hsplit, hfill]

/-- Witness of `label_binary_round_trip`: the labels `3` and `1` with four rows. -/
theorem label_binary_round_trip_witness :
    (∀ f ∈ ["3".toList, "1".toList], IsIntLiteral f ∧ 1 ≤ digitsVal f ∧ digitsVal f ≤ 4) ∧
    tsv_file_to_binary_file.labels (some "3\n1\n".toList) 4 = .ok [4, 1, 0, 1, 0] ∧
    read_golden_binary (some [4, 1, 0, 1, 0]) = .ok [1, 0, 1, 0] ∧
    ∃ golden : List Int,
      tsv_file_to_binary_file.labels (some (textOfLines ["3".toList, "1".toList] true)) 4
        = .ok (((4 : Nat) : Int) :: golden) ∧
      golden.length = 4 ∧
      read_golden_binary (some (((4 : Nat) : Int) :: golden)) = .ok golden ∧
      read_golden (some (textOfLines ["3".toList, "1".toList] true)) 4 = .ok golden :=
  ⟨by decide, by decide, by decide,
    label_binary_round_trip 4 ["3".toList, "1".toList] true (by decide)⟩

/-! ### Dense text and binary paths -/

theorem position_in_range (rows cols : Nat) (r c : Int)
    (hr1 : 1 ≤ r) (hr2 : r ≤ (rows : Int)) (hc1 : 1 ≤ c) (hc2 : c ≤ (cols : Int)) :
    0 ≤ (r - 1) * (cols : Int) + c - 1 ∧
      (r - 1) * (cols : Int) + c - 1 < ((rows * cols : Nat) : Int) := by
  have hcols : (0 : Int) ≤ (cols : Int) := Int.ofNat_nonneg _
  have h1 : 0 ≤ (r - 1) * (cols : Int) := mul_nonneg (by omega) hcols
  have h2 : (r - 1 + 1) * (cols : Int) ≤ (rows : Int) * (cols : Int) :=
    mul_le_mul_of_nonneg_right (by omega) hcols
  rw [add_mul, one_mul] at h2
  push_cast
  constructor <;> omega

theorem position_injective (cols : Nat) (r c r' c' : Int)
    (hc1 : 1 ≤ c) (hc2 : c ≤ (cols : Int)) (hc1' : 1 ≤ c') (hc2' : c' ≤ (cols : Int)) :
    (r - 1) * (cols : Int) + c - 1 = (r' - 1) * (cols : Int) + c' - 1 ↔ r = r' ∧ c = c' := by
  constructor
  · intro h
    have hr : r = r' := by
      rcases lt_trichotomy r r' with hlt | heq | hgt
      · have : (r - 1 + 1) * (cols : Int) ≤ (r' - 1) * (cols : Int) :=
          mul_le_mul_of_nonneg_right (by omega) (Int.ofNat_nonneg _)
        rw [add_mul, one_mul] at this
        omega
      · exact heq
      · have : (r' - 1 + 1) * (cols : Int) ≤ (r - 1) * (cols : Int) :=
          mul_le_mul_of_nonneg_right (by omega) (Int.ofNat_nonneg _)
        rw [add_mul, one_mul] at this
        omega
    subst hr
    exact ⟨rfl, by omega⟩
  · rintro ⟨rfl, rfl⟩
    rfl

theorem store_wellFormed {V : Type} (to_numeric : List Char → Except Fault V)
    (cols : Nat) (l : CoordLine) (h : l.WellFormed to_numeric) (v : V)
    (hv : to_numeric l.valueField = .ok v) (arr : List V)
    (hpos : 0 ≤ l.position cols ∧ l.position cols < (arr.length : Int))
    (tokens : TokenStorage) :
    tsv_string_to_1D_array.store to_numeric cols (tokensOfLine tokens l.text) arr
      = .ok (arr.set (l.position cols).toNat v) := by
  unfold CoordLine.position at hpos
  rw [tokensOfLine_wellFormed to_numeric l h]
  unfold tsv_string_to_1D_array.store
  simp only [tokenAt, List.get?, stoi_intLiteral _ h.1,
    stoi_intLiteral _ h.2.1, hv, CoordLine.rowId, CoordLine.colId, CoordLine.position] at hpos ⊢
  rw [if_pos hpos]

theorem dense_loop_spec {V : Type} (to_numeric : List Char → Except Fault V) (zero : V)
    (cols n : Nat) (lines : List CoordLine)
    (hwf : ∀ l ∈ lines, l.WellFormed to_numeric)
    (hpos : ∀ l ∈ lines, 0 ≤ l.position cols ∧ l.position cols < (n : Int))
    (arr : List V) (harr : arr.length = n) (tokens : TokenStorage) :
    ∃ data, tsv_string_to_1D_array.loop to_numeric cols tokens (lines.map CoordLine.text) arr
        = .ok data ∧
      data.length = n ∧
      ∀ q : Nat, q < n →
        Except.ok (data.getD q zero) =
          match lastNaming cols lines q with
          | some l => to_numeric l.valueField
          | none => .ok (arr.getD q zero) := by
  induction lines generalizing arr tokens with
  | nil =>
    refine ⟨arr, rfl, harr, ?_⟩
    intro q _
    simp [lastNaming]
  | cons l ls ih =>
    have hl := hwf l (by simp)
    obtain ⟨v, hv⟩ := hl.2.2.2.2.2
    have hp := hpos l (by simp)
    have hstore := store_wellFormed to_numeric cols l hl v hv arr (by rw [harr]; exact hp) tokens
    obtain ⟨data, h1, h2, h3⟩ := ih (fun x hx => hwf x (by simp [hx]))
      (fun x hx => hpos x (by simp [hx])) (arr.set (l.position cols).toNat v) (by simp [harr])
      (tokensOfLine tokens l.text)
    refine ⟨data, ?_, h2, ?_⟩
    · simp only [List.map_cons, tsv_string_to_1D_array.loop, hstore, h1]
    · intro q hq
      rw [h3 q hq]
      unfold lastNaming
      simp only [List.reverse_cons, List.find?_append, List.find?_singleton]
      cases hf : ls.reverse.find? (fun l => decide (l.position cols = (q : Int))) with
      | some x => simp
      | none =>
        simp only [Option.none_or]
        by_cases hq2 : l.position cols = (q : Int)
        · have hi : (l.position cols).toNat = q := by omega
          simp [hq2, hv, hi, List.getElem?_set, harr, hq]
        · have hi : ¬ (l.position cols).toNat = q := by omega
          simp [hq2, List.getElem?_set, hi]

theorem sampleLines_dense_ids :
    ∀ l ∈ sampleLines, 1 ≤ l.rowId ∧ l.rowId ≤ ((2 : Nat) : Int) ∧ 1 ≤ l.colId ∧
      l.colId ≤ ((2 : Nat) : Int) := by
  decide

theorem getlineAll_ne_nil (d : Char) (s : List Char) (h : s ≠ []) : getlineAll d s ≠ [] := by
  cases s with
  | nil => exact absurd rfl h
  | cons c cs =>
    unfold getlineAll
    split
    · simp
    · split <;> simp

theorem length_getlineAll (d : Char) (s : List Char) :
    (getlineAll d s).length =
      s.count d + (if s = [] ∨ s.getLast? = some d then 0 else 1) := by
  induction s with
  | nil => simp [getlineAll]
  | cons c cs ih =>
    by_cases hc : c = d
    · subst hc
      simp only [getlineAll, if_true, List.length_cons, ih, List.count_cons_self]
      cases cs with
      | nil => simp
      | cons c2 cs2 => simp [List.getLast?_cons_cons]; omega
    · have hcount : (c :: cs).count d = cs.count d := by
        rw [List.count_cons]; simp [hc]
      cases cs with
      | nil =>
        have : ¬ (some c = some d) := by simpa using hc
        simp [getlineAll, hc, this, hcount]
      | cons c2 cs2 =>
        have hne := getlineAll_ne_nil d (c2 :: cs2) (by simp)
        rw [hcount]
        have hlen : (getlineAll d (c :: c2 :: cs2)).length = (getlineAll d (c2 :: cs2)).length := by
          rw [getlineAll, if_neg hc]
          cases hg : getlineAll d (c2 :: cs2) with
          | nil => exact absurd hg hne
          | cons l ls => simp
        rw [hlen, ih]
        simp [List.getLast?_cons_cons]

theorem count_nnz_eq_lines_iff (s : List Char) :
    count_nnz s = ((getlineAll '\n' s).length : Int) ↔ (s = [] ∨ s.getLast? = some '\n') := by
  unfold count_nnz
  rw [length_getlineAll]
  by_cases h : s = [] ∨ s.getLast? = some '\n'
  · simp [h]
  · simp only [h, if_false, iff_false]
    push_cast
    omega

theorem parseLines_length {α : Type} (body : TokenStorage → Except Fault α)
    (tokens : TokenStorage) (ls : List (List Char)) (ts : List α)
    (h : parseLines body tokens ls = .ok ts) :
    ts.length = ls.length := by
  induction ls generalizing ts tokens with
  | nil => simp only [parseLines, Except.ok.injEq] at h; subst h; rfl
  | cons l ls ih =>
    simp only [parseLines] at h
    cases hb : body (tokensOfLine tokens l) with
    | error e => simp [hb] at h
    | ok t =>
      cases hp : parseLines body (tokensOfLine tokens l) ls with
      | error e => simp [hb, hp] at h
      | ok ts2 =>
        simp only [hb, hp, Except.ok.injEq] at h
        subst h
        simp [ih _ ts2 hp]

theorem layer_header {V : Type} (to_numeric : List Char → Except Fault V)
    (lt : Triplet V → Triplet V → Bool) (sort : List (Triplet V) → List (Triplet V))
    (hsort : IsStdSort lt sort) (p : Precision) (bits : V → Nat → Int)
    (rows COL_BLK N_SLAB : Nat) (s : List Char) (file : List Int)
    (h : tsv_file_to_binary_file.layer to_numeric sort p bits rows COL_BLK N_SLAB (some s)
      = .ok file) :
    ∃ rest, file = (rows : Int) :: ((getlineAll '\n' s).length : Int) :: rest := by
  simp only [tsv_file_to_binary_file.layer, read_file_to_string] at h
  cases ht : tsv_file_to_binary_file.triplets to_numeric rows COL_BLK s with
  | error e => simp [ht] at h
  | ok ts =>
    have hlen := parseLines_length _ _ _ ts ht
    simp only [ht, tsv_file_to_binary_file.build] at h
    cases hc : countRows (sort ts) (List.replicate (rows * N_SLAB + 1) 0) with
    | error e => simp [hc] at h
    | ok counts =>
      simp only [hc, Except.ok.injEq] at h
      subst h
      refine ⟨partial_sum counts ++ ((sort ts).map (fun t => t.col) ++
        valuesWords p bits ((sort ts).map (fun t => t.value))), ?_⟩
      simp only [tsv_file_to_binary_file.output, List.singleton_append, List.cons_append,
        List.nil_append, (hsort ts).1.length_eq, hlen, List.append_assoc]

theorem find_max_nnz_loop_spec (texts : Nat → List Char) (is : List Nat) (m : Int) :
    find_max_nnz.loop (is.map (fun i => some (texts i))) m
      = .ok (is.foldl (fun a i => max a (count_nnz (texts i))) m) := by
  induction is generalizing m with
  | nil => rfl
  | cons i is ih => simp only [List.map_cons, find_max_nnz.loop, read_file_to_string, ih,
      List.foldl_cons]

theorem find_max_nnz_binary_loop_spec (texts : Nat → List Char) (binaries : Nat → List Int)
    (is : List Nat) (m : Int)
    (h : ∀ i ∈ is, ∃ r rest, binaries i = r :: count_nnz (texts i) :: rest) :
    find_max_nnz_binary.loop (is.map (fun i => some (binaries i))) m
      = .ok (is.foldl (fun a i => max a (count_nnz (texts i))) m) := by
  induction is generalizing m with
  | nil => rfl
  | cons i is ih =>
    obtain ⟨r, rest, hb⟩ := h i (by simp)
    simp only [List.map_cons, hb, find_max_nnz_binary.loop, List.foldl_cons]
    exact ih _ (fun j hj => h j (by simp [hj]))

theorem foldl_max_ge (f : Nat → Int) (is : List Nat) (m : Int) :
    m ≤ is.foldl (fun a i => max a (f i)) m ∧
      ∀ i ∈ is, f i ≤ is.foldl (fun a i => max a (f i)) m := by
  induction is generalizing m with
  | nil => simp
  | cons j js ih =>
    obtain ⟨h1, h2⟩ := ih (max m (f j))
    simp only [List.foldl_cons, List.mem_cons]
    refine ⟨le_trans (le_max_left _ _) h1, ?_⟩
    rintro i (rfl | hi)
    · exact le_trans (le_max_right _ _) h1
    · exact h2 i hi

/-- C20.  Nonzero counts agree between text and binary.  `count_nnz(s)` equals the
number of lines the parse loop reads exactly when `s` is empty or ends with a
newline; the `nnz` that `tsv_file_to_binary_file` writes to the header is that
number of lines.  So, when the text of every layer is empty or ends with a
newline, `find_max_nnz_binary` over the converted files returns what
`find_max_nnz` returns over the text files, this value is at least the `nnz` of
every layer, and both return 0 for `num_layers = 0`. -/
theorem nnz_counts_agree {V : Type} (to_numeric : List Char → Except Fault V)
    (lt : Triplet V → Triplet V → Bool) (sort : List (Triplet V) → List (Triplet V))
    (hsort : IsStdSort lt sort) (p : Precision) (bits : V → Nat → Int)
    (rows COL_BLK N_SLAB num_layers : Nat)
    (texts : Nat → List Char) (binaries : Nat → List Int)
    (hconv : ∀ i, i < num_layers →
      tsv_file_to_binary_file.layer to_numeric sort p bits rows COL_BLK N_SLAB
        (some (texts i)) = .ok (binaries i))
    (hnl : ∀ i, i < num_layers → texts i = [] ∨ (texts i).getLast? = some '\n') :
    (∀ s : List Char,
      count_nnz s = ((getlineAll '\n' s).length : Int) ↔ (s = [] ∨ s.getLast? = some '\n')) ∧
    (∀ (s : List Char) (file : List Int),
      tsv_file_to_binary_file.layer to_numeric sort p bits rows COL_BLK N_SLAB (some s)
        = .ok file →
      ∃ rest, file = (rows : Int) :: ((getlineAll '\n' s).length : Int) :: rest) ∧
    (∀ i, i < num_layers → ∃ rest, binaries i = (rows : Int) :: count_nnz (texts i) :: rest) ∧
    (∃ M : Int,
      find_max_nnz (fun i => some (texts i)) num_layers = .ok M ∧
      find_max_nnz_binary (fun i => some (binaries i)) num_layers = .ok M ∧
      ∀ i, i < num_layers → count_nnz (texts i) ≤ M) ∧
    find_max_nnz (fun i => some (texts i)) 0 = .ok 0 ∧
    find_max_nnz_binary (fun i => some (binaries i)) 0 = .ok 0 := by
  have hhead : ∀ i, i < num_layers →
      ∃ rest, binaries i = (rows : Int) :: count_nnz (texts i) :: rest := by
    intro i hi
    obtain ⟨rest, hr⟩ := layer_header to_numeric lt sort hsort p bits rows COL_BLK N_SLAB
      (texts i) (binaries i) (hconv i hi)
    exact ⟨rest, by rw [hr, (count_nnz_eq_lines_iff (texts i)).2 (hnl i hi)]⟩
  refine ⟨count_nnz_eq_lines_iff,
    fun s file h => layer_header to_numeric lt sort hsort p bits rows COL_BLK N_SLAB s file h,
    hhead, ?_, rfl, rfl⟩
  refine ⟨_, find_max_nnz_loop_spec texts (List.range num_layers) 0, ?_, ?_⟩
  · unfold find_max_nnz_binary
    apply find_max_nnz_binary_loop_spec texts binaries
    intro i hi
    obtain ⟨rest, hr⟩ := hhead i (List.mem_range.1 hi)
    exact ⟨_, rest, hr⟩
  · intro i hi
    exact (foldl_max_ge (fun i => count_nnz (texts i)) (List.range num_layers) 0).2 i
      (List.mem_range.2 hi)

/-- Witness of `nnz_counts_agree`: the two layers of `sampleTexts`. -/
theorem nnz_counts_agree_witness :
    IsStdSort (Triplet.ltRowCol (V := Decimal)) (insertionSort Triplet.ltRowCol) ∧
    (∀ i, i < 2 →
      tsv_file_to_binary_file.layer to_numeric_plain (insertionSort Triplet.ltRowCol) .single
        Decimal.bits 2 1 2 (some (sampleTexts i)) = .ok (sampleBinaries i)) ∧
    (∀ i, i < 2 → sampleTexts i = [] ∨ (sampleTexts i).getLast? = some '\n') ∧
    find_max_nnz (fun i => some (sampleTexts i)) 2 = .ok 2 ∧
    find_max_nnz_binary (fun i => some (sampleBinaries i)) 2 = .ok 2 ∧
    (∃ M : Int,
      find_max_nnz (fun i => some (sampleTexts i)) 2 = .ok M ∧
      find_max_nnz_binary (fun i => some (sampleBinaries i)) 2 = .ok M ∧
      ∀ i, i < 2 → count_nnz (sampleTexts i) ≤ M) :=
  ⟨isStdSort_ltRowCol, by decide, by decide, by decide, by decide,
    (nnz_counts_agree to_numeric_plain Triplet.ltRowCol (insertionSort Triplet.ltRowCol)
      isStdSort_ltRowCol .single Decimal.bits 2 1 2 2 sampleTexts sampleBinaries
      (by decide) (by decide)).2.2.2.1⟩

/-! ### Layouts of the text path and of the binary path -/

theorem getD_three_sections (A B C : List Int) :
    (∀ (k : Nat) (hk : k < A.length), (A ++ B ++ C).getD k 0 = A[k]) ∧
    (∀ (k : Nat) (hk : k < B.length), (A ++ B ++ C).getD (A.length + k) 0 = B[k]) ∧
    (∀ (k : Nat) (hk : k < C.length), (A ++ B ++ C).getD (A.length + B.length + k) 0 = C[k]) := by
  refine ⟨?_, ?_, ?_⟩
  · intro k hk
    rw [List.append_assoc, List.getD_append _ _ _ _ hk, List.getD_eq_getElem _ _ hk]
  · intro k hk
    rw [List.append_assoc, List.getD_append_right _ _ _ _ (by omega),
      List.getD_append _ _ _ _ (by omega)]
    have : A.length + k - A.length = k := by omega
    rw [List.getD_eq_getElem _ _ (by omega)]
    simp [this]
  · intro k hk
    rw [List.getD_append_right _ _ _ _ (by simp), List.getD_eq_getElem _ _ (by simp; omega)]
    simp

theorem writeWords_getD (arr : Arena) (location : Int) (ws : List Int) (k : Nat)
    (h : k < ws.length) :
    writeWords arr location ws (location + (k : Int)) = ws.getD k 0 := by
  rw [writeWords_inside arr location ws k h, List.getD_eq_getElem _ _ h]

theorem packed_array_sections {V : Type} (to_numeric : List Char → Except Fault V)
    (setFromTriplets : Nat → Nat → List (Triplet V) → EigenCSR V)
    (p : Precision) (bits : V → Nat → Int)
    (s : List Char) (rows cols nnz COL_BLK N_SLAB : Nat) (base : Int) (arr : Arena)
    (ts : List (Triplet V))
    (hts : tsv_file_to_binary_file.triplets to_numeric rows COL_BLK s = .ok ts) :
    ∃ arr', tsv_string_to_CSR_packed_array to_numeric setFromTriplets p bits s rows cols nnz
        COL_BLK N_SLAB base arr = .ok arr' ∧
      (∀ k : Nat, k < rows * N_SLAB + 1 →
        arr' (base + (k : Int)) = (setFromTriplets (rows * N_SLAB) cols ts).outerIndexPtr k) ∧
      (∀ k : Nat, k < nnz →
        arr' (base + ((rows * N_SLAB + 1 : Nat) : Int) + (k : Int))
          = (setFromTriplets (rows * N_SLAB) cols ts).innerIndexPtr k) ∧
      (∀ (k : Nat) (hk : k < (valuesWords p bits ((List.range nnz).map
            (setFromTriplets (rows * N_SLAB) cols ts).valuePtr)).length),
        arr' (base + tsv_string_to_CSR_packed_array.valuesOffset rows N_SLAB nnz + (k : Int))
          = (valuesWords p bits ((List.range nnz).map
              (setFromTriplets (rows * N_SLAB) cols ts).valuePtr))[k]) := by
  have hdef : tsv_string_to_CSR_packed_array to_numeric setFromTriplets p bits s rows cols nnz
      COL_BLK N_SLAB base arr
      = .ok (writeWords
          (writeWords
            (writeWords arr base
              ((List.range (rows * N_SLAB + 1)).map
                (setFromTriplets (rows * N_SLAB) cols ts).outerIndexPtr))
            (base + ((rows * N_SLAB + 1 : Nat) : Int))
            ((List.range nnz).map (setFromTriplets (rows * N_SLAB) cols ts).innerIndexPtr))
          (base + ((rows * N_SLAB + 1 + nnz : Nat) : Int))
          (valuesWords p bits
            ((List.range nnz).map (setFromTriplets (rows * N_SLAB) cols ts).valuePtr))) := by
    simp only [tsv_string_to_CSR_packed_array, hts]
  refine ⟨_, hdef, ?_, ?_, ?_⟩
  · intro k hk
    rw [writeWords_outside _ _ _ _ (Or.inl (by push_cast; omega)),
      writeWords_outside _ _ _ _ (Or.inl (by push_cast; omega))]
    have hlen : k < ((List.range (rows * N_SLAB + 1)).map
        (setFromTriplets (rows * N_SLAB) cols ts).outerIndexPtr).length := by simpa using hk
    rw [writeWords_inside _ _ _ k hlen]
    simp
  · intro k hk
    rw [writeWords_outside _ _ _ _ (Or.inl (by push_cast; omega))]
    have hlen : k < ((List.range nnz).map
        (setFromTriplets (rows * N_SLAB) cols ts).innerIndexPtr).length := by simpa using hk
    rw [writeWords_inside _ _ _ k hlen]
    simp
  · intro k hk
    exact writeWords_inside _ _ _ k hk

theorem tdiv_col (col : Int) (COL_BLK : Nat) (hcol0 : 0 ≤ col) :
    Int.tdiv col (COL_BLK : Int) = col / (COL_BLK : Int) :=
  Int.tdiv_eq_ediv hcol0 (Int.ofNat_nonneg _)

/-- The `int` expression of the virtual row has the value of the plain expression
`row + rows * (col / COL_BLK)` when that fits an `int`. -/
theorem virtualRow_of_fits (rows COL_BLK : Nat) (row col : Int)
    (hrow0 : 0 ≤ row) (hcol0 : 0 ≤ col)
    (hfit : row + (rows : Int) * (col / (COL_BLK : Int)) ≤ 2147483647) :
    tsv_file_to_binary_file.virtualRow rows COL_BLK row col
      = row + (rows : Int) * (col / (COL_BLK : Int)) := by
  have hq0 : 0 ≤ col / (COL_BLK : Int) := Int.ediv_nonneg hcol0 (Int.ofNat_nonneg _)
  have h1 : 0 ≤ (rows : Int) * (col / (COL_BLK : Int)) := mul_nonneg (Int.ofNat_nonneg _) hq0
  unfold tsv_file_to_binary_file.virtualRow
  rw [tdiv_col col COL_BLK hcol0]
  generalize (rows : Int) * (col / (COL_BLK : Int)) = P at h1 hfit ⊢
  rw [wrapInt_of_fits P (by omega) (by omega), wrapInt_of_fits _ (by omega) (by omega)]

theorem extent_of_fits (rows N_SLAB : Nat) (hfit : rows * N_SLAB + 1 ≤ 2147483647) :
    tsv_file_to_binary_file.extent rows N_SLAB = ((rows * N_SLAB + 1 : Nat) : Int) := by
  unfold tsv_file_to_binary_file.extent
  have h : (rows : Int) * (N_SLAB : Int) = ((rows * N_SLAB : Nat) : Int) := by push_cast; rfl
  rw [h]
  generalize rows * N_SLAB = P at hfit ⊢
  rw [wrapInt_of_fits (P : Int) (by omega) (by omega), wrapInt_of_fits _ (by omega) (by omega)]
  push_cast
  rfl

theorem slab_below (COL_BLK N_SLAB : Nat) (hblk : 1 ≤ COL_BLK) (col : Int)
    (hcol : col < ((COL_BLK * N_SLAB : Nat) : Int)) :
    col / (COL_BLK : Int) < (N_SLAB : Int) := by
  apply Int.ediv_lt_of_lt_mul (by exact_mod_cast hblk)
  push_cast at hcol
  rw [mul_comm]
  exact hcol

/-- The plain expression of the virtual row of ids in range is below
`rows * N_SLAB`. -/
theorem virtual_row_below (rows COL_BLK N_SLAB : Nat) (hblk : 1 ≤ COL_BLK) (row col : Int)
    (hrow0 : 0 ≤ row) (hrow1 : row < (rows : Int)) (hcol0 : 0 ≤ col)
    (hcol : col < ((COL_BLK * N_SLAB : Nat) : Int)) :
    0 ≤ row + (rows : Int) * (col / (COL_BLK : Int)) ∧
    row + (rows : Int) * (col / (COL_BLK : Int)) < ((rows * N_SLAB : Nat) : Int) := by
  have hq0 : 0 ≤ col / (COL_BLK : Int) := Int.ediv_nonneg hcol0 (Int.ofNat_nonneg _)
  have hq1 := slab_below COL_BLK N_SLAB hblk col hcol
  have hr : (0 : Int) ≤ (rows : Int) := Int.ofNat_nonneg _
  have h1 : 0 ≤ (rows : Int) * (col / (COL_BLK : Int)) := mul_nonneg hr hq0
  have h2 : (rows : Int) * (col / (COL_BLK : Int) + 1) ≤ (rows : Int) * (N_SLAB : Int) :=
    mul_le_mul_of_nonneg_left (by omega) hr
  rw [mul_add, mul_one] at h2
  push_cast
  constructor <;> omega

/-- C21, amended.  Slab relocation stays in range and is reversible.  Let `rows`,
`COL_BLK`, `N_SLAB` be at least 1 with `rows * N_SLAB + 1 ≤ INT_MAX`, so that the
extent of `row_array`, an `int` expression, is `rows * N_SLAB + 1`, and let
`0 ≤ row < rows`, `0 ≤ col`.  The virtual row `v` is the `int` expression
`row + rows * (col / COL_BLK)`, which is the row the parse loop gives to a line
with ids in range.  If `col < COL_BLK * N_SLAB` then `v` has the value of the
plain expression, `0 ≤ v < rows * N_SLAB`, the counting statement
`++row_array[v + 1]` stays inside the array, `v % rows = row` and
`v / rows = col / COL_BLK`, and two pairs of ids in range with the same virtual
row and column are the same pair.  If `col ≥ COL_BLK * N_SLAB` and the plain
expression still fits an `int`, the index `v + 1` is outside `row_array`, and the
counting statement has no defined behaviour. -/
theorem slab_relocation_reversible (rows COL_BLK N_SLAB : Nat)
    (hrows : 1 ≤ rows) (hblk : 1 ≤ COL_BLK) (_hslab : 1 ≤ N_SLAB)
    (hfit : rows * N_SLAB + 1 ≤ 2147483647)
    (row col : Int) (hrow0 : 0 ≤ row) (hrow1 : row < (rows : Int)) (hcol0 : 0 ≤ col) :
    tsv_file_to_binary_file.extent rows N_SLAB = ((rows * N_SLAB + 1 : Nat) : Int) ∧
    (∀ (V : Type) (to_numeric : List Char → Except Fault V) (l : CoordLine),
      l.WellFormed to_numeric →
      1 ≤ l.rowId ∧ l.rowId ≤ (rows : Int) ∧ 1 ≤ l.colId ∧
        l.colId ≤ ((COL_BLK * N_SLAB : Nat) : Int) →
      ∀ v, to_numeric l.valueField = .ok v →
      ∀ tokens, tsv_file_to_binary_file.entry to_numeric rows COL_BLK (tokensOfLine tokens l.text) =
        .ok ⟨tsv_file_to_binary_file.virtualRow rows COL_BLK (l.rowId - 1) (l.colId - 1),
          l.colId - 1, v⟩) ∧
    (col < ((COL_BLK * N_SLAB : Nat) : Int) →
      tsv_file_to_binary_file.virtualRow rows COL_BLK row col
        = row + (rows : Int) * (col / (COL_BLK : Int)) ∧
      0 ≤ tsv_file_to_binary_file.virtualRow rows COL_BLK row col ∧
      tsv_file_to_binary_file.virtualRow rows COL_BLK row col < ((rows * N_SLAB : Nat) : Int) ∧
      tsv_file_to_binary_file.virtualRow rows COL_BLK row col + 1
        < tsv_file_to_binary_file.extent rows N_SLAB ∧
      (∀ (V : Type) (value : V), ∃ counts,
        countRows [⟨tsv_file_to_binary_file.virtualRow rows COL_BLK row col, col, value⟩]
          (List.replicate (tsv_file_to_binary_file.extent rows N_SLAB).toNat 0) = .ok counts ∧
        counts.length = rows * N_SLAB + 1) ∧
      tsv_file_to_binary_file.virtualRow rows COL_BLK row col % (rows : Int) = row ∧
      tsv_file_to_binary_file.virtualRow rows COL_BLK row col / (rows : Int)
        = col / (COL_BLK : Int) ∧
      Int.tdiv col (COL_BLK : Int) = col / (COL_BLK : Int) ∧
      ∀ row' col' : Int, 0 ≤ row' → row' < (rows : Int) → 0 ≤ col' →
        col' < ((COL_BLK * N_SLAB : Nat) : Int) →
        tsv_file_to_binary_file.virtualRow rows COL_BLK row' col'
          = tsv_file_to_binary_file.virtualRow rows COL_BLK row col →
        col' = col → row' = row ∧ col' = col) ∧
    (((COL_BLK * N_SLAB : Nat) : Int) ≤ col →
      row + (rows : Int) * (col / (COL_BLK : Int)) ≤ 2147483647 →
      tsv_file_to_binary_file.extent rows N_SLAB
        ≤ tsv_file_to_binary_file.virtualRow rows COL_BLK row col + 1 ∧
      ∀ (V : Type) (value : V),
        countRows [⟨tsv_file_to_binary_file.virtualRow rows COL_BLK row col, col, value⟩]
          (List.replicate (tsv_file_to_binary_file.extent rows N_SLAB).toNat 0)
          = .error .undefinedBehaviour) := by
  have hb : (0 : Int) < (COL_BLK : Int) := by exact_mod_cast hblk
  have hr : (0 : Int) < (rows : Int) := by exact_mod_cast hrows
  have hext := extent_of_fits rows N_SLAB hfit
  have hfitI : ((rows * N_SLAB : Nat) : Int) + 1 ≤ 2147483647 := by exact_mod_cast hfit
  have hinRange : ∀ r c : Int, 0 ≤ r → r < (rows : Int) → 0 ≤ c →
      c < ((COL_BLK * N_SLAB : Nat) : Int) →
      tsv_file_to_binary_file.virtualRow rows COL_BLK r c
        = r + (rows : Int) * (c / (COL_BLK : Int)) ∧
      0 ≤ r + (rows : Int) * (c / (COL_BLK : Int)) ∧
      r + (rows : Int) * (c / (COL_BLK : Int)) < ((rows * N_SLAB : Nat) : Int) := by
    intro r c hr0 hr1 hc0 hc1
    obtain ⟨h0, h1⟩ := virtual_row_below rows COL_BLK N_SLAB hblk r c hr0 hr1 hc0 hc1
    exact ⟨virtualRow_of_fits rows COL_BLK r c hr0 hc0 (by omega), h0, h1⟩
  refine ⟨hext, ?_, ?_, ?_⟩
  · intro V to_numeric l hl hids v hvl tokens
    rw [tokensOfLine_wellFormed to_numeric l hl,
      entry_binary_wellFormed to_numeric rows COL_BLK (by omega) l hl v hvl]
    obtain ⟨a, b, c, d⟩ := hids
    rw [(hinRange (l.rowId - 1) (l.colId - 1) (by omega) (by omega) (by omega) (by omega)).1,
      tdiv_col _ _ (by omega)]
  · intro hcol
    obtain ⟨hv, hlo, hhi⟩ := hinRange row col hrow0 hrow1 hcol0 hcol
    refine ⟨hv, by rw [hv]; exact hlo, by rw [hv]; exact hhi, ?_, ?_, ?_, ?_,
      tdiv_col col COL_BLK hcol0, ?_⟩
    · rw [hv, hext]; push_cast at hhi ⊢; omega
    · intro V value
      have hin : 0 ≤ tsv_file_to_binary_file.virtualRow rows COL_BLK row col + 1 ∧
          tsv_file_to_binary_file.virtualRow rows COL_BLK row col + 1
            < (((List.replicate (tsv_file_to_binary_file.extent rows N_SLAB).toNat
                (0 : Int)).length : Nat) : Int) := by
        rw [List.length_replicate, hext, Int.toNat_ofNat, hv]
        push_cast at hhi ⊢
        omega
      refine ⟨incrAt (List.replicate (tsv_file_to_binary_file.extent rows N_SLAB).toNat 0)
        (tsv_file_to_binary_file.virtualRow rows COL_BLK row col + 1).toNat, ?_, ?_⟩
      · simp only [countRows, hin, and_self, if_true]
      · rw [length_incrAt, List.length_replicate, hext, Int.toNat_ofNat]
    · rw [hv, Int.add_mul_emod_self_left]
      exact Int.emod_eq_of_lt hrow0 hrow1
    · rw [hv, Int.add_mul_ediv_left _ _ (by omega), Int.ediv_eq_zero_of_lt hrow0 hrow1]
      omega
    · intro row' col' hr0 hr1 hc0 hc1 hveq hceq
      subst hceq
      rw [hv, (hinRange row' col' hr0 hr1 hc0 hc1).1] at hveq
      exact ⟨by omega, rfl⟩
  · intro hcol hfit2
    have hq1 : (N_SLAB : Int) ≤ col / (COL_BLK : Int) := by
      apply Int.le_ediv_of_mul_le hb
      push_cast at hcol
      rw [mul_comm]
      exact hcol
    have h2 : (rows : Int) * (N_SLAB : Int) ≤ (rows : Int) * (col / (COL_BLK : Int)) :=
      mul_le_mul_of_nonneg_left hq1 hr.le
    have hv := virtualRow_of_fits rows COL_BLK row col hrow0 hcol0 hfit2
    have hout : tsv_file_to_binary_file.extent rows N_SLAB
        ≤ tsv_file_to_binary_file.virtualRow rows COL_BLK row col + 1 := by
      rw [hv, hext]; push_cast; omega
    refine ⟨hout, ?_⟩
    intro V value
    have hnot : ¬ (0 ≤ tsv_file_to_binary_file.virtualRow rows COL_BLK row col + 1 ∧
        tsv_file_to_binary_file.virtualRow rows COL_BLK row col + 1
          < (((List.replicate (tsv_file_to_binary_file.extent rows N_SLAB).toNat
              (0 : Int)).length : Nat) : Int)) := by
      rw [List.length_replicate]
      rw [hext] at hout ⊢
      rw [Int.toNat_ofNat]
      omega
    simp only [countRows, hnot, if_false]

/-- Witness of `slab_relocation_reversible`: `rows = 2`, `COL_BLK = 1`,
`N_SLAB = 2`; the 0-based ids `(1, 1)` get the virtual row 3, `row_array` has 5
entries, and column 2 is out of range. -/
theorem slab_relocation_reversible_witness :
    1 ≤ 2 ∧ 1 ≤ 1 ∧ 2 * 2 + 1 ≤ 2147483647 ∧ (0 : Int) ≤ 1 ∧ (1 : Int) < ((2 : Nat) : Int) ∧
    tsv_file_to_binary_file.virtualRow 2 1 1 1 = 3 ∧
    tsv_file_to_binary_file.extent 2 2 = 5 ∧
    countRows [(⟨tsv_file_to_binary_file.virtualRow 2 1 1 1, 1, Decimal.zero⟩ : Triplet Decimal)]
      (List.replicate (tsv_file_to_binary_file.extent 2 2).toNat 0) = .ok [0, 0, 0, 0, 1] ∧
    countRows [(⟨tsv_file_to_binary_file.virtualRow 2 1 1 2, 2, Decimal.zero⟩ : Triplet Decimal)]
      (List.replicate (tsv_file_to_binary_file.extent 2 2).toNat 0)
      = .error .undefinedBehaviour ∧
    (
    tsv_file_to_binary_file.extent (2 : Nat) (2 : Nat) = (((2 : Nat) * (2 : Nat) + 1 : Nat) : Int) ∧
    (∀ (V : Type) (to_numeric : List Char → Except Fault V) (l : CoordLine),
      l.WellFormed to_numeric →
      1 ≤ l.rowId ∧ l.rowId ≤ ((2 : Nat) : Int) ∧ 1 ≤ l.colId ∧
        l.colId ≤ (((1 : Nat) * (2 : Nat) : Nat) : Int) →
      ∀ v, to_numeric l.valueField = .ok v →
      ∀ tokens, tsv_file_to_binary_file.entry to_numeric (2 : Nat) (1 : Nat) (tokensOfLine tokens l.text) =
        .ok ⟨tsv_file_to_binary_file.virtualRow (2 : Nat) (1 : Nat) (l.rowId - 1) (l.colId - 1),
          l.colId - 1, v⟩) ∧
    ((1 : Int) < (((1 : Nat) * (2 : Nat) : Nat) : Int) →
      tsv_file_to_binary_file.virtualRow (2 : Nat) (1 : Nat) (1 : Int) (1 : Int)
        = (1 : Int) + ((2 : Nat) : Int) * ((1 : Int) / ((1 : Nat) : Int)) ∧
      0 ≤ tsv_file_to_binary_file.virtualRow (2 : Nat) (1 : Nat) (1 : Int) (1 : Int) ∧
      tsv_file_to_binary_file.virtualRow (2 : Nat) (1 : Nat) (1 : Int) (1 : Int) < (((2 : Nat) * (2 : Nat) : Nat) : Int) ∧
      tsv_file_to_binary_file.virtualRow (2 : Nat) (1 : Nat) (1 : Int) (1 : Int) + 1
        < tsv_file_to_binary_file.extent (2 : Nat) (2 : Nat) ∧
      (∀ (V : Type) (value : V), ∃ counts,
        countRows [⟨tsv_file_to_binary_file.virtualRow (2 : Nat) (1 : Nat) (1 : Int) (1 : Int), (1 : Int), value⟩]
          (List.replicate (tsv_file_to_binary_file.extent (2 : Nat) (2 : Nat)).toNat 0) = .ok counts ∧
        counts.length = (2 : Nat) * (2 : Nat) + 1) ∧
      tsv_file_to_binary_file.virtualRow (2 : Nat) (1 : Nat) (1 : Int) (1 : Int) % ((2 : Nat) : Int) = (1 : Int) ∧
      tsv_file_to_binary_file.virtualRow (2 : Nat) (1 : Nat) (1 : Int) (1 : Int) / ((2 : Nat) : Int)
        = (1 : Int) / ((1 : Nat) : Int) ∧
      Int.tdiv (1 : Int) ((1 : Nat) : Int) = (1 : Int) / ((1 : Nat) : Int) ∧
      ∀ row' col' : Int, 0 ≤ row' → row' < ((2 : Nat) : Int) → 0 ≤ col' →
        col' < (((1 : Nat) * (2 : Nat) : Nat) : Int) →
        tsv_file_to_binary_file.virtualRow (2 : Nat) (1 : Nat) row' col'
          = tsv_file_to_binary_file.virtualRow (2 : Nat) (1 : Nat) (1 : Int) (1 : Int) →
        col' = (1 : Int) → row' = (1 : Int) ∧ col' = (1 : Int)) ∧
    ((((1 : Nat) * (2 : Nat) : Nat) : Int) ≤ (1 : Int) →
      (1 : Int) + ((2 : Nat) : Int) * ((1 : Int) / ((1 : Nat) : Int)) ≤ 2147483647 →
      tsv_file_to_binary_file.extent (2 : Nat) (2 : Nat)
        ≤ tsv_file_to_binary_file.virtualRow (2 : Nat) (1 : Nat) (1 : Int) (1 : Int) + 1 ∧
      ∀ (V : Type) (value : V),
        countRows [⟨tsv_file_to_binary_file.virtualRow (2 : Nat) (1 : Nat) (1 : Int) (1 : Int), (1 : Int), value⟩]
          (List.replicate (tsv_file_to_binary_file.extent (2 : Nat) (2 : Nat)).toNat 0)
          = .error .undefinedBehaviour)) :=
  ⟨by decide, by decide, by decide, by decide, by decide, by decide, by decide, by decide,
    by decide,
    slab_relocation_reversible 2 1 2 (by decide) (by decide) (by decide) (by decide) 1 1
      (by decide) (by decide) (by decide)⟩

/-- C21, counterexample.  With `rows = N_SLAB = 65536` and `COL_BLK = 1` the ids
`row = 0`, `col = 0` are in range, but `rows * N_SLAB + 1` does not fit an `int`:
`row_array` is declared with one entry and the counting statement
`++row_array[v + 1]`, with `v = 0`, writes outside it.  With `rows = 4`,
`COL_BLK = 1`, `N_SLAB = 1` the column `1073741824` is out of range, but
`4 * 1073741824` wraps around to 0 and the index `v + 1 = 1` is inside the five
entries of `row_array`. -/
theorem relocation_fails_on_overflow :
    (1 ≤ 65536 ∧ 1 ≤ 1 ∧ (0 : Int) ≤ 0 ∧ (0 : Int) < ((65536 : Nat) : Int) ∧
      (0 : Int) < ((1 * 65536 : Nat) : Int)) ∧
    tsv_file_to_binary_file.virtualRow 65536 1 0 0 = 0 ∧
    tsv_file_to_binary_file.extent 65536 65536 = 1 ∧
    ¬ (tsv_file_to_binary_file.virtualRow 65536 1 0 0 + 1
        < tsv_file_to_binary_file.extent 65536 65536) ∧
    countRows [(⟨tsv_file_to_binary_file.virtualRow 65536 1 0 0, 0, Decimal.zero⟩ :
        Triplet Decimal)]
      (List.replicate (tsv_file_to_binary_file.extent 65536 65536).toNat 0)
      = .error .undefinedBehaviour ∧
    ((((1 * 1 : Nat) : Int) ≤ 1073741824) ∧
      tsv_file_to_binary_file.virtualRow 4 1 0 1073741824 = 0 ∧
      tsv_file_to_binary_file.extent 4 1 = 5 ∧
      tsv_file_to_binary_file.virtualRow 4 1 0 1073741824 + 1
        < tsv_file_to_binary_file.extent 4 1 ∧
      countRows [(⟨tsv_file_to_binary_file.virtualRow 4 1 0 1073741824, 1073741824,
          Decimal.zero⟩ : Triplet Decimal)]
        (List.replicate (tsv_file_to_binary_file.extent 4 1).toNat 0) = .ok [0, 1, 0, 0, 0]) := by
  decide

/-! ### Row flags of the batched binary loader -/

theorem flagsLoop_spec {V : Type} (nonzero : V → Bool) (num_features : Nat) (arr : List V)
    (is : List Nat) (rowsY : List Bool)
    (h : ∀ i ∈ is, (i + 1) * num_features ≤ arr.length) :
    read_input_binary.flagsLoop nonzero num_features arr is rowsY =
      .ok (rowsY ++ is.map (fun i =>
        ((arr.drop (i * num_features)).take num_features).any nonzero)) := by
  induction is generalizing rowsY with
  | nil => simp [read_input_binary.flagsLoop]
  | cons i is ih =>
    have hi := h i (by simp)
    simp only [read_input_binary.flagsLoop, hi, if_true]
    rw [ih _ (fun j hj => h j (by simp [hj]))]
    simp

end SparseDNN
